import Mathlib

/-! AcueStore (`src/script.js`): catalog state, persistence and views.

A shallow embedding of the `AcueStore` class of `src/script.js`.

* The instance fields (`this.apps`, `this.currentFilter`, `this.currentUser`, ...) and
  `localStorage` are one explicit record, `AcueStore`; every method is a function on it.
* What a method shows to the outside (an `alert`, `showSuccessMessage`, the content it writes
  into a container of the page) is appended to the field `log`.
* Values read from the page (`document.getElementById(..).value`, `Date.now()`, `confirm(..)`)
  are arguments of the method.
* A JavaScript number is `JSNumber`: a finite number is the rational it denotes (rounding
  error of the binary representation is not modelled), next to `NaN` and `±Infinity`.
* A string held by `localStorage` is `Stored α`: either a text `JSON.parse` rejects, or the
  JSON text of a value. `JSON.stringify` and `JSON.parse` are the two library functions
  modelled by `App.toJSON` / `JsonApp.parse`.
* The page elements the methods look up are taken to exist.
-/

namespace AcueStore

/-! ## JavaScript numbers -/

/-- A JavaScript number: what `parseFloat` returns. -/
inductive JSNumber where
  | fin (q : ℚ)
  | nan
  | posInf
  | negInf
  deriving DecidableEq

namespace JSNumber

/-- The JavaScript comparison `a < b` (false as soon as one side is `NaN`). -/
def lt : JSNumber → JSNumber → Bool
  | fin a, fin b => decide (a < b)
  | fin _, posInf => true
  | negInf, fin _ => true
  | negInf, posInf => true
  | _, _ => false

/-- The JavaScript comparison `a > b`. -/
def gt (a b : JSNumber) : Bool := lt b a

/-- The JavaScript `!a`: a number is falsy when it is `0` or `NaN`. -/
def isFalsy : JSNumber → Bool
  | fin q => decide (q = 0)
  | nan => true
  | _ => false

/-- The JavaScript subtraction `a - b`. -/
def sub : JSNumber → JSNumber → JSNumber
  | fin a, fin b => fin (a - b)
  | nan, _ => nan
  | _, nan => nan
  | posInf, posInf => nan
  | negInf, negInf => nan
  | posInf, _ => posInf
  | negInf, _ => negInf
  | fin _, posInf => negInf
  | fin _, negInf => posInf

/-- The value of `Math.round(a * 10) / 10`; `Math.round x` is `⌊x + 1/2⌋`. -/
def roundToTenth : JSNumber → JSNumber
  | fin q => fin ((⌊q * 10 + 1 / 2⌋ : ℤ) / 10)
  | nan => nan
  | posInf => posInf
  | negInf => negInf

end JSNumber

/-- The value held by the `rating` field of a record: a number, or `null`, which is what
`JSON.parse` gives back for a number that `JSON.stringify` could not write. -/
inductive Rating where
  | number (n : JSNumber)
  | null
  deriving DecidableEq

/-- The number a rating stands for in arithmetic and comparisons (`null` converts to `0`). -/
def Rating.toNumber : Rating → JSNumber
  | .number n => n
  | .null => .fin 0

/-! ## Records -/

/-- One catalog entry as held in `this.apps`. The download URL and the hot flag exist under
two spellings; each spelling and `badges` may be missing from a record. -/
structure App where
  id : String
  name : String
  developer : String
  category : String
  rating : Rating
  description : String
  icon : String
  downloadUrl : Option String
  download_url : Option String
  isHot : Option Bool
  is_hot : Option Bool
  badges : Option (List String)
  deriving DecidableEq

/-- One catalog entry as written in JSON text: a JSON number is finite, so the rating is a
rational or `null`. -/
structure JsonApp where
  id : String
  name : String
  developer : String
  category : String
  rating : Option ℚ
  description : String
  icon : String
  downloadUrl : Option String
  download_url : Option String
  isHot : Option Bool
  is_hot : Option Bool
  badges : Option (List String)
  deriving DecidableEq

/-- How `JSON.stringify` writes a rating: `NaN` and `±Infinity` are written `null`. -/
def Rating.toJSON : Rating → Option ℚ
  | .number (.fin q) => some q
  | _ => none

/-- What `JSON.parse` reads a rating as. -/
def Rating.parse : Option ℚ → Rating
  | some q => .number (.fin q)
  | none => .null

/-- The JSON form `JSON.stringify` gives a record: a missing field stays missing. -/
def App.toJSON (a : App) : JsonApp :=
  { id := a.id, name := a.name, developer := a.developer, category := a.category,
    rating := a.rating.toJSON, description := a.description, icon := a.icon,
    downloadUrl := a.downloadUrl, download_url := a.download_url,
    isHot := a.isHot, is_hot := a.is_hot, badges := a.badges }

/-- The record `JSON.parse` builds from its JSON form. -/
def JsonApp.parse (j : JsonApp) : App :=
  { id := j.id, name := j.name, developer := j.developer, category := j.category,
    rating := Rating.parse j.rating, description := j.description, icon := j.icon,
    downloadUrl := j.downloadUrl, download_url := j.download_url,
    isHot := j.isHot, is_hot := j.is_hot, badges := j.badges }

/-- A local account, as kept in the list under `nexoraStoreUsers`. -/
structure UserRecord where
  id : String
  username : String
  password : String
  email : String
  created_at : String
  is_banned : Bool
  deriving DecidableEq

/-- The value of `this.currentUser` when somebody is logged in. -/
structure SessionIdentity where
  id : String
  username : String
  email : String
  deriving DecidableEq

/-! ## localStorage -/

/-- A string held by `localStorage`, seen through `JSON.parse`: a text that `JSON.parse`
rejects with a `SyntaxError` (kept as it is), or the JSON text of `value`. A JSON text is
never the empty string; `unparsable ""` is the empty string. -/
inductive Stored (α : Type) where
  | unparsable (raw : String)
  | json (value : α)
  deriving DecidableEq

/-- The JavaScript truthiness of a stored string: only the empty string is falsy. -/
def Stored.truthy {α : Type} : Stored α → Bool
  | .unparsable raw => raw != ""
  | .json _ => true

/-- The three keys of `localStorage` used by the catalog and the accounts; `none` is a key
that is absent (`getItem` returns `null`). -/
structure Storage where
  nexoraStoreApps : Option (Stored (List JsonApp))
  nexoraStoreUser : Option (Stored SessionIdentity)
  nexoraStoreUsers : Option (Stored (List UserRecord))
  deriving DecidableEq

/-- An exception thrown to the caller of a method. -/
inductive JSError where
  | syntaxError
  deriving DecidableEq

/-- The library function `JSON.parse` on a stored string. -/
def JSON.parse {α : Type} : Stored α → Except JSError α
  | .unparsable _ => .error .syntaxError
  | .json v => .ok v

/-! ## Library functions on strings and arrays -/

/-- The regular-expression class `\s`: the white space and line terminator characters. -/
def isWhiteSpace (c : Char) : Bool :=
  let n := c.toNat
  (9 ≤ n && n ≤ 13) || n == 32 || n == 160 || n == 5760 || (8192 ≤ n && n ≤ 8202) ||
    n == 8232 || n == 8233 || n == 8239 || n == 8287 || n == 12288 || n == 65279

/-- Rewrites each maximal run of white space as one `-`; `inRun` tells that the character
before the list was white space. -/
def replaceWhiteSpaceRuns : Bool → List Char → List Char
  | _, [] => []
  | inRun, c :: cs =>
    if isWhiteSpace c then
      if inRun then replaceWhiteSpaceRuns true cs else '-' :: replaceWhiteSpaceRuns true cs
    else c :: replaceWhiteSpaceRuns false cs

/-- The call `str.replace(/\s+/g, '-')`. -/
def replaceWhiteSpace (str : String) : String :=
  String.mk (replaceWhiteSpaceRuns false str.data)

/-- The call `str.toLowerCase()`, on the letters `A`-`Z`; other characters are kept. -/
def toLowerCase (str : String) : String :=
  str.map Char.toLower

/-- The call `arr.sort(compareFn)`: a stable sort that puts `a` before `b` when
`compareFn(a, b) < 0` and `b` before `a` when `compareFn(a, b) > 0`; a result of `NaN`
counts as `0`. When `compareFn` is not a consistent ordering (a `NaN` among the compared
numbers) JavaScript leaves the resulting order to the implementation; the statements made
for every collection use only that the result is a rearrangement of `arr`. -/
def sort {α : Type} (compareFn : α → α → JSNumber) (arr : List α) : List α :=
  arr.insertionSort (fun a b => (compareFn a b).gt (.fin 0) = false)

/-- The element that `arr.find(p)` returns is changed in place by `f`: the first element
satisfying `p` is replaced by its image, all others stay. -/
def updateFirst {α : Type} (p : α → Bool) (f : α → α) : List α → List α
  | [] => []
  | a :: arr => if p a then f a :: arr else a :: updateFirst p f arr

/-- The call `str.trim()`: white space is taken from both ends. -/
def trim (str : String) : String :=
  String.mk ((str.data.dropWhile isWhiteSpace).reverse.dropWhile isWhiteSpace).reverse

/-- Whether `search` occurs in `str`, a list of characters, at some position. -/
def includesChars (search : List Char) : List Char → Bool
  | [] => search.isEmpty
  | c :: cs => search.isPrefixOf (c :: cs) || includesChars search cs

/-- The call `str.includes(search)`. -/
def includes (str search : String) : Bool :=
  includesChars search.data str.data

/-- The position, counted from `i`, of the first occurrence of `search` in a list of
characters, and `-1` if there is none. -/
def indexOfFrom (search : List Char) : List Char → Nat → Int
  | [], i => if search.isEmpty then i else -1
  | c :: cs, i => if search.isPrefixOf (c :: cs) then i else indexOfFrom search cs (i + 1)

/-- The call `str.indexOf(search)`. -/
def indexOf (str search : String) : Int :=
  indexOfFrom search.data str.data 0

/-- The property `str.length`: the number of UTF-16 code units, two for a character
outside the basic plane. -/
def jsLength (str : String) : Nat :=
  (str.data.map (fun c => if c.toNat < 65536 then 1 else 2)).sum

/-! ## What the page shows -/

/-- The containers of the page that list records. -/
inductive View where
  | hotAppsContainer
  | appsGrid
  | popularApps
  | searchResults
  | editorsChoiceContainer
  | featuredAppsContainer
  | trendingAppsContainer
  | newAppsContainer
  | appsManagementList
  | ratingsList
  | badgesList
  deriving DecidableEq

/-- A piece of a template literal: text, text between double quotes, or an interpolated
rating. -/
inductive Part where
  | text (str : String)
  | quoted (str : String)
  | rating (r : Rating)
  deriving DecidableEq

/-- What a method shows: an `alert`, a `showSuccessMessage`, the records it writes into a
container, the value it gives to `style.display` of a container, the "No Results" text it
writes into the container of the search results, or the accounts it writes into the list of
users. -/
inductive Event where
  | alert (msg : String)
  | success (msg : List Part)
  | render (view : View) (shown : List App)
  | display (view : View) (style : String)
  | noResults
  | renderUsers (users : List UserRecord)
  deriving DecidableEq

end AcueStore

/-- The fields of an `AcueStore` instance together with `localStorage` and the record of
what has been shown. -/
structure AcueStore where
  apps : List AcueStore.App
  currentFilter : String
  currentSearchTerm : String
  currentPage : String
  currentUser : Option AcueStore.SessionIdentity
  localStorage : AcueStore.Storage
  log : List AcueStore.Event
  deriving DecidableEq

namespace AcueStore

/-- The fields as the constructor sets them before it loads anything, over a given
`localStorage`. -/
def new (localStorage : Storage) : AcueStore :=
  { apps := [], currentFilter := "", currentSearchTerm := "", currentPage := "today",
    currentUser := none, localStorage := localStorage, log := [] }

/-- Appends one event to the record of what has been shown. -/
def emit (e : Event) (s : AcueStore) : AcueStore :=
  { s with log := s.log ++ [e] }

/-- The call `alert(msg)`. -/
def alert (msg : String) (s : AcueStore) : AcueStore := emit (.alert msg) s

/-- The method `showSuccessMessage(message)`. -/
def showSuccessMessage (message : List Part) (s : AcueStore) : AcueStore :=
  emit (.success message) s

end AcueStore

namespace AcueStore

/-! ## Persistence of the catalog -/

/-- The library function `JSON.stringify` on the array `this.apps`. -/
def JSON.stringify (apps : List App) : Stored (List JsonApp) :=
  .json (apps.map App.toJSON)

/-- The method `saveAppsToStorage` (`localStorage` is taken to have room for the text). -/
def saveAppsToStorage (s : AcueStore) : AcueStore :=
  { s with localStorage :=
      { s.localStorage with nexoraStoreApps := some (JSON.stringify s.apps) } }

/-- The method `loadAppsFromStorage`; `appsData` is `window.appsData`, `none` when the page
defines none. A stored string that is missing or empty is falsy and takes the branch that
initialises from `appsData`. -/
def loadAppsFromStorage (appsData : Option (List App)) (s : AcueStore) :
    Except JSError AcueStore :=
  match s.localStorage.nexoraStoreApps with
  | some storedApps =>
    if storedApps.truthy then
      match JSON.parse storedApps with
      | .ok v => .ok { s with apps := v.map JsonApp.parse }
      | .error e => .error e
    else
      .ok (saveAppsToStorage { s with apps := appsData.getD [] })
  | none =>
    .ok (saveAppsToStorage { s with apps := appsData.getD [] })

/-- The method `loadUserSession` (the change of the profile area of the page is not part of
the state). -/
def loadUserSession (s : AcueStore) : Except JSError AcueStore :=
  match s.localStorage.nexoraStoreUser with
  | some savedUser =>
    if savedUser.truthy then
      match JSON.parse savedUser with
      | .ok u => .ok { s with currentUser := some u }
      | .error e => .error e
    else
      .ok s
  | none => .ok s

/-! ## Views -/

/-- The method `renderHotApps`. -/
def renderHotApps (s : AcueStore) : AcueStore :=
  let hotApps := (s.apps.filter (fun app => app.is_hot == some true || app.isHot == some true)).take 8
  emit (.render .hotAppsContainer hotApps) s

/-- The method `renderAllApps`: it filters a copy of `this.apps`. -/
def renderAllApps (s : AcueStore) : AcueStore :=
  let appsToRender :=
    if s.currentFilter != "" then s.apps.filter (fun app => app.category == s.currentFilter)
    else s.apps
  emit (.render .appsGrid appsToRender) s

/-- The comparison function of `renderPopularApps`: `(a, b) => b.rating - a.rating`. -/
def byRatingDesc (a b : App) : JSNumber :=
  b.rating.toNumber.sub a.rating.toNumber

/-- The method `renderPopularApps`: `this.apps.sort(..)` sorts the array `this.apps` itself,
and `slice(0, 6)` copies the first six of it. -/
def renderPopularApps (s : AcueStore) : AcueStore :=
  let sorted := sort byRatingDesc s.apps
  emit (.render .popularApps (sorted.take 6)) { s with apps := sorted }

/-- The method `loadAppsManagement`. -/
def loadAppsManagement (s : AcueStore) : AcueStore :=
  emit (.render .appsManagementList s.apps) s

/-- The method `loadRatingsList`. -/
def loadRatingsList (s : AcueStore) : AcueStore :=
  emit (.render .ratingsList s.apps) s

/-- The test `app.badges && app.badges.includes(badge)`: false for a record without a
`badges` field. -/
def hasBadge (badge : String) (app : App) : Bool :=
  match app.badges with
  | some badges => badges.contains badge
  | none => false

/-- The filter `arr.filter((app, index, arr) => arr.findIndex(a => a.id === app.id) === index)`:
a record stays when it is the first of `arr` with its id. -/
def uniqueById (arr : List App) : List App :=
  (arr.enum.filter (fun p => arr.findIdx? (fun a => a.id == p.2.id) == some p.1)).map
    Prod.snd

/-- The method `renderBadgeSection`. -/
def renderBadgeSection (apps : List App) (containerId : View) (s : AcueStore) : AcueStore :=
  emit (.render containerId apps) s

/-- The method `renderEditorsChoice`. -/
def renderEditorsChoice (s : AcueStore) : AcueStore :=
  let editorsChoiceApps := s.apps.filter (hasBadge "editors-choice")
  let uniqueEditorsChoiceApps := (uniqueById editorsChoiceApps).take 8
  renderBadgeSection uniqueEditorsChoiceApps .editorsChoiceContainer s

/-- The method `renderFeaturedApps`. -/
def renderFeaturedApps (s : AcueStore) : AcueStore :=
  let featuredApps := s.apps.filter (hasBadge "featured")
  let uniqueFeaturedApps := (uniqueById featuredApps).take 8
  renderBadgeSection uniqueFeaturedApps .featuredAppsContainer s

/-- The method `renderTrendingApps`. -/
def renderTrendingApps (s : AcueStore) : AcueStore :=
  let trendingApps := s.apps.filter (hasBadge "trending")
  let uniqueTrendingApps := (uniqueById trendingApps).take 8
  renderBadgeSection uniqueTrendingApps .trendingAppsContainer s

/-- The method `renderNewApps`. -/
def renderNewApps (s : AcueStore) : AcueStore :=
  let newApps := s.apps.filter (hasBadge "new")
  let uniqueNewApps := (uniqueById newApps).take 8
  renderBadgeSection uniqueNewApps .newAppsContainer s

/-- The method `filterByCategory`. -/
def filterByCategory (category : String) (s : AcueStore) : AcueStore :=
  renderAllApps { s with currentFilter := category }

/-- The comparison function of `handleSearch`: a record whose lower-cased name has the term
at position `0` goes before one whose name has not. -/
def byRelevance (currentSearchTerm : String) (a b : App) : JSNumber :=
  let aNameIndex := indexOf (toLowerCase a.name) currentSearchTerm
  let bNameIndex := indexOf (toLowerCase b.name) currentSearchTerm
  if aNameIndex == 0 && bNameIndex != 0 then .fin (-1)
  else if bNameIndex == 0 && aNameIndex != 0 then .fin 1
  else .fin 0

/-- The method `handleSearch`. -/
def handleSearch (s : AcueStore) : AcueStore :=
  if s.currentSearchTerm == "" then
    let s := emit (.display .popularApps "grid") s
    emit (.display .searchResults "none") s
  else
    let filteredApps := s.apps.filter (fun app =>
      includes (toLowerCase app.name) s.currentSearchTerm ||
      includes (toLowerCase app.developer) s.currentSearchTerm ||
      includes (toLowerCase app.description) s.currentSearchTerm ||
      includes (toLowerCase app.category) s.currentSearchTerm)
    let filteredApps := sort (byRelevance s.currentSearchTerm) filteredApps
    let s := emit (.display .popularApps "none") s
    let s := emit (.display .searchResults "block") s
    if filteredApps.length == 0 then emit .noResults s
    else emit (.render .searchResults filteredApps) s

/-- The listener of the search field in `setupEventListeners`; `value` is the text of the
field. -/
def onSearchInput (value : String) (s : AcueStore) : AcueStore :=
  handleSearch { s with currentSearchTerm := trim (toLowerCase value) }

/-! ## Mutations of the catalog -/

/-- The id `addNewApp` gives a new record:
`appName.toLowerCase().replace(/\s+/g, '-') + '-' + Date.now()`. -/
def newAppId (appName : String) (now : Nat) : String :=
  replaceWhiteSpace (toLowerCase appName) ++ "-" ++ toString now

/-- The method `addNewApp`; the arguments are the values of the form fields (`appRating`
after `parseFloat`) and `now`, the value of `Date.now()`. -/
def addNewApp (appName : String) (appRating : JSNumber) (appBio appCategory
    appDownloadLink : String) (now : Nat) (s : AcueStore) : AcueStore :=
  if appName == "" || appRating.isFalsy || appBio == "" || appCategory == "" ||
      appDownloadLink == "" then
    alert "Please fill in all fields" s
  else if appRating.lt (.fin 1) || appRating.gt (.fin 5) then
    alert "Rating must be between 1 and 5" s
  else
    let newApp : App :=
      { id := newAppId appName now
        name := appName
        developer := "User Added"
        category := appCategory
        rating := .number appRating
        description := appBio
        icon := "fas fa-mobile-alt"
        downloadUrl := some appDownloadLink
        download_url := some appDownloadLink
        isHot := some false
        is_hot := some false
        badges := some [] }
    let s := { s with apps := s.apps ++ [newApp] }
    let s := saveAppsToStorage s
    let s := loadAppsManagement s
    let s := renderHotApps s
    let s := renderAllApps s
    let s := renderPopularApps s
    showSuccessMessage [.text "App added successfully!"] s

/-- The method `saveAppChanges`; the arguments after `appId` are the values of the fields of
the edit dialog (`editAppRating` after `parseFloat`, `editAppHot` the state of the check
box). -/
def saveAppChanges (appId : String) (editAppName editAppDeveloper : String)
    (editAppRating : JSNumber) (editAppDescription editAppCategory editAppUrl : String)
    (editAppHot : Bool) (s : AcueStore) : AcueStore :=
  match s.apps.find? (fun a => a.id == appId) with
  | none => s
  | some _ =>
    let s := { s with apps := updateFirst (fun a => a.id == appId) (fun app =>
      { app with
        name := editAppName
        developer := editAppDeveloper
        rating := .number editAppRating
        description := editAppDescription
        category := editAppCategory
        downloadUrl := some editAppUrl
        download_url := some editAppUrl
        isHot := some editAppHot
        is_hot := some editAppHot }) s.apps }
    let s := saveAppsToStorage s
    let s := loadAppsManagement s
    let s := renderHotApps s
    let s := renderAllApps s
    let s := renderPopularApps s
    showSuccessMessage [.text "App updated successfully!"] s

/-- The method `updateAppRating`; the arguments are the values of the form fields
(`newRating` after `parseFloat`). -/
def updateAppRating (selectedAppId : String) (newRating : JSNumber) (s : AcueStore) :
    AcueStore :=
  if selectedAppId == "" || newRating.isFalsy then
    alert "Please select an app and enter a rating" s
  else if newRating.lt (.fin 1) || newRating.gt (.fin 5) then
    alert "Rating must be between 1 and 5" s
  else
    match s.apps.find? (fun a => a.id == selectedAppId) with
    | none => alert "App not found" s
    | some app =>
      let oldRating := app.rating
      let s := { s with apps := (updateFirst (fun a => a.id == selectedAppId)
        (fun app => { app with rating := .number newRating }) s.apps) }
      let s := saveAppsToStorage s
      let s := loadAppsManagement s
      let s := renderHotApps s
      let s := renderAllApps s
      let s := renderPopularApps s
      showSuccessMessage [.text "Rating updated for ", .text app.name, .text " from ",
        .rating oldRating, .text " to ", .rating (.number newRating)] s

/-- The method `quickUpdateRating`. -/
def quickUpdateRating (appId : String) (newRating : JSNumber) (s : AcueStore) : AcueStore :=
  match s.apps.find? (fun a => a.id == appId) with
  | none => s
  | some app =>
    let oldRating := app.rating
    let rounded : Rating := .number newRating.roundToTenth
    let s := { s with apps := (updateFirst (fun a => a.id == appId)
      (fun app => { app with rating := rounded }) s.apps) }
    let s := saveAppsToStorage s
    let s := renderHotApps s
    let s := renderAllApps s
    let s := renderPopularApps s
    let s := loadAppsManagement s
    let s := loadRatingsList s
    showSuccessMessage [.text "Rating updated for ", .text app.name, .text " from ",
      .rating oldRating, .text " to ", .rating rounded] s

/-- The method `removeApp`; `confirmed` is the answer to the `confirm` dialog. -/
def removeApp (appId : String) (confirmed : Bool) (s : AcueStore) : AcueStore :=
  if !confirmed then s
  else
    match s.apps.findIdx? (fun a => a.id == appId) with
    | none => s
    | some appIndex =>
      let s := { s with apps := s.apps.eraseIdx appIndex }
      let s := saveAppsToStorage s
      let s := loadAppsManagement s
      let s := renderHotApps s
      let s := renderAllApps s
      let s := renderPopularApps s
      let s := renderEditorsChoice s
      let s := renderFeaturedApps s
      let s := renderTrendingApps s
      let s := renderNewApps s
      showSuccessMessage [.text "App removed successfully!"] s

/-- The method `saveBadgeChanges`; `selectedBadges` are the badges selected in the dialog.
The success message is shown whether or not the record was found. -/
def saveBadgeChanges (appId : String) (selectedBadges : List String) (s : AcueStore) :
    AcueStore :=
  let s :=
    match s.apps.find? (fun a => a.id == appId) with
    | some _ =>
      let s := { s with apps := (updateFirst (fun a => a.id == appId)
        (fun app => { app with badges := some selectedBadges }) s.apps) }
      let s := saveAppsToStorage s
      let s := loadAppsManagement s
      let s := renderHotApps s
      let s := renderAllApps s
      let s := renderPopularApps s
      let s := renderEditorsChoice s
      let s := renderFeaturedApps s
      let s := renderTrendingApps s
      renderNewApps s
    | none => s
  showSuccessMessage [.text "Badges updated successfully!"] s

/-- The method `addBadgeToApp`; the arguments are the values of the two selects. A record
without a `badges` field gets the empty list before the test for a duplicate. -/
def addBadgeToApp (selectedAppId selectedBadgeType : String) (s : AcueStore) : AcueStore :=
  if selectedAppId == "" || selectedBadgeType == "" then
    alert "Please select an app and badge type" s
  else
    match s.apps.find? (fun a => a.id == selectedAppId) with
    | none => alert "App not found" s
    | some app =>
      let s := { s with apps := (updateFirst (fun a => a.id == selectedAppId)
        (fun app => { app with badges := some (app.badges.getD []) }) s.apps) }
      if (app.badges.getD []).contains selectedBadgeType then
        alert "This badge is already assigned to this app" s
      else
        let s := { s with apps := (updateFirst (fun a => a.id == selectedAppId)
          (fun app => { app with badges := some (app.badges.getD [] ++ [selectedBadgeType]) })
          s.apps) }
        let s := saveAppsToStorage s
        let s := loadAppsManagement s
        let s := renderHotApps s
        let s := renderAllApps s
        let s := renderPopularApps s
        let s := renderEditorsChoice s
        let s := renderFeaturedApps s
        let s := renderTrendingApps s
        let s := renderNewApps s
        showSuccessMessage [.text "Badge ", .quoted selectedBadgeType, .text " added to ",
          .text app.name] s

/-! ## Accounts and the session -/

/-- The expression `JSON.parse(localStorage.getItem('nexoraStoreUsers') || '[]')`: a missing
or empty stored string stands for the empty list. -/
def loadUsers (localStorage : Storage) : Except JSError (List UserRecord) :=
  match localStorage.nexoraStoreUsers with
  | some stored => if stored.truthy then JSON.parse stored else .ok []
  | none => .ok []

/-- The statement `localStorage.setItem('nexoraStoreUsers', JSON.stringify(users))`. -/
def saveUsers (users : List UserRecord) (s : AcueStore) : AcueStore :=
  { s with localStorage := { s.localStorage with nexoraStoreUsers := some (.json users) } }

/-- The method `saveUserSession`. -/
def saveUserSession (s : AcueStore) : AcueStore :=
  match s.currentUser with
  | some currentUser =>
    { s with localStorage := { s.localStorage with nexoraStoreUser := some (.json currentUser) } }
  | none =>
    { s with localStorage := { s.localStorage with nexoraStoreUser := none } }

/-- The method `loadUsersList`. -/
def loadUsersList (s : AcueStore) : Except JSError AcueStore :=
  match loadUsers s.localStorage with
  | .error e => .error e
  | .ok users => .ok (emit (.renderUsers users) s)

/-- The method `handleLogin`; the arguments are the values of the two fields. -/
def handleLogin (username password : String) (s : AcueStore) : Except JSError AcueStore :=
  if username == "" || password == "" then
    .ok (alert "Please fill in all fields" s)
  else
    match loadUsers s.localStorage with
    | .error e => .error e
    | .ok users =>
      match users.find? (fun u => u.username == username && u.password == password) with
      | none => .ok (alert "Invalid username or password" s)
      | some user =>
        if user.is_banned then
          .ok (alert "Your account has been banned. Please contact support." s)
        else
          let s := { s with currentUser :=
            (some { id := user.id, username := user.username, email := user.email }) }
          let s := saveUserSession s
          .ok (showSuccessMessage [.text "Login successful!"] s)

/-- The method `handleRegister`; the arguments are the values of the three fields, `now`,
the value of `Date.now()`, and `createdAt`, the value of `new Date().toISOString()`. -/
def handleRegister (username password confirmPassword : String) (now : Nat)
    (createdAt : String) (s : AcueStore) : Except JSError AcueStore :=
  if username == "" || password == "" || confirmPassword == "" then
    .ok (alert "Please fill in all fields" s)
  else if password != confirmPassword then
    .ok (alert "Passwords do not match" s)
  else if jsLength password < 6 then
    .ok (alert "Password must be at least 6 characters long" s)
  else
    match loadUsers s.localStorage with
    | .error e => .error e
    | .ok users =>
      if (users.find? (fun u => u.username == username)).isSome then
        .ok (alert "Username already exists" s)
      else
        let newUser : UserRecord :=
          { id := toString now
            username := username
            password := password
            email := username ++ "@nexorastore.com"
            created_at := createdAt
            is_banned := false }
        let s := saveUsers (users ++ [newUser]) s
        let s := { s with currentUser :=
          (some { id := newUser.id, username := newUser.username, email := newUser.email }) }
        let s := saveUserSession s
        .ok (showSuccessMessage [.text "Account created successfully!"] s)

/-- The method `handleLogout`. -/
def handleLogout (s : AcueStore) : AcueStore :=
  let s := { s with currentUser := none }
  let s := saveUserSession s
  showSuccessMessage [.text "Logged out successfully!"] s

/-- The method `resetPassword`; `newPassword` is what `prompt` returns, `none` when the
dialog is cancelled. -/
def resetPassword (newPassword : Option String) (s : AcueStore) : Except JSError AcueStore :=
  match s.currentUser with
  | none => .ok (alert "Please log in first" s)
  | some currentUser =>
    match newPassword with
    | none => .ok s
    | some newPassword =>
      if newPassword == "" then .ok s
      else if jsLength newPassword < 6 then
        .ok (alert "Password must be at least 6 characters long" s)
      else
        match loadUsers s.localStorage with
        | .error e => .error e
        | .ok users =>
          match users.findIdx? (fun u => u.username == currentUser.username) with
          | none => .ok s
          | some _ =>
            let s := saveUsers (updateFirst (fun u => u.username == currentUser.username)
              (fun u => { u with password := newPassword }) users) s
            .ok (showSuccessMessage [.text "Password reset successfully!"] s)

/-- The method `banUser`. -/
def banUser (username : String) (s : AcueStore) : Except JSError AcueStore :=
  match loadUsers s.localStorage with
  | .error e => .error e
  | .ok users =>
    match users.findIdx? (fun u => u.username == username) with
    | none => .ok s
    | some _ =>
      let s := saveUsers (updateFirst (fun u => u.username == username)
        (fun u => { u with is_banned := true }) users) s
      match loadUsersList s with
      | .error e => .error e
      | .ok s =>
        .ok (showSuccessMessage [.text "User ", .text username, .text " has been banned"] s)

/-- The method `unbanUser`. -/
def unbanUser (username : String) (s : AcueStore) : Except JSError AcueStore :=
  match loadUsers s.localStorage with
  | .error e => .error e
  | .ok users =>
    match users.findIdx? (fun u => u.username == username) with
    | none => .ok s
    | some _ =>
      let s := saveUsers (updateFirst (fun u => u.username == username)
        (fun u => { u with is_banned := false }) users) s
      match loadUsersList s with
      | .error e => .error e
      | .ok s =>
        .ok (showSuccessMessage [.text "User ", .text username, .text " has been unbanned"] s)

end AcueStore

namespace AcueStore

/-! ## Test data and auxiliary notions for the statements -/

/-- A rating that JSON text can hold: a finite number or `null`. -/
def Rating.writable : Rating → Bool
  | .number (.fin _) => true
  | .null => true
  | _ => false

/-- A rating that is a number in the range `1 ≤ r ≤ 5`. -/
def Rating.inRange : Rating → Bool
  | .number (.fin q) => decide (1 ≤ q ∧ q ≤ 5)
  | _ => false

/-- A `localStorage` with none of the keys. -/
def emptyStorage : Storage :=
  { nexoraStoreApps := none, nexoraStoreUser := none, nexoraStoreUsers := none }

/-- A sample record with the given id, name and rating. -/
def sampleApp (id name : String) (rating : Rating) : App :=
  { id := id, name := name, developer := "Dev", category := "social", rating := rating,
    description := "About", icon := "fas fa-star", downloadUrl := none,
    download_url := some "https://x", isHot := none, is_hot := some false, badges := none }

/-- The values one call of `addNewApp` reads: the fields of the form and the clock. -/
structure NewAppForm where
  appName : String
  appRating : JSNumber
  appBio : String
  appCategory : String
  appDownloadLink : String
  now : Nat

/-- A sequence of calls of `addNewApp`, one after the other. -/
def addNewApps (calls : List NewAppForm) (s : AcueStore) : AcueStore :=
  calls.foldl (fun s c =>
    addNewApp c.appName c.appRating c.appBio c.appCategory c.appDownloadLink c.now s) s

/-- The ids of a collection, in its order. -/
def ids (apps : List App) : List String := apps.map (fun a => a.id)

/-- The number that a list of decimal digits denotes. -/
def decimalValue (digits : List Char) : Nat :=
  digits.foldl (fun acc c => 10 * acc + (c.toNat - 48)) 0

/-- One call of a method that changes the catalog, with the values it reads. -/
inductive Mutation where
  | addNewApp (appName : String) (appRating : JSNumber)
      (appBio appCategory appDownloadLink : String) (now : Nat)
  | saveAppChanges (appId editAppName editAppDeveloper : String) (editAppRating : JSNumber)
      (editAppDescription editAppCategory editAppUrl : String) (editAppHot : Bool)
  | removeApp (appId : String) (confirmed : Bool)
  | saveBadgeChanges (appId : String) (selectedBadges : List String)
  | addBadgeToApp (selectedAppId selectedBadgeType : String)
  | updateAppRating (selectedAppId : String) (newRating : JSNumber)
  | quickUpdateRating (appId : String) (newRating : JSNumber)

/-- The method call a `Mutation` stands for. -/
def Mutation.run : Mutation → AcueStore → AcueStore
  | .addNewApp appName appRating appBio appCategory appDownloadLink now =>
    AcueStore.addNewApp appName appRating appBio appCategory appDownloadLink now
  | .saveAppChanges appId editAppName editAppDeveloper editAppRating editAppDescription
      editAppCategory editAppUrl editAppHot =>
    AcueStore.saveAppChanges appId editAppName editAppDeveloper editAppRating
      editAppDescription editAppCategory editAppUrl editAppHot
  | .removeApp appId confirmed => AcueStore.removeApp appId confirmed
  | .saveBadgeChanges appId selectedBadges => AcueStore.saveBadgeChanges appId selectedBadges
  | .addBadgeToApp selectedAppId selectedBadgeType =>
    AcueStore.addBadgeToApp selectedAppId selectedBadgeType
  | .updateAppRating selectedAppId newRating =>
    AcueStore.updateAppRating selectedAppId newRating
  | .quickUpdateRating appId newRating => AcueStore.quickUpdateRating appId newRating

/-- Whether some record of the collection has the given id. -/
def hasId (appId : String) (s : AcueStore) : Bool :=
  s.apps.any (fun a => a.id == appId)

/-- Whether the call passes every test of its method that stands before the change of
`this.apps`: no field is empty, the rating is accepted, the dialog is confirmed, a record
with the id exists and does not have the badge yet. -/
def Mutation.succeeds : Mutation → AcueStore → Bool
  | .addNewApp appName appRating appBio appCategory appDownloadLink _, _ =>
    !(appName == "" || appRating.isFalsy || appBio == "" || appCategory == "" ||
        appDownloadLink == "") &&
      !(appRating.lt (.fin 1) || appRating.gt (.fin 5))
  | .saveAppChanges appId _ _ _ _ _ _ _, s => hasId appId s
  | .removeApp appId confirmed, s => confirmed && hasId appId s
  | .saveBadgeChanges appId _, s => hasId appId s
  | .addBadgeToApp selectedAppId selectedBadgeType, s =>
    !(selectedAppId == "" || selectedBadgeType == "") && hasId selectedAppId s &&
      !((s.apps.find? (fun a => a.id == selectedAppId)).any
          (fun app => (app.badges.getD []).contains selectedBadgeType))
  | .updateAppRating selectedAppId newRating, s =>
    !(selectedAppId == "" || newRating.isFalsy) &&
      !(newRating.lt (.fin 1) || newRating.gt (.fin 5)) && hasId selectedAppId s
  | .quickUpdateRating appId _, s => hasId appId s

/-- What a fresh instance over the `localStorage` of `s` loads is a rearrangement of the
collection of `s` as JSON text holds it, whatever the default dataset is; it is a
rearrangement of the collection of `s` itself when every rating is a finite number or
`null`. -/
def DurableUpToOrder (s : AcueStore) : Prop :=
  ∀ appsData : Option (List App), ∃ fresh : AcueStore,
    loadAppsFromStorage appsData (new s.localStorage) = .ok fresh ∧
    fresh.apps.Perm (s.apps.map (fun a => a.toJSON.parse)) ∧
    ((∀ a ∈ s.apps, a.rating.writable = true) → fresh.apps.Perm s.apps)

/-- The value of the argument `Math.max(1, app.rating - 0.5)` that the button "Lower Rating"
of `loadRatingsList` passes to `quickUpdateRating`, for a rating that is a finite number. -/
def lowerRatingArg (q : ℚ) : JSNumber := .fin (max 1 (q - 1 / 2))

/-- The value of the argument `Math.min(5, app.rating + 0.5)` that the button "Raise Rating"
of `loadRatingsList` passes to `quickUpdateRating`, for a rating that is a finite number. -/
def raiseRatingArg (q : ℚ) : JSNumber := .fin (min 5 (q + 1 / 2))

/-- The list that `renderEditorsChoice`, `renderFeaturedApps`, `renderTrendingApps` and
`renderNewApps` compute, each for its badge: the records with the badge, the first of each id
only, the first eight of those. -/
def byBadge (badge : String) (apps : List App) : List App :=
  (uniqueById (apps.filter (hasBadge badge))).take 8

/-- In the words of the specification, "de-duplicates by id preserving first occurrence":
a record stays unless its id is among `seen`, the ids met before it. -/
def dedupById (seen : List String) : List App → List App
  | [] => []
  | a :: l => if a.id ∈ seen then dedupById seen l else a :: dedupById (a.id :: seen) l

/-- In the words of the specification, `byBadge(badgeKey)`: "filters to records whose badge
set contains the key, then de-duplicates by id preserving first occurrence, then truncates
to a fixed display cap (8)". -/
def byBadgeSpec (badgeKey : String) (apps : List App) : List App :=
  (dedupById [] (apps.filter (fun a => decide (badgeKey ∈ a.badges.getD [])))).take 8

/-- The collection is in the order `renderPopularApps` sorts it into: no record stands
before one that `byRatingDesc` puts first. -/
def InRatingOrder (apps : List App) : Prop :=
  apps.Sorted (fun a b => (byRatingDesc a b).gt (.fin 0) = false)

instance (apps : List App) : Decidable (InRatingOrder apps) :=
  inferInstanceAs (Decidable (apps.Sorted (fun a b => (byRatingDesc a b).gt (.fin 0) = false)))

/-- The container an event writes into, if it is a `render`. -/
def Event.view? : Event → Option View
  | .render view _ => some view
  | _ => none

/-- The containers written into by the events of a log, in order. -/
def renderedViews (log : List Event) : List View :=
  log.filterMap Event.view?

/-- The containers each method writes into after it has changed `this.apps`, in the order of
its calls of `loadAppsManagement`, `renderHotApps`, `renderAllApps`, `renderPopularApps`,
the four badge methods and `loadRatingsList`. -/
def Mutation.refreshes : Mutation → List View
  | .addNewApp .. => [.appsManagementList, .hotAppsContainer, .appsGrid, .popularApps]
  | .saveAppChanges .. => [.appsManagementList, .hotAppsContainer, .appsGrid, .popularApps]
  | .removeApp .. =>
    [.appsManagementList, .hotAppsContainer, .appsGrid, .popularApps,
      .editorsChoiceContainer, .featuredAppsContainer, .trendingAppsContainer,
      .newAppsContainer]
  | .saveBadgeChanges .. =>
    [.appsManagementList, .hotAppsContainer, .appsGrid, .popularApps,
      .editorsChoiceContainer, .featuredAppsContainer, .trendingAppsContainer,
      .newAppsContainer]
  | .addBadgeToApp .. =>
    [.appsManagementList, .hotAppsContainer, .appsGrid, .popularApps,
      .editorsChoiceContainer, .featuredAppsContainer, .trendingAppsContainer,
      .newAppsContainer]
  | .updateAppRating .. => [.appsManagementList, .hotAppsContainer, .appsGrid, .popularApps]
  | .quickUpdateRating .. =>
    [.hotAppsContainer, .appsGrid, .popularApps, .appsManagementList, .ratingsList]

/-- Eight sample records with the rating `5` and the badge `trending`. -/
def trendingEight : List App :=
  ["a1", "a2", "a3", "a4", "a5", "a6", "a7", "a8"].map (fun i =>
    { sampleApp i i (.number (.fin 5)) with badges := some ["trending"] })

/-- The list that the method of a container computes from the collection `apps`, and
writes into the container: `renderHotApps`, `renderAllApps` (with the current filter),
`renderPopularApps`, the four badge methods, `loadAppsManagement` and `loadRatingsList`.
The containers of the search results and of the Badges list are written by no method that
changes the catalog. -/
def shownIn (view : View) (currentFilter : String) (apps : List App) : Option (List App) :=
  match view with
  | .hotAppsContainer =>
    some ((apps.filter (fun app => app.is_hot == some true || app.isHot == some true)).take 8)
  | .appsGrid =>
    some (if currentFilter != "" then apps.filter (fun app => app.category == currentFilter)
      else apps)
  | .popularApps => some ((sort byRatingDesc apps).take 6)
  | .editorsChoiceContainer => some ((uniqueById (apps.filter (hasBadge "editors-choice"))).take 8)
  | .featuredAppsContainer => some ((uniqueById (apps.filter (hasBadge "featured"))).take 8)
  | .trendingAppsContainer => some ((uniqueById (apps.filter (hasBadge "trending"))).take 8)
  | .newAppsContainer => some ((uniqueById (apps.filter (hasBadge "new"))).take 8)
  | .appsManagementList => some apps
  | .ratingsList => some apps
  | .searchResults => none
  | .badgesList => none

/-- From the state `s₀`, the state `s₁` is reached by storing the collection `saved` and
then writing into the containers `views`, in this order and into no other, each time the
list that the method of the container computes from `saved`, in the order it is stored in
or in the order `renderPopularApps` sorts it into; `sorted` tells in which of the two orders
`s₁` holds the collection. -/
def Recomputed (s₀ s₁ : AcueStore) (saved : List App) (sorted : Bool)
    (views : List View) : Prop :=
  s₁.localStorage.nexoraStoreApps = some (JSON.stringify saved) ∧
  s₁.apps = (if sorted then sort byRatingDesc saved else saved) ∧
  s₁.currentFilter = s₀.currentFilter ∧
  ∃ events : List Event, s₁.log = s₀.log ++ events ∧ renderedViews events = views ∧
    ∀ view shown, Event.render view shown ∈ events →
      shownIn view s₀.currentFilter saved = some shown ∨
      shownIn view s₀.currentFilter (sort byRatingDesc saved) = some shown

/-- In the words of the specification, `search(term)` matches a record when the term is a
substring of its lower-cased name, developer, description or category. -/
def MatchesTerm (term : String) (a : App) : Prop :=
  term.data <:+: (toLowerCase a.name).data ∨ term.data <:+: (toLowerCase a.developer).data ∨
    term.data <:+: (toLowerCase a.description).data ∨
    term.data <:+: (toLowerCase a.category).data

/-- Whether the lower-cased name of the record starts with the term. -/
def nameStartsWith (term : String) (a : App) : Bool :=
  term.data.isPrefixOf (toLowerCase a.name).data

/-- The usernames of a list of accounts, in its order. -/
def usernames (users : List UserRecord) : List String := users.map (fun u => u.username)

/-- One call of a method of the accounts and the session, with the values it reads. -/
inductive AccountOp where
  | register (username password confirmPassword : String) (now : Nat) (createdAt : String)
  | login (username password : String)
  | logout
  | resetPassword (newPassword : Option String)
  | ban (username : String)
  | unban (username : String)

/-- The method call an `AccountOp` stands for. -/
def AccountOp.run : AccountOp → AcueStore → Except JSError AcueStore
  | .register username password confirmPassword now createdAt =>
    handleRegister username password confirmPassword now createdAt
  | .login username password => handleLogin username password
  | .logout => fun s => .ok (handleLogout s)
  | .resetPassword newPassword => AcueStore.resetPassword newPassword
  | .ban username => banUser username
  | .unban username => unbanUser username

/-- A sequence of calls of methods of the accounts and the session, one after the other; an
exception ends it. -/
def AccountOp.runAll : List AccountOp → AcueStore → Except JSError AcueStore
  | [], s => .ok s
  | op :: ops, s =>
    match op.run s with
    | .error e => .error e
    | .ok s1 => AccountOp.runAll ops s1

/-- What the tests of `handleRegister` and `resetPassword` keep true of the registry they
write: no two records have the same username, and no record has an empty username or an
empty password. -/
def ValidRegistry (users : List UserRecord) : Prop :=
  (usernames users).Nodup ∧ ∀ u ∈ users, u.username ≠ "" ∧ u.password ≠ ""

/-- A sample account with the given username, password and ban flag. -/
def sampleUser (username password : String) (is_banned : Bool) : UserRecord :=
  { id := "1700000000000", username := username, password := password,
    email := username ++ "@nexorastore.com", created_at := "2023-11-14T22:13:20.000Z",
    is_banned := is_banned }

/-- A fresh instance over a `localStorage` that holds the given accounts. -/
def storeWithUsers (users : List UserRecord) : AcueStore :=
  new { emptyStorage with nexoraStoreUsers := some (.json users) }

/-- A sample identity of a session. -/
def aliceIdentity : SessionIdentity :=
  { id := "1700000000000", username := "alice", email := "alice@nexorastore.com" }

/-- A state in which `alice` is logged in and her session is stored. -/
def loggedInStore : AcueStore :=
  { new { emptyStorage with nexoraStoreUser := some (.json aliceIdentity) } with
    currentUser := some aliceIdentity }

/-- The list `handleSearch` computes for a non-empty term: the records that pass its
filter, sorted by `byRelevance`. -/
def searchResults (s : AcueStore) : List App :=
  sort (byRelevance s.currentSearchTerm) (s.apps.filter (fun app =>
    includes (toLowerCase app.name) s.currentSearchTerm ||
    includes (toLowerCase app.developer) s.currentSearchTerm ||
    includes (toLowerCase app.description) s.currentSearchTerm ||
    includes (toLowerCase app.category) s.currentSearchTerm))

/-- The list is in descending order of rating: no record stands before a record whose
rating number is greater. -/
def DescendingByRating (apps : List App) : Prop :=
  apps.Pairwise (fun a b => a.rating.toNumber.lt b.rating.toNumber = false)

instance (apps : List App) : Decidable (DescendingByRating apps) :=
  inferInstanceAs
    (Decidable (apps.Pairwise (fun a b : App => a.rating.toNumber.lt b.rating.toNumber = false)))

/-- Three records with the ratings 3, `NaN` and 5, in this order. -/
def ratedThreeNaNFive : List App :=
  [sampleApp "foo" "Foo" (.number (.fin 3)), sampleApp "bar" "Bar" (.number .nan),
    sampleApp "baz" "Baz" (.number (.fin 5))]

/-- A fresh instance whose collection is the given one. -/
def storeOf (apps : List App) : AcueStore :=
  { new emptyStorage with apps := apps }

end AcueStore

namespace AcueStore

/-! ## Basic facts about the methods -/

@[simp] theorem emit_apps (e : Event) (s : AcueStore) : (emit e s).apps = s.apps := rfl

@[simp] theorem emit_localStorage (e : Event) (s : AcueStore) :
    (emit e s).localStorage = s.localStorage := rfl

@[simp] theorem alert_apps (msg : String) (s : AcueStore) : (alert msg s).apps = s.apps := rfl

@[simp] theorem alert_localStorage (msg : String) (s : AcueStore) :
    (alert msg s).localStorage = s.localStorage := rfl

@[simp] theorem alert_log (msg : String) (s : AcueStore) :
    (alert msg s).log = s.log ++ [.alert msg] := rfl

@[simp] theorem showSuccessMessage_apps (m : List Part) (s : AcueStore) :
    (showSuccessMessage m s).apps = s.apps := rfl

@[simp] theorem showSuccessMessage_localStorage (m : List Part) (s : AcueStore) :
    (showSuccessMessage m s).localStorage = s.localStorage := rfl

@[simp] theorem saveAppsToStorage_apps (s : AcueStore) : (saveAppsToStorage s).apps = s.apps :=
  rfl

@[simp] theorem saveAppsToStorage_stored (s : AcueStore) :
    (saveAppsToStorage s).localStorage.nexoraStoreApps = some (JSON.stringify s.apps) := rfl

@[simp] theorem renderHotApps_apps (s : AcueStore) : (renderHotApps s).apps = s.apps := rfl

@[simp] theorem renderHotApps_localStorage (s : AcueStore) :
    (renderHotApps s).localStorage = s.localStorage := rfl

@[simp] theorem renderAllApps_apps (s : AcueStore) : (renderAllApps s).apps = s.apps := rfl

@[simp] theorem renderAllApps_localStorage (s : AcueStore) :
    (renderAllApps s).localStorage = s.localStorage := rfl

@[simp] theorem renderPopularApps_apps (s : AcueStore) :
    (renderPopularApps s).apps = sort byRatingDesc s.apps := rfl

@[simp] theorem renderPopularApps_localStorage (s : AcueStore) :
    (renderPopularApps s).localStorage = s.localStorage := rfl

@[simp] theorem loadAppsManagement_apps (s : AcueStore) :
    (loadAppsManagement s).apps = s.apps := rfl

@[simp] theorem loadAppsManagement_localStorage (s : AcueStore) :
    (loadAppsManagement s).localStorage = s.localStorage := rfl

@[simp] theorem loadRatingsList_apps (s : AcueStore) : (loadRatingsList s).apps = s.apps := rfl

@[simp] theorem loadRatingsList_localStorage (s : AcueStore) :
    (loadRatingsList s).localStorage = s.localStorage := rfl

/-- Sorting rearranges: `sort` returns a permutation of its argument. -/
theorem sort_perm {α : Type} (compareFn : α → α → JSNumber) (arr : List α) :
    (sort compareFn arr).Perm arr :=
  List.perm_insertionSort _ arr

/-- A rating that JSON text can hold comes back from `JSON.parse` as it was written. -/
theorem rating_parse_toJSON (r : Rating) (h : r.writable = true) :
    Rating.parse r.toJSON = r := by
  cases r with
  | null => rfl
  | number n => cases n <;> first | rfl | simp [Rating.writable] at h

/-- A record whose rating JSON text can hold comes back from `JSON.parse` as it was
written. -/
theorem app_parse_toJSON (a : App) (h : a.rating.writable = true) :
    JsonApp.parse a.toJSON = a := by
  cases a
  simp only [App.toJSON, JsonApp.parse, App.mk.injEq, true_and, and_true]
  exact rating_parse_toJSON _ h

/-- A collection whose ratings JSON text can hold comes back as it was written. -/
theorem parse_toJSON_list (apps : List App) (h : ∀ a ∈ apps, a.rating.writable = true) :
    (apps.map App.toJSON).map JsonApp.parse = apps := by
  induction apps with
  | nil => rfl
  | cons a l ih =>
    simp only [List.map_cons, List.cons.injEq]
    exact ⟨app_parse_toJSON a (h a (List.mem_cons_self a l)),
      ih (fun b hb => h b (List.mem_cons_of_mem a hb))⟩

end AcueStore

namespace AcueStore

/-! ## Round trip through localStorage -/

/-- C4, as stated, fails: a collection holding a record whose rating is `NaN` is saved by
`saveAppsToStorage`, and a fresh `loadAppsFromStorage` yields a collection that differs from
it, the rating having become `null`. -/
theorem roundTrip_fails_on_NaN :
    (loadAppsFromStorage none
        (new (saveAppsToStorage (storeOf [sampleApp "foo" "Foo" (.number .nan)])).localStorage)).map
        (fun s => s.apps)
      = .ok [sampleApp "foo" "Foo" .null] ∧
    [sampleApp "foo" "Foo" .null] ≠ (storeOf [sampleApp "foo" "Foo" (.number .nan)]).apps := by
  constructor
  · rfl
  · decide

/-- C4, amended: for every collection whose ratings are finite numbers or `null`,
`saveAppsToStorage` followed by `loadAppsFromStorage` in a fresh instance over the same
`localStorage` does not raise and yields the saved collection: the same records, equal in
every field, in the same order, whatever the default dataset is. -/
theorem roundTrip_saveAppsToStorage_loadAppsFromStorage (s : AcueStore)
    (appsData : Option (List App)) (h : ∀ a ∈ s.apps, a.rating.writable = true) :
    loadAppsFromStorage appsData (new (saveAppsToStorage s).localStorage)
      = .ok { new (saveAppsToStorage s).localStorage with apps := s.apps } := by
  simp only [loadAppsFromStorage, new, saveAppsToStorage, JSON.stringify, Stored.truthy,
    JSON.parse, if_true, parse_toJSON_list s.apps h]

/-- Witness of C4 (amended) on a collection of two records. -/
theorem roundTrip_saveAppsToStorage_loadAppsFromStorage_witness :
    loadAppsFromStorage none (new (saveAppsToStorage (storeOf
        [sampleApp "foo" "Foo" (.number (.fin 4)), sampleApp "bar" "Bar" .null])).localStorage)
      = .ok { new (saveAppsToStorage (storeOf
          [sampleApp "foo" "Foo" (.number (.fin 4)), sampleApp "bar" "Bar" .null])).localStorage
          with apps := (storeOf
            [sampleApp "foo" "Foo" (.number (.fin 4)), sampleApp "bar" "Bar" .null]).apps } :=
  roundTrip_saveAppsToStorage_loadAppsFromStorage _ none (by
    intro a ha
    simp only [storeOf, List.mem_cons, List.mem_singleton, List.not_mem_nil, or_false] at ha
    rcases ha with rfl | rfl <;> rfl)

/-! ## Loading a stored value that does not parse -/

/-- C5, as stated, fails: with the text `"not json"` under the key of the collection,
`loadAppsFromStorage` raises a `SyntaxError` to its caller, and with it under the key of the
session so does `loadUserSession`. -/
theorem load_unparsable_raises :
    loadAppsFromStorage (some [])
        (new { emptyStorage with nexoraStoreApps := some (.unparsable "not json") })
      = .error .syntaxError ∧
    loadUserSession (new { emptyStorage with nexoraStoreUser := some (.unparsable "not json") })
      = .error .syntaxError := by
  constructor <;> rfl

/-- C5, amended: a stored value that `JSON.parse` rejects is treated as missing only when it
is the empty string: then `loadAppsFromStorage` sets the collection to the default dataset
(empty if there is none) and saves it, and `loadUserSession` changes nothing. Every other
such value makes `loadAppsFromStorage`, respectively `loadUserSession`, raise a
`SyntaxError` to its caller. -/
theorem load_unparsable (s : AcueStore) (appsData : Option (List App)) (raw : String) :
    (s.localStorage.nexoraStoreApps = some (.unparsable raw) →
      loadAppsFromStorage appsData s =
        if raw = "" then .ok (saveAppsToStorage { s with apps := appsData.getD [] })
        else .error .syntaxError) ∧
    (s.localStorage.nexoraStoreUser = some (.unparsable raw) →
      loadUserSession s = if raw = "" then .ok s else .error .syntaxError) := by
  constructor
  · intro h
    by_cases hr : raw = "" <;> simp [loadAppsFromStorage, h, Stored.truthy, JSON.parse, hr]
  · intro h
    by_cases hr : raw = "" <;> simp [loadUserSession, h, Stored.truthy, JSON.parse, hr]

/-- Witness of C5 (amended): the same unparsable text under both keys. -/
theorem load_unparsable_witness :
    loadAppsFromStorage (some []) (new { emptyStorage with
        nexoraStoreApps := some (.unparsable "not json"),
        nexoraStoreUser := some (.unparsable "not json") })
      = (if "not json" = "" then
          .ok (saveAppsToStorage { new { emptyStorage with
            nexoraStoreApps := some (.unparsable "not json"),
            nexoraStoreUser := some (.unparsable "not json") } with apps := (some []).getD [] })
        else .error .syntaxError) ∧
    loadUserSession (new { emptyStorage with
        nexoraStoreApps := some (.unparsable "not json"),
        nexoraStoreUser := some (.unparsable "not json") })
      = (if "not json" = "" then
          .ok (new { emptyStorage with
            nexoraStoreApps := some (.unparsable "not json"),
            nexoraStoreUser := some (.unparsable "not json") })
        else .error .syntaxError) :=
  ⟨(load_unparsable _ (some []) "not json").1 rfl, (load_unparsable _ (some []) "not json").2 rfl⟩

/-! ## First run -/

/-- C7: when the key of the collection is absent from `localStorage`, `loadAppsFromStorage`
does not raise, sets `this.apps` to the default dataset (to the empty collection if the page
provides none), and has stored the JSON text of that same collection under the key when it
returns; nothing else of the state changes. -/
theorem loadAppsFromStorage_firstRun (s : AcueStore) (appsData : Option (List App))
    (h : s.localStorage.nexoraStoreApps = none) :
    ∃ s', loadAppsFromStorage appsData s = .ok s' ∧
      s'.apps = appsData.getD [] ∧
      s'.localStorage.nexoraStoreApps = some (JSON.stringify s'.apps) ∧
      s'.localStorage.nexoraStoreUser = s.localStorage.nexoraStoreUser ∧
      s'.localStorage.nexoraStoreUsers = s.localStorage.nexoraStoreUsers ∧
      s'.currentUser = s.currentUser ∧ s'.log = s.log := by
  refine ⟨saveAppsToStorage { s with apps := appsData.getD [] }, ?_, rfl, rfl, rfl, rfl, rfl, rfl⟩
  simp [loadAppsFromStorage, h]

/-- Witness of C7: a fresh instance over an empty `localStorage` and a default dataset of
one record. -/
theorem loadAppsFromStorage_firstRun_witness :
    ∃ s', loadAppsFromStorage (some [sampleApp "foo" "Foo" (.number (.fin 4))])
        (new emptyStorage) = .ok s' ∧
      s'.apps = (some [sampleApp "foo" "Foo" (.number (.fin 4))]).getD [] ∧
      s'.localStorage.nexoraStoreApps = some (JSON.stringify s'.apps) ∧
      s'.localStorage.nexoraStoreUser = (new emptyStorage).localStorage.nexoraStoreUser ∧
      s'.localStorage.nexoraStoreUsers = (new emptyStorage).localStorage.nexoraStoreUsers ∧
      s'.currentUser = (new emptyStorage).currentUser ∧ s'.log = (new emptyStorage).log :=
  loadAppsFromStorage_firstRun (new emptyStorage) _ rfl

end AcueStore

namespace AcueStore

/-- C6, as stated, fails. With the key of the collection present and holding the empty
string, `loadAppsFromStorage` applies the default dataset. And with the key absent and a
default dataset whose record has the rating `NaN`, running `loadAppsFromStorage` once leaves
the rating `NaN` in `this.apps`, while running it twice leaves the rating `null`. -/
theorem loadAppsFromStorage_reseeds_on_empty_string :
    (new { emptyStorage with nexoraStoreApps := some (.unparsable "") }).localStorage.nexoraStoreApps
      ≠ none ∧
    (loadAppsFromStorage (some [sampleApp "foo" "Foo" (.number (.fin 4))])
        (new { emptyStorage with nexoraStoreApps := some (.unparsable "") })).map
        (fun s => s.apps)
      = .ok [sampleApp "foo" "Foo" (.number (.fin 4))] ∧
    (loadAppsFromStorage (some [sampleApp "foo" "Foo" (.number .nan)])
        (new emptyStorage)).map (fun s => s.apps)
      = .ok [sampleApp "foo" "Foo" (.number .nan)] ∧
    (loadAppsFromStorage (some [sampleApp "foo" "Foo" (.number .nan)]) (new emptyStorage)
        >>= loadAppsFromStorage (some [sampleApp "foo" "Foo" (.number .nan)])).map
        (fun s => s.apps)
      = .ok [sampleApp "foo" "Foo" .null] ∧
    [sampleApp "foo" "Foo" .null] ≠ [sampleApp "foo" "Foo" (.number .nan)] := by
  refine ⟨by decide, rfl, rfl, rfl, by decide⟩

/-- C6, amended: for every state and every default dataset whose ratings are finite numbers
or `null`, running `loadAppsFromStorage` twice in a row has the same outcome as running it
once (the same collection and the same `localStorage`, or a `SyntaxError` both times); and
when the key of the collection holds a non-empty string, the outcome does not depend on the
default dataset, and `localStorage` is left as it was. -/
theorem loadAppsFromStorage_idempotent (s : AcueStore) (appsData : Option (List App)) :
    ((∀ a ∈ appsData.getD [], a.rating.writable = true) →
      (loadAppsFromStorage appsData s >>= loadAppsFromStorage appsData)
        = loadAppsFromStorage appsData s) ∧
    (∀ storedApps, s.localStorage.nexoraStoreApps = some storedApps →
      storedApps.truthy = true →
      ∀ appsData', loadAppsFromStorage appsData' s = loadAppsFromStorage appsData s ∧
        ∀ s', loadAppsFromStorage appsData s = .ok s' → s'.localStorage = s.localStorage) := by
  constructor
  · intro hw
    have seed : (loadAppsFromStorage appsData
          (saveAppsToStorage { s with apps := appsData.getD [] }))
        = .ok (saveAppsToStorage { s with apps := appsData.getD [] }) := by
      simp only [loadAppsFromStorage, saveAppsToStorage, JSON.stringify, Stored.truthy,
        JSON.parse, if_true, parse_toJSON_list _ hw]
    cases hs : s.localStorage.nexoraStoreApps with
    | none =>
      simp only [loadAppsFromStorage, hs]
      exact seed
    | some st =>
      cases st with
      | unparsable raw =>
        by_cases hr : raw = ""
        · simp only [loadAppsFromStorage, hs, Stored.truthy, hr, bne_self_eq_false,
            Bool.false_eq_true, if_false]
          exact seed
        · simp [loadAppsFromStorage, hs, Stored.truthy, hr, JSON.parse, bind, Except.bind]
      | json v =>
        simp [loadAppsFromStorage, hs, Stored.truthy, JSON.parse, bind, Except.bind]
  · intro st hs ht appsData'
    constructor
    · simp [loadAppsFromStorage, hs, ht]
    · intro s' h'
      cases st with
      | unparsable raw =>
        simp [loadAppsFromStorage, hs, ht, JSON.parse] at h'
      | json v =>
        simp [loadAppsFromStorage, hs, ht, JSON.parse] at h'
        rw [← h']

end AcueStore

namespace AcueStore

/-- Witness of C6 (amended): a state whose `localStorage` holds a collection of one record,
and a default dataset of another record. -/
theorem loadAppsFromStorage_idempotent_witness :
    (loadAppsFromStorage (some [sampleApp "foo" "Foo" .null])
        (new { emptyStorage with
          nexoraStoreApps := some (JSON.stringify [sampleApp "bar" "Bar" .null]) })
      >>= loadAppsFromStorage (some [sampleApp "foo" "Foo" .null]))
      = loadAppsFromStorage (some [sampleApp "foo" "Foo" .null])
        (new { emptyStorage with
          nexoraStoreApps := some (JSON.stringify [sampleApp "bar" "Bar" .null]) }) ∧
    loadAppsFromStorage none
        (new { emptyStorage with
          nexoraStoreApps := some (JSON.stringify [sampleApp "bar" "Bar" .null]) })
      = loadAppsFromStorage (some [sampleApp "foo" "Foo" .null])
        (new { emptyStorage with
          nexoraStoreApps := some (JSON.stringify [sampleApp "bar" "Bar" .null]) }) :=
  ⟨(loadAppsFromStorage_idempotent _ (some [sampleApp "foo" "Foo" .null])).1 (by
      intro a ha
      simp only [Option.getD_some, List.mem_singleton] at ha
      subst ha
      rfl),
    ((loadAppsFromStorage_idempotent
      (new { emptyStorage with
        nexoraStoreApps := some (JSON.stringify [sampleApp "bar" "Bar" .null]) })
      (some [sampleApp "foo" "Foo" .null])).2
      (JSON.stringify [sampleApp "bar" "Bar" .null]) rfl rfl none).1⟩

/-! ## Ratings -/

/-- C10: for every id and every value that is `< 1` or `> 5`, `updateAppRating` fails with
an `alert` and changes nothing else: the collection (so the record's prior rating and every
other record) and `localStorage` (so the stored collection) are as before. -/
theorem updateAppRating_rejects (s : AcueStore) (selectedAppId : String) (newRating : JSNumber)
    (h : newRating.lt (.fin 1) = true ∨ newRating.gt (.fin 5) = true) :
    (∃ msg, updateAppRating selectedAppId newRating s = alert msg s) ∧
    (updateAppRating selectedAppId newRating s).apps = s.apps ∧
    (updateAppRating selectedAppId newRating s).localStorage = s.localStorage := by
  have hr : (newRating.lt (.fin 1) || newRating.gt (.fin 5)) = true := by
    rcases h with h | h <;> simp [h]
  have key : ∃ msg, updateAppRating selectedAppId newRating s = alert msg s := by
    unfold updateAppRating
    by_cases h1 : (selectedAppId == "" || newRating.isFalsy) = true
    · exact ⟨_, by rw [if_pos h1]⟩
    · exact ⟨_, by rw [if_neg h1, if_pos hr]⟩
  obtain ⟨msg, hmsg⟩ := key
  exact ⟨⟨msg, hmsg⟩, by rw [hmsg]; rfl, by rw [hmsg]; rfl⟩

/-- Witness of C10: the value `6` for the record `foo` of a collection of one record. -/
theorem updateAppRating_rejects_witness :
    (∃ msg, updateAppRating "foo" (.fin 6) (storeOf [sampleApp "foo" "Foo" .null])
      = alert msg (storeOf [sampleApp "foo" "Foo" .null])) ∧
    (updateAppRating "foo" (.fin 6) (storeOf [sampleApp "foo" "Foo" .null])).apps
      = (storeOf [sampleApp "foo" "Foo" .null]).apps ∧
    (updateAppRating "foo" (.fin 6) (storeOf [sampleApp "foo" "Foo" .null])).localStorage
      = (storeOf [sampleApp "foo" "Foo" .null]).localStorage :=
  updateAppRating_rejects _ "foo" (.fin 6) (Or.inr (by decide!))

end AcueStore

namespace AcueStore

/-- C9, at the input of the claim: `updateAppRating` with the value `4.26` for the record
`foo`, whose rating is `4`, succeeds and stores `4.26`, in the collection and in
`localStorage`; the value `4.3` is stored by neither, while `quickUpdateRating` with the same
arguments stores `4.3`. -/
theorem updateAppRating_stores_unrounded :
    (updateAppRating "foo" (.fin 4.26)
        (storeOf [sampleApp "foo" "Foo" (.number (.fin 4))])).apps
      = [sampleApp "foo" "Foo" (.number (.fin 4.26))] ∧
    (updateAppRating "foo" (.fin 4.26)
        (storeOf [sampleApp "foo" "Foo" (.number (.fin 4))])).localStorage.nexoraStoreApps
      = some (JSON.stringify [sampleApp "foo" "Foo" (.number (.fin 4.26))]) ∧
    sampleApp "foo" "Foo" (.number (.fin 4.26)) ≠ sampleApp "foo" "Foo" (.number (.fin 4.3)) ∧
    (quickUpdateRating "foo" (.fin 4.26)
        (storeOf [sampleApp "foo" "Foo" (.number (.fin 4))])).apps
      = [sampleApp "foo" "Foo" (.number (.fin 4.3))] := by
  decide!

/-- C8, as stated, fails: in a collection whose only rating is `4`, `saveAppChanges` with
the rating field holding `7` stores the rating `7`, and `quickUpdateRating` with the value
`9` stores the rating `9`; after either, a rating lies outside the range from `1` to `5`. -/
theorem saveAppChanges_rating_out_of_range :
    (storeOf [sampleApp "foo" "Foo" (.number (.fin 4))]).apps.all
        (fun a => a.rating.inRange) = true ∧
    (saveAppChanges "foo" "Foo" "Dev" (.fin 7) "About" "social" "https://x" false
        (storeOf [sampleApp "foo" "Foo" (.number (.fin 4))])).apps.map (fun a => a.rating)
      = [.number (.fin 7)] ∧
    (quickUpdateRating "foo" (.fin 9)
        (storeOf [sampleApp "foo" "Foo" (.number (.fin 4))])).apps.map (fun a => a.rating)
      = [.number (.fin 9)] ∧
    Rating.inRange (.number (.fin 7)) = false ∧ Rating.inRange (.number (.fin 9)) = false := by
  decide!

/-! ## Views and the collection -/

/-- C2, at a failing input: `renderPopularApps` on the collection `[foo, bar]`, with ratings
`3` and `5`, leaves `this.apps` in the order `[bar, foo]`, while `renderHotApps` and
`renderAllApps` leave it as it was. -/
theorem renderPopularApps_reorders_apps :
    (renderPopularApps (storeOf [sampleApp "foo" "Foo" (.number (.fin 3)),
        sampleApp "bar" "Bar" (.number (.fin 5))])).apps
      = [sampleApp "bar" "Bar" (.number (.fin 5)), sampleApp "foo" "Foo" (.number (.fin 3))] ∧
    (renderHotApps (storeOf [sampleApp "foo" "Foo" (.number (.fin 3)),
        sampleApp "bar" "Bar" (.number (.fin 5))])).apps
      = [sampleApp "foo" "Foo" (.number (.fin 3)), sampleApp "bar" "Bar" (.number (.fin 5))] ∧
    (renderAllApps (storeOf [sampleApp "foo" "Foo" (.number (.fin 3)),
        sampleApp "bar" "Bar" (.number (.fin 5))])).apps
      = [sampleApp "foo" "Foo" (.number (.fin 3)), sampleApp "bar" "Bar" (.number (.fin 5))] := by
  decide!

/-- C3, as stated, fails. `updateAppRating` raising the rating of `bar` from `2` to `5` in
the collection `[foo, bar]` succeeds; when it returns, `this.apps` is `[bar, foo]`, while a
fresh `loadAppsFromStorage` over the resulting `localStorage` yields `[foo, bar]`. And
`saveBadgeChanges` on a record whose rating is `NaN` succeeds and leaves that rating `NaN`
in `this.apps`, while a fresh `loadAppsFromStorage` yields the rating `null`. -/
theorem mutation_not_durable_as_stated :
    (updateAppRating "bar" (.fin 5) (storeOf [sampleApp "foo" "Foo" (.number (.fin 3)),
        sampleApp "bar" "Bar" (.number (.fin 2))])).apps
      = [sampleApp "bar" "Bar" (.number (.fin 5)), sampleApp "foo" "Foo" (.number (.fin 3))] ∧
    (loadAppsFromStorage none (new (updateAppRating "bar" (.fin 5)
        (storeOf [sampleApp "foo" "Foo" (.number (.fin 3)),
          sampleApp "bar" "Bar" (.number (.fin 2))])).localStorage)).map (fun s => s.apps)
      = .ok [sampleApp "foo" "Foo" (.number (.fin 3)),
          sampleApp "bar" "Bar" (.number (.fin 5))] ∧
    [sampleApp "foo" "Foo" (.number (.fin 3)), sampleApp "bar" "Bar" (.number (.fin 5))]
      ≠ [sampleApp "bar" "Bar" (.number (.fin 5)), sampleApp "foo" "Foo" (.number (.fin 3))] ∧
    (saveBadgeChanges "foo" ["new"] (storeOf [sampleApp "foo" "Foo" (.number .nan)])).apps
      = [{ sampleApp "foo" "Foo" (.number .nan) with badges := some ["new"] }] ∧
    (loadAppsFromStorage none (new (saveBadgeChanges "foo" ["new"]
        (storeOf [sampleApp "foo" "Foo" (.number .nan)])).localStorage)).map (fun s => s.apps)
      = .ok [{ sampleApp "foo" "Foo" .null with badges := some ["new"] }] ∧
    [{ sampleApp "foo" "Foo" .null with badges := some ["new"] }]
      ≠ [{ sampleApp "foo" "Foo" (.number .nan) with badges := some ["new"] }] := by
  refine ⟨by decide!, ?_, by decide!, by decide!, ?_, by decide!⟩
  · with_unfolding_all rfl
  · with_unfolding_all rfl

end AcueStore

namespace AcueStore

/-! ## Ids of new records -/

/-- A decimal digit is written as the character with its value, never as `-`. -/
theorem digitChar_decimal (k : Nat) (h : k < 10) :
    (Nat.digitChar k).toNat - 48 = k ∧ Nat.digitChar k ≠ '-' := by
  interval_cases k <;> exact ⟨by decide, by decide⟩

/-- The digits that `Nat.toDigitsCore` puts in front of `ds` denote `n` and hold no `-`. -/
theorem toDigitsCore_decimal (fuel : Nat) :
    ∀ (n : Nat) (ds : List Char), n < fuel →
      ∃ pre, Nat.toDigitsCore 10 fuel n ds = pre ++ ds ∧ decimalValue pre = n ∧
        ∀ c ∈ pre, c ≠ '-' := by
  induction fuel with
  | zero => intro n ds h; omega
  | succ fuel ih =>
    intro n ds h
    have hd := digitChar_decimal (n % 10) (Nat.mod_lt n (by decide))
    by_cases h0 : n / 10 = 0
    · refine ⟨[Nat.digitChar (n % 10)], ?_, ?_, ?_⟩
      · simp [Nat.toDigitsCore, h0]
      · simp only [decimalValue, List.foldl_cons, List.foldl_nil, hd.1]
        omega
      · intro c hc
        rw [List.mem_singleton.1 hc]
        exact hd.2
    · obtain ⟨pre, h1, h2, h3⟩ := ih (n / 10) (Nat.digitChar (n % 10) :: ds) (by omega)
      refine ⟨pre ++ [Nat.digitChar (n % 10)], ?_, ?_, ?_⟩
      · simp [Nat.toDigitsCore, h0, h1]
      · unfold decimalValue at h2 ⊢
        rw [List.foldl_append, h2]
        simp only [List.foldl_cons, List.foldl_nil, hd.1]
        omega
      · intro c hc
        rcases List.mem_append.1 hc with hc | hc
        · exact h3 c hc
        · rw [List.mem_singleton.1 hc]
          exact hd.2

/-- The text of a natural number is a list of digits that denotes it and holds no `-`. -/
theorem toString_decimal (n : Nat) :
    decimalValue (toString n).data = n ∧ ∀ c ∈ (toString n).data, c ≠ '-' := by
  obtain ⟨pre, h1, h2, h3⟩ := toDigitsCore_decimal (n + 1) n [] (Nat.lt_succ_self n)
  have hdata : (toString n).data = pre := by
    show (Nat.toDigits 10 n).asString.data = pre
    simp [Nat.toDigits, h1, List.asString]
  rw [hdata]
  exact ⟨h2, h3⟩

/-- Two lists that agree after appending `x` and a tail free of `x` have the same tail. -/
theorem tail_eq_of_append_cons {α : Type} (x : α) :
    ∀ (a a' b b' : List α), a ++ x :: b = a' ++ x :: b' → x ∉ b → x ∉ b' → b = b' := by
  have front : ∀ (p p' q q' : List α), p ++ x :: q = p' ++ x :: q' → x ∉ p → x ∉ p' →
      p = p' := by
    intro p
    induction p with
    | nil =>
      intro p' q q' h _ hp'
      cases p' with
      | nil => rfl
      | cons y p' =>
        simp only [List.nil_append, List.cons_append, List.cons.injEq] at h
        exact absurd (by rw [h.1]; exact List.mem_cons_self _ _) hp'
    | cons y p ih =>
      intro p' q q' h hp hp'
      cases p' with
      | nil =>
        simp only [List.nil_append, List.cons_append, List.cons.injEq] at h
        exact absurd (by rw [← h.1]; exact List.mem_cons_self _ _) hp
      | cons y' p' =>
        simp only [List.cons_append, List.cons.injEq] at h
        rw [h.1, ih p' q q' h.2 (fun hm => hp (List.mem_cons_of_mem _ hm))
          (fun hm => hp' (List.mem_cons_of_mem _ hm))]
  intro a a' b b' h hb hb'
  have hrev : b.reverse ++ x :: a.reverse = b'.reverse ++ x :: a'.reverse := by
    have := congrArg List.reverse h
    simpa using this
  have := front b.reverse b'.reverse a.reverse a'.reverse hrev (by simpa using hb)
    (by simpa using hb')
  exact List.reverse_injective this

/-- Ids made by `newAppId` at different values of the clock differ. -/
theorem newAppId_now_injective (appName appName' : String) (now now' : Nat)
    (h : newAppId appName now = newAppId appName' now') : now = now' := by
  have hdata := congrArg String.data h
  simp only [newAppId, String.data_append] at hdata
  rw [List.append_assoc, List.append_assoc, List.singleton_append,
    List.singleton_append] at hdata
  have ht := tail_eq_of_append_cons '-' _ _ _ _ hdata
    (fun hm => (toString_decimal now).2 _ hm rfl)
    (fun hm => (toString_decimal now').2 _ hm rfl)
  rw [← (toString_decimal now).1, ← (toString_decimal now').1, ht]

end AcueStore

namespace AcueStore

/-- A call of `addNewApp` either leaves the collection as it was, or leaves a rearrangement
of the collection with one more record, whose id is the one `newAppId` makes. -/
theorem addNewApp_apps (appName : String) (appRating : JSNumber)
    (appBio appCategory appDownloadLink : String) (now : Nat) (s : AcueStore) :
    (addNewApp appName appRating appBio appCategory appDownloadLink now s).apps = s.apps ∨
    ∃ a : App, a.id = newAppId appName now ∧
      (addNewApp appName appRating appBio appCategory appDownloadLink now s).apps.Perm
        (s.apps ++ [a]) := by
  unfold addNewApp
  split_ifs
  · exact Or.inl rfl
  · exact Or.inl rfl
  · exact Or.inr ⟨_, rfl, sort_perm _ _⟩

/-- C1, as stated, fails: on the empty collection, two calls of `addNewApp` with the name
`Foo` at the same value of `Date.now()` both succeed and leave two records with the id
`foo-1700000000000`. -/
theorem addNewApp_duplicate_id :
    (ids (storeOf []).apps).Nodup ∧
    ids (addNewApps
        [⟨"Foo", .fin 4.2, "About", "social", "https://x", 1700000000000⟩,
          ⟨"Foo", .fin 4.2, "About", "social", "https://x", 1700000000000⟩]
        (storeOf [])).apps
      = ["foo-1700000000000", "foo-1700000000000"] ∧
    ¬ (["foo-1700000000000", "foo-1700000000000"] : List String).Nodup := by
  refine ⟨by decide, by decide!, by decide⟩

/-- C1, amended: for every sequence of calls of `addNewApp` made at pairwise different
values of `Date.now()`, starting from a collection whose ids are pairwise distinct and hold
none of the ids the calls derive, no two records of the resulting collection share an id. -/
theorem addNewApps_ids_nodup (calls : List NewAppForm) :
    ∀ (s : AcueStore), (ids s.apps).Nodup →
      (calls.map (fun c => c.now)).Nodup →
      (∀ c ∈ calls, newAppId c.appName c.now ∉ ids s.apps) →
      (ids (addNewApps calls s).apps).Nodup := by
  induction calls with
  | nil => intro s h0 _ _; exact h0
  | cons c rest ih =>
    intro s h0 ht hs
    have hc : newAppId c.appName c.now ∉ ids s.apps := hs c (List.mem_cons_self c rest)
    rw [List.map_cons, List.nodup_cons] at ht
    show (ids (addNewApps rest
      (addNewApp c.appName c.appRating c.appBio c.appCategory c.appDownloadLink c.now s)).apps).Nodup
    rcases addNewApp_apps c.appName c.appRating c.appBio c.appCategory c.appDownloadLink
      c.now s with heq | ⟨a, ha, hperm⟩
    · apply ih _ (by rw [heq]; exact h0) ht.2
      intro c' hc'
      rw [heq]
      exact hs c' (List.mem_cons_of_mem c hc')
    · have hids : (ids (addNewApp c.appName c.appRating c.appBio c.appCategory
          c.appDownloadLink c.now s).apps).Perm (ids s.apps ++ [a.id]) := by
        have := hperm.map (fun a => a.id)
        simpa [ids] using this
      apply ih _ _ ht.2
      · intro c' hc' hmem
        have hmem' := hids.mem_iff.1 hmem
        rcases List.mem_append.1 hmem' with hm | hm
        · exact hs c' (List.mem_cons_of_mem c hc') hm
        · rw [List.mem_singleton, ha] at hm
          have hnow := newAppId_now_injective _ _ _ _ hm
          exact ht.1 (by rw [← hnow]; exact List.mem_map_of_mem (fun c => c.now) hc')
      · rw [hids.nodup_iff]
        refine List.Nodup.append h0 (List.nodup_singleton _) ?_
        intro x hx hx'
        rw [List.mem_singleton] at hx'
        rw [hx', ha] at hx
        exact hc hx

/-- Witness of C1 (amended): two calls with the name `Foo`, one millisecond apart, on a
collection holding the record `bar`. -/
theorem addNewApps_ids_nodup_witness :
    (ids (addNewApps
        [⟨"Foo", .fin 4.2, "About", "social", "https://x", 1700000000000⟩,
          ⟨"Foo", .fin 4.2, "About", "social", "https://x", 1700000000001⟩]
        (storeOf [sampleApp "bar" "Bar" .null])).apps).Nodup :=
  addNewApps_ids_nodup _ (storeOf [sampleApp "bar" "Bar" .null]) (by decide) (by decide)
    (by decide!)

end AcueStore

namespace AcueStore

/-! ## Durability of the mutations -/

@[simp] theorem renderEditorsChoice_apps (s : AcueStore) :
    (renderEditorsChoice s).apps = s.apps := rfl

@[simp] theorem renderEditorsChoice_localStorage (s : AcueStore) :
    (renderEditorsChoice s).localStorage = s.localStorage := rfl

@[simp] theorem renderFeaturedApps_apps (s : AcueStore) :
    (renderFeaturedApps s).apps = s.apps := rfl

@[simp] theorem renderFeaturedApps_localStorage (s : AcueStore) :
    (renderFeaturedApps s).localStorage = s.localStorage := rfl

@[simp] theorem renderTrendingApps_apps (s : AcueStore) :
    (renderTrendingApps s).apps = s.apps := rfl

@[simp] theorem renderTrendingApps_localStorage (s : AcueStore) :
    (renderTrendingApps s).localStorage = s.localStorage := rfl

@[simp] theorem renderNewApps_apps (s : AcueStore) : (renderNewApps s).apps = s.apps := rfl

@[simp] theorem renderNewApps_localStorage (s : AcueStore) :
    (renderNewApps s).localStorage = s.localStorage := rfl

/-- A record with the id exists exactly when `find` returns one. -/
theorem hasId_iff_find (appId : String) (s : AcueStore) :
    hasId appId s = true ↔ ∃ a, s.apps.find? (fun a => a.id == appId) = some a := by
  unfold hasId
  rw [← Option.isSome_iff_exists, List.find?_isSome, List.any_eq_true]

/-- No record with the id exists exactly when `find` returns none. -/
theorem hasId_false_iff_find (appId : String) (s : AcueStore) :
    hasId appId s = false ↔ s.apps.find? (fun a => a.id == appId) = none := by
  rw [← Bool.not_eq_true, hasId_iff_find]
  cases s.apps.find? (fun a => a.id == appId) <;> simp

/-- A record with the id exists exactly when `findIndex` returns an index. -/
theorem hasId_iff_findIdx (appId : String) (s : AcueStore) :
    hasId appId s = true ↔ ∃ i, s.apps.findIdx? (fun a => a.id == appId) = some i := by
  unfold hasId
  rw [← Option.isSome_iff_exists, List.findIdx?_isSome]

/-- Changing the found record into itself changes nothing. -/
theorem updateFirst_eq_self {α : Type} (p : α → Bool) (f : α → α) :
    ∀ (l : List α) (a : α), l.find? p = some a → f a = a → updateFirst p f l = l := by
  intro l
  induction l with
  | nil => intro a h; simp at h
  | cons b l ih =>
    intro a h hf
    by_cases hb : p b = true
    · simp only [List.find?_cons, hb, Option.some.injEq] at h
      subst h
      simp [updateFirst, hb, hf]
    · simp only [List.find?_cons, hb] at h
      simp only [updateFirst, hb, Bool.false_eq_true, if_false, List.cons.injEq, true_and]
      exact ih a h hf

/-- A state whose `localStorage` holds the JSON text of a rearrangement of its collection is
durable up to order. -/
theorem durable_of_saved (s : AcueStore) (saved : List App)
    (h1 : s.localStorage.nexoraStoreApps = some (JSON.stringify saved))
    (h2 : s.apps.Perm saved) : DurableUpToOrder s := by
  intro appsData
  have hp : ((saved.map App.toJSON).map JsonApp.parse).Perm
      (s.apps.map (fun a => a.toJSON.parse)) := by
    rw [List.map_map]
    exact (h2.map _).symm
  refine ⟨{ new s.localStorage with apps := (saved.map App.toJSON).map JsonApp.parse }, ?_,
    hp, ?_⟩
  · simp [loadAppsFromStorage, new, h1, JSON.stringify, Stored.truthy, JSON.parse]
  · intro hw
    have : s.apps.map (fun a => a.toJSON.parse) = s.apps := by
      have := parse_toJSON_list s.apps hw
      rwa [List.map_map] at this
    rw [← this]
    exact hp

end AcueStore

namespace AcueStore

/-- A call that passes the tests of its method saves a collection and leaves `this.apps`
as `renderPopularApps` sorts that collection. -/
theorem mutation_saved (m : Mutation) (s : AcueStore) (h : m.succeeds s = true) :
    ∃ saved, (m.run s).localStorage.nexoraStoreApps = some (JSON.stringify saved) ∧
      (m.run s).apps = sort byRatingDesc saved := by
  cases m with
  | addNewApp appName appRating appBio appCategory appDownloadLink now =>
    simp only [Mutation.succeeds, Bool.and_eq_true, Bool.not_eq_true'] at h
    simp only [Mutation.run, addNewApp, h.1, h.2, Bool.false_eq_true, if_false]
    exact ⟨_, rfl, rfl⟩
  | saveAppChanges appId n d r desc c u hot =>
    obtain ⟨a, ha⟩ := (hasId_iff_find appId s).1 h
    simp only [Mutation.run, saveAppChanges, ha]
    exact ⟨_, rfl, rfl⟩
  | removeApp appId confirmed =>
    simp only [Mutation.succeeds, Bool.and_eq_true] at h
    obtain ⟨i, hi⟩ := (hasId_iff_findIdx appId s).1 h.2
    simp only [Mutation.run, removeApp, h.1, hi, Bool.not_true, Bool.false_eq_true, if_false]
    exact ⟨_, rfl, rfl⟩
  | saveBadgeChanges appId selectedBadges =>
    obtain ⟨a, ha⟩ := (hasId_iff_find appId s).1 h
    simp only [Mutation.run, saveBadgeChanges, ha]
    exact ⟨_, rfl, rfl⟩
  | addBadgeToApp selectedAppId selectedBadgeType =>
    simp only [Mutation.succeeds, Bool.and_eq_true, Bool.not_eq_true'] at h
    obtain ⟨a, ha⟩ := (hasId_iff_find selectedAppId s).1 h.1.2
    have hdup : (a.badges.getD []).contains selectedBadgeType = false := by
      have := h.2
      simpa [ha] using this
    simp only [Mutation.run, addBadgeToApp, h.1.1, ha, hdup, Bool.false_eq_true, if_false]
    exact ⟨_, rfl, rfl⟩
  | updateAppRating selectedAppId newRating =>
    simp only [Mutation.succeeds, Bool.and_eq_true, Bool.not_eq_true'] at h
    obtain ⟨a, ha⟩ := (hasId_iff_find selectedAppId s).1 h.2
    simp only [Mutation.run, updateAppRating, h.1.1, h.1.2, ha, Bool.false_eq_true, if_false]
    exact ⟨_, rfl, rfl⟩
  | quickUpdateRating appId newRating =>
    obtain ⟨a, ha⟩ := (hasId_iff_find appId s).1 h
    simp only [Mutation.run, quickUpdateRating, ha]
    exact ⟨_, rfl, rfl⟩

/-- A call that does not pass the tests of its method leaves the collection and
`localStorage` as they were. -/
theorem mutation_failed (m : Mutation) (s : AcueStore) (h : m.succeeds s = false) :
    (m.run s).apps = s.apps ∧ (m.run s).localStorage = s.localStorage := by
  cases m with
  | addNewApp appName appRating appBio appCategory appDownloadLink now =>
    simp only [Mutation.succeeds, Bool.and_eq_false_iff, Bool.not_eq_false'] at h
    simp only [Mutation.run, addNewApp]
    split_ifs with h1 h2
    · exact ⟨rfl, rfl⟩
    · exact ⟨rfl, rfl⟩
    · rcases h with h | h
      · exact absurd h h1
      · exact absurd h h2
  | saveAppChanges appId n d r desc c u hot =>
    have ha := (hasId_false_iff_find appId s).1 h
    simp [Mutation.run, saveAppChanges, ha]
  | removeApp appId confirmed =>
    simp only [Mutation.succeeds, Bool.and_eq_false_iff] at h
    simp only [Mutation.run, removeApp]
    rcases h with h | h
    · simp [h]
    · have hi : s.apps.findIdx? (fun a => a.id == appId) = none := by
        cases hx : s.apps.findIdx? (fun a => a.id == appId) with
        | none => rfl
        | some i =>
          have := (hasId_iff_findIdx appId s).2 ⟨i, hx⟩
          rw [h] at this
          exact absurd this (by decide)
      rw [hi]
      split_ifs <;> exact ⟨rfl, rfl⟩
  | saveBadgeChanges appId selectedBadges =>
    have ha := (hasId_false_iff_find appId s).1 h
    simp only [Mutation.run, saveBadgeChanges, ha]
    exact ⟨rfl, rfl⟩
  | addBadgeToApp selectedAppId selectedBadgeType =>
    simp only [Mutation.run, addBadgeToApp]
    split_ifs with h1
    · exact ⟨rfl, rfl⟩
    · cases ha : s.apps.find? (fun a => a.id == selectedAppId) with
      | none => exact ⟨rfl, rfl⟩
      | some a =>
        have hid := (hasId_iff_find selectedAppId s).2 ⟨a, ha⟩
        have hdup : (a.badges.getD []).contains selectedBadgeType = true := by
          simpa [Mutation.succeeds, h1, hid, ha] using h
        simp only [hdup, if_true]
        have hb : ∃ l, a.badges = some l := by
          cases hl : a.badges with
          | none => rw [hl] at hdup; simp at hdup
          | some l => exact ⟨l, rfl⟩
        obtain ⟨l, hl⟩ := hb
        refine ⟨?_, rfl⟩
        show updateFirst _ _ s.apps = s.apps
        apply updateFirst_eq_self _ _ s.apps a ha
        cases a
        simp only at hl
        simp [hl]
  | updateAppRating selectedAppId newRating =>
    simp only [Mutation.run, updateAppRating]
    split_ifs with h1 h2
    · exact ⟨rfl, rfl⟩
    · exact ⟨rfl, rfl⟩
    · have hid : hasId selectedAppId s = false := by
        simpa [Mutation.succeeds, h1, h2] using h
      rw [(hasId_false_iff_find selectedAppId s).1 hid]
      exact ⟨rfl, rfl⟩
  | quickUpdateRating appId newRating =>
    have ha := (hasId_false_iff_find appId s).1 h
    simp [Mutation.run, quickUpdateRating, ha]

end AcueStore

namespace AcueStore

/-- C3, amended: for every collection and every call of `addNewApp`, `saveAppChanges`,
`removeApp`, `saveBadgeChanges`, `addBadgeToApp`, `updateAppRating` or `quickUpdateRating`
that passes the tests of its method, when the call returns `localStorage` holds the JSON
text of a rearrangement of `this.apps`, and a fresh `loadAppsFromStorage` in a new instance
does not raise and yields a rearrangement of `this.apps` as JSON text holds it: of
`this.apps` itself when every rating is a finite number or `null`. A call that does not
pass the tests leaves `this.apps` and `localStorage` as they were. -/
theorem mutation_durable_up_to_order (m : Mutation) (s : AcueStore) :
    (m.succeeds s = true →
      (∃ saved, (m.run s).localStorage.nexoraStoreApps = some (JSON.stringify saved) ∧
        (m.run s).apps.Perm saved) ∧
      ∀ appsData : Option (List App), ∃ fresh : AcueStore,
        loadAppsFromStorage appsData (new (m.run s).localStorage) = .ok fresh ∧
        fresh.apps.Perm ((m.run s).apps.map (fun a => a.toJSON.parse)) ∧
        ((∀ a ∈ (m.run s).apps, a.rating.writable = true) →
          fresh.apps.Perm (m.run s).apps)) ∧
    (m.succeeds s = false →
      (m.run s).apps = s.apps ∧ (m.run s).localStorage = s.localStorage) := by
  refine ⟨fun h => ?_, mutation_failed m s⟩
  obtain ⟨saved, h1, h2⟩ := mutation_saved m s h
  have hperm : (m.run s).apps.Perm saved := by
    rw [h2]
    exact sort_perm _ _
  exact ⟨⟨saved, h1, hperm⟩, durable_of_saved (m.run s) saved h1 hperm⟩

/-- Witness of C3 (amended): `updateAppRating` of `bar` to `5` in the collection `[foo, bar]`
passes the tests, and with the value `6` it does not. -/
theorem mutation_durable_up_to_order_witness :
    ((∃ saved, ((Mutation.updateAppRating "bar" (.fin 5)).run
          (storeOf [sampleApp "foo" "Foo" (.number (.fin 3)),
            sampleApp "bar" "Bar" (.number (.fin 2))])).localStorage.nexoraStoreApps
          = some (JSON.stringify saved) ∧
        ((Mutation.updateAppRating "bar" (.fin 5)).run
          (storeOf [sampleApp "foo" "Foo" (.number (.fin 3)),
            sampleApp "bar" "Bar" (.number (.fin 2))])).apps.Perm saved) ∧
      ∀ appsData : Option (List App), ∃ fresh : AcueStore,
        loadAppsFromStorage appsData (new ((Mutation.updateAppRating "bar" (.fin 5)).run
          (storeOf [sampleApp "foo" "Foo" (.number (.fin 3)),
            sampleApp "bar" "Bar" (.number (.fin 2))])).localStorage) = .ok fresh ∧
        fresh.apps.Perm (((Mutation.updateAppRating "bar" (.fin 5)).run
          (storeOf [sampleApp "foo" "Foo" (.number (.fin 3)),
            sampleApp "bar" "Bar" (.number (.fin 2))])).apps.map (fun a => a.toJSON.parse)) ∧
        ((∀ a ∈ ((Mutation.updateAppRating "bar" (.fin 5)).run
            (storeOf [sampleApp "foo" "Foo" (.number (.fin 3)),
              sampleApp "bar" "Bar" (.number (.fin 2))])).apps, a.rating.writable = true) →
          fresh.apps.Perm ((Mutation.updateAppRating "bar" (.fin 5)).run
            (storeOf [sampleApp "foo" "Foo" (.number (.fin 3)),
              sampleApp "bar" "Bar" (.number (.fin 2))])).apps)) ∧
    (((Mutation.updateAppRating "bar" (.fin 6)).run
        (storeOf [sampleApp "foo" "Foo" (.number (.fin 3)),
          sampleApp "bar" "Bar" (.number (.fin 2))])).apps
      = (storeOf [sampleApp "foo" "Foo" (.number (.fin 3)),
          sampleApp "bar" "Bar" (.number (.fin 2))]).apps ∧
      ((Mutation.updateAppRating "bar" (.fin 6)).run
        (storeOf [sampleApp "foo" "Foo" (.number (.fin 3)),
          sampleApp "bar" "Bar" (.number (.fin 2))])).localStorage
      = (storeOf [sampleApp "foo" "Foo" (.number (.fin 3)),
          sampleApp "bar" "Bar" (.number (.fin 2))]).localStorage) :=
  ⟨(mutation_durable_up_to_order (.updateAppRating "bar" (.fin 5))
      (storeOf [sampleApp "foo" "Foo" (.number (.fin 3)),
        sampleApp "bar" "Bar" (.number (.fin 2))])).1 (by decide!),
    (mutation_durable_up_to_order (.updateAppRating "bar" (.fin 6))
      (storeOf [sampleApp "foo" "Foo" (.number (.fin 3)),
        sampleApp "bar" "Bar" (.number (.fin 2))])).2 (by decide!)⟩

end AcueStore

namespace AcueStore

/-! ## The range of the ratings -/

/-- A record of `updateFirst p f l` is a record of `l` or the image of one. -/
theorem mem_updateFirst {α : Type} (p : α → Bool) (f : α → α) (x : α) :
    ∀ l : List α, x ∈ updateFirst p f l → x ∈ l ∨ ∃ b ∈ l, x = f b := by
  intro l
  induction l with
  | nil => intro h; simp [updateFirst] at h
  | cons b l ih =>
    intro h
    by_cases hb : p b = true
    · simp only [updateFirst, hb, if_true, List.mem_cons] at h
      rcases h with h | h
      · exact Or.inr ⟨b, List.mem_cons_self b l, h⟩
      · exact Or.inl (List.mem_cons_of_mem b h)
    · simp only [updateFirst, hb, Bool.false_eq_true, if_false, List.mem_cons] at h
      rcases h with h | h
      · exact Or.inl (by rw [h]; exact List.mem_cons_self b l)
      · rcases ih h with h' | ⟨c, hc, hx⟩
        · exact Or.inl (List.mem_cons_of_mem b h')
        · exact Or.inr ⟨c, List.mem_cons_of_mem b hc, hx⟩

/-- A number that passes the two tests of `addNewApp` and `updateAppRating` is a rating in
the range from `1` to `5`. -/
theorem inRange_of_accepted (r : JSNumber) (h1 : r.isFalsy = false)
    (h2 : (r.lt (.fin 1) || r.gt (.fin 5)) = false) : Rating.inRange (.number r) = true := by
  cases r with
  | fin q =>
    simp only [JSNumber.lt, JSNumber.gt, Bool.or_eq_false_iff, decide_eq_false_iff_not,
      not_lt] at h2
    simp [Rating.inRange, h2.1, h2.2]
  | nan => simp [JSNumber.isFalsy] at h1
  | posInf => simp [JSNumber.lt, JSNumber.gt] at h2
  | negInf => simp [JSNumber.lt, JSNumber.gt] at h2

/-- Rounding a number of the range from `1` to `5` to a tenth stays in the range. -/
theorem inRange_roundToTenth (q : ℚ) (h1 : 1 ≤ q) (h5 : q ≤ 5) :
    Rating.inRange (.number (JSNumber.fin q).roundToTenth) = true := by
  have hlo : (10 : ℤ) ≤ ⌊q * 10 + 1 / 2⌋ := by
    rw [Int.le_floor]
    push_cast
    linarith
  have hhi : ⌊q * 10 + 1 / 2⌋ ≤ (50 : ℤ) := by
    have : ⌊q * 10 + 1 / 2⌋ < (51 : ℤ) := by
      rw [Int.floor_lt]
      push_cast
      linarith
    omega
  have hlo' : (10 : ℚ) ≤ (⌊q * 10 + 1 / 2⌋ : ℤ) := by exact_mod_cast hlo
  have hhi' : ((⌊q * 10 + 1 / 2⌋ : ℤ) : ℚ) ≤ 50 := by exact_mod_cast hhi
  simp only [JSNumber.roundToTenth, Rating.inRange, decide_eq_true_eq]
  constructor
  · rw [le_div_iff₀ (by norm_num)]
    linarith
  · rw [div_le_iff₀ (by norm_num)]
    linarith

/-- Replacing the rating of the found record by one of the range, then sorting, keeps every
rating in the range. -/
theorem inRange_sort_updateFirst (apps : List App) (p : App → Bool) (r : Rating)
    (h : ∀ a ∈ apps, a.rating.inRange = true) (hr : r.inRange = true) :
    ∀ a ∈ sort byRatingDesc (updateFirst p (fun app => { app with rating := r }) apps),
      a.rating.inRange = true := by
  intro a ha
  rw [(sort_perm _ _).mem_iff] at ha
  rcases mem_updateFirst _ _ _ _ ha with h' | ⟨b, _, hb⟩
  · exact h a h'
  · rw [hb]
    exact hr

end AcueStore

namespace AcueStore

/-- C8, amended: if every record's rating is in the range from `1` to `5`, then every
record's rating is still in that range after `addNewApp` and after `updateAppRating` with
any values, and after `quickUpdateRating` with a value of that range; the values
`Math.max(1, r - 0.5)` and `Math.min(5, r + 0.5)` that the buttons of `loadRatingsList` pass
to `quickUpdateRating` are in that range whenever `r` is. -/
theorem rating_range_preserved (s : AcueStore)
    (h : ∀ a ∈ s.apps, a.rating.inRange = true) :
    (∀ (appName : String) (appRating : JSNumber) (appBio appCategory appDownloadLink : String)
        (now : Nat),
      ∀ a ∈ (addNewApp appName appRating appBio appCategory appDownloadLink now s).apps,
        a.rating.inRange = true) ∧
    (∀ (selectedAppId : String) (newRating : JSNumber),
      ∀ a ∈ (updateAppRating selectedAppId newRating s).apps, a.rating.inRange = true) ∧
    (∀ (appId : String) (q : ℚ), 1 ≤ q → q ≤ 5 →
      ∀ a ∈ (quickUpdateRating appId (.fin q) s).apps, a.rating.inRange = true) ∧
    (∀ q : ℚ, 1 ≤ q → q ≤ 5 →
      (∃ q', lowerRatingArg q = .fin q' ∧ 1 ≤ q' ∧ q' ≤ 5) ∧
      (∃ q', raiseRatingArg q = .fin q' ∧ 1 ≤ q' ∧ q' ≤ 5)) := by
  refine ⟨?_, ?_, ?_, ?_⟩
  · intro appName appRating appBio appCategory appDownloadLink now a ha
    unfold addNewApp at ha
    split_ifs at ha with h1 h2
    · exact h a ha
    · exact h a ha
    · have ha' : a ∈ sort byRatingDesc (s.apps ++ [_]) := ha
      rw [(sort_perm _ _).mem_iff, List.mem_append, List.mem_singleton] at ha'
      rcases ha' with ha' | ha'
      · exact h a ha'
      · rw [ha']
        simp only [Bool.or_eq_true, not_or, Bool.not_eq_true] at h1
        exact inRange_of_accepted appRating h1.1.1.1.2 (by simpa using h2)
  · intro selectedAppId newRating a ha
    unfold updateAppRating at ha
    split_ifs at ha with h1 h2
    · exact h a ha
    · exact h a ha
    · cases hf : s.apps.find? (fun a => a.id == selectedAppId) with
      | none =>
        rw [hf] at ha
        exact h a ha
      | some app =>
        rw [hf] at ha
        simp only [Bool.or_eq_true, not_or, Bool.not_eq_true] at h1
        exact inRange_sort_updateFirst s.apps _ (.number newRating) h
          (inRange_of_accepted newRating h1.2 (by simpa using h2)) a ha
  · intro appId q h1 h5 a ha
    unfold quickUpdateRating at ha
    cases hf : s.apps.find? (fun a => a.id == appId) with
    | none =>
      rw [hf] at ha
      exact h a ha
    | some app =>
      rw [hf] at ha
      exact inRange_sort_updateFirst s.apps _ _ h (inRange_roundToTenth q h1 h5) a ha
  · intro q h1 h5
    refine ⟨⟨_, rfl, le_max_left _ _, max_le (by norm_num) (by linarith)⟩,
      ⟨_, rfl, le_min (by norm_num) (by linarith), min_le_left _ _⟩⟩

/-- Witness of C8 (amended): a collection of one record with the rating `4`. -/
theorem rating_range_preserved_witness :
    (∀ a ∈ (addNewApp "Foo" (.fin 4.2) "About" "social" "https://x" 1700000000000
        (storeOf [sampleApp "bar" "Bar" (.number (.fin 4))])).apps,
      a.rating.inRange = true) ∧
    (∀ a ∈ (updateAppRating "bar" (.fin 4.26)
        (storeOf [sampleApp "bar" "Bar" (.number (.fin 4))])).apps,
      a.rating.inRange = true) ∧
    (∀ a ∈ (quickUpdateRating "bar" (.fin 4.5)
        (storeOf [sampleApp "bar" "Bar" (.number (.fin 4))])).apps,
      a.rating.inRange = true) :=
  have h := rating_range_preserved (storeOf [sampleApp "bar" "Bar" (.number (.fin 4))])
    (by
      intro a ha
      simp only [storeOf, List.mem_singleton] at ha
      subst ha
      decide!)
  ⟨h.1 _ _ _ _ _ _, h.2.1 _ _, h.2.2.1 "bar" 4.5 (by norm_num) (by norm_num)⟩

end AcueStore

namespace AcueStore

/-! ## Creating a record -/

/-- C11, as stated, fails: a call of `addNewApp` with the name empty and a call with the
description empty have the same outcome, the one `alert` "Please fill in all fields" and
nothing else, so what is reported does not tell which field is violated. -/
theorem addNewApp_alert_names_no_field :
    addNewApp "" (.fin 4) "About" "social" "https://x" 1700000000000
        (storeOf [sampleApp "bar" "Bar" (.number (.fin 3))])
      = alert "Please fill in all fields" (storeOf [sampleApp "bar" "Bar" (.number (.fin 3))]) ∧
    addNewApp "Foo" (.fin 4) "" "social" "https://x" 1700000000000
        (storeOf [sampleApp "bar" "Bar" (.number (.fin 3))])
      = alert "Please fill in all fields"
          (storeOf [sampleApp "bar" "Bar" (.number (.fin 3))]) := by
  decide!

/-- C11, amended: whenever the name, the description, the category or the download URL is
empty, or the rating is `0`, `NaN`, below `1` or above `5`, `addNewApp` does nothing but
show one `alert`: "Please fill in all fields" when a field is empty or the rating is `0` or
`NaN`, and "Rating must be between 1 and 5" otherwise. The message names no field, and the
collection and `localStorage` are exactly as before the call. -/
theorem addNewApp_rejects (appName : String) (appRating : JSNumber)
    (appBio appCategory appDownloadLink : String) (now : Nat) (s : AcueStore)
    (h : appName = "" ∨ appRating.isFalsy = true ∨ appBio = "" ∨ appCategory = "" ∨
      appDownloadLink = "" ∨ appRating.lt (.fin 1) = true ∨ appRating.gt (.fin 5) = true) :
    addNewApp appName appRating appBio appCategory appDownloadLink now s
      = alert (if appName = "" ∨ appRating.isFalsy = true ∨ appBio = "" ∨ appCategory = "" ∨
            appDownloadLink = "" then "Please fill in all fields"
          else "Rating must be between 1 and 5") s ∧
    (addNewApp appName appRating appBio appCategory appDownloadLink now s).apps = s.apps ∧
    (addNewApp appName appRating appBio appCategory appDownloadLink now s).localStorage
      = s.localStorage := by
  have key : addNewApp appName appRating appBio appCategory appDownloadLink now s
      = alert (if appName = "" ∨ appRating.isFalsy = true ∨ appBio = "" ∨ appCategory = "" ∨
            appDownloadLink = "" then "Please fill in all fields"
          else "Rating must be between 1 and 5") s := by
    unfold addNewApp
    by_cases h1 : (appName == "" || appRating.isFalsy || appBio == "" || appCategory == "" ||
        appDownloadLink == "") = true
    · rw [if_pos h1]
      have : appName = "" ∨ appRating.isFalsy = true ∨ appBio = "" ∨ appCategory = "" ∨
          appDownloadLink = "" := by
        simpa [or_assoc] using h1
      rw [if_pos this]
    · have hn : ¬ (appName = "" ∨ appRating.isFalsy = true ∨ appBio = "" ∨ appCategory = "" ∨
          appDownloadLink = "") := by
        simpa [or_assoc] using h1
      have h2 : (appRating.lt (.fin 1) || appRating.gt (.fin 5)) = true := by
        rcases h with h | h | h | h | h | h | h
        · exact absurd (Or.inl h) hn
        · exact absurd (Or.inr (Or.inl h)) hn
        · exact absurd (Or.inr (Or.inr (Or.inl h))) hn
        · exact absurd (Or.inr (Or.inr (Or.inr (Or.inl h)))) hn
        · exact absurd (Or.inr (Or.inr (Or.inr (Or.inr h)))) hn
        · simp [h]
        · simp [h]
      rw [if_neg h1, if_pos h2, if_neg hn]
  refine ⟨key, ?_, ?_⟩ <;> rw [key] <;> rfl

/-- Witness of C11 (amended): the rating `7` on a collection of one record. -/
theorem addNewApp_rejects_witness :
    addNewApp "Foo" (.fin 7) "About" "social" "https://x" 1700000000000
        (storeOf [sampleApp "bar" "Bar" (.number (.fin 3))])
      = alert (if "Foo" = "" ∨ (JSNumber.fin 7).isFalsy = true ∨ "About" = "" ∨ "social" = "" ∨
            "https://x" = "" then "Please fill in all fields"
          else "Rating must be between 1 and 5")
          (storeOf [sampleApp "bar" "Bar" (.number (.fin 3))]) ∧
    (addNewApp "Foo" (.fin 7) "About" "social" "https://x" 1700000000000
        (storeOf [sampleApp "bar" "Bar" (.number (.fin 3))])).apps
      = (storeOf [sampleApp "bar" "Bar" (.number (.fin 3))]).apps ∧
    (addNewApp "Foo" (.fin 7) "About" "social" "https://x" 1700000000000
        (storeOf [sampleApp "bar" "Bar" (.number (.fin 3))])).localStorage
      = (storeOf [sampleApp "bar" "Bar" (.number (.fin 3))]).localStorage :=
  addNewApp_rejects "Foo" (.fin 7) "About" "social" "https://x" 1700000000000 _
    (Or.inr (Or.inr (Or.inr (Or.inr (Or.inr (Or.inr (by decide!)))))))

/-- C12, at a failing input: on the collection `[bar]` with the rating `3`, `addNewApp` with
the name `Foo` and the rating `4.2` succeeds and leaves `this.apps` as `[foo, bar]`, the new
record first, while `localStorage` holds `[bar, foo]`. On the empty collection the same call
leaves exactly the new record, named `Foo`, with the rating `4.2`, no badge and not hot. -/
theorem addNewApp_new_record_not_last :
    (addNewApp "Foo" (.fin 4.2) "About" "social" "https://x" 1700000000000
        (storeOf [sampleApp "bar" "Bar" (.number (.fin 3))])).apps
      = [{ id := "foo-1700000000000", name := "Foo", developer := "User Added",
            category := "social", rating := .number (.fin 4.2), description := "About",
            icon := "fas fa-mobile-alt", downloadUrl := some "https://x",
            download_url := some "https://x", isHot := some false, is_hot := some false,
            badges := some [] },
          sampleApp "bar" "Bar" (.number (.fin 3))] ∧
    (addNewApp "Foo" (.fin 4.2) "About" "social" "https://x" 1700000000000
        (storeOf [sampleApp "bar" "Bar" (.number (.fin 3))])).localStorage.nexoraStoreApps
      = some (JSON.stringify [sampleApp "bar" "Bar" (.number (.fin 3)),
          { id := "foo-1700000000000", name := "Foo", developer := "User Added",
            category := "social", rating := .number (.fin 4.2), description := "About",
            icon := "fas fa-mobile-alt", downloadUrl := some "https://x",
            download_url := some "https://x", isHot := some false, is_hot := some false,
            badges := some [] }]) ∧
    (addNewApp "Foo" (.fin 4.2) "About" "social" "https://x" 1700000000000
        (storeOf [])).apps
      = [{ id := "foo-1700000000000", name := "Foo", developer := "User Added",
            category := "social", rating := .number (.fin 4.2), description := "About",
            icon := "fas fa-mobile-alt", downloadUrl := some "https://x",
            download_url := some "https://x", isHot := some false, is_hot := some false,
            badges := some [] }] := by
  decide!

/-! ## Editing a record -/

/-- C13, as stated, fails: `saveAppChanges` with an id that no record has returns the state
it was given, the log of what is shown included: nothing is reported. -/
theorem saveAppChanges_missing_id_silent :
    saveAppChanges "nope" "Foo" "Dev" (.fin 4) "About" "social" "https://x" false
        (storeOf [sampleApp "bar" "Bar" (.number (.fin 3))])
      = storeOf [sampleApp "bar" "Bar" (.number (.fin 3))] ∧
    (saveAppChanges "nope" "Foo" "Dev" (.fin 4) "About" "social" "https://x" false
        (storeOf [sampleApp "bar" "Bar" (.number (.fin 3))])).log = [] := by
  decide!

/-- C13, amended: for every collection and every id that no record has, `saveAppChanges`
returns without reporting anything; the collection, `localStorage` and what is shown are
unchanged. -/
theorem saveAppChanges_missing_id (appId editAppName editAppDeveloper : String)
    (editAppRating : JSNumber) (editAppDescription editAppCategory editAppUrl : String)
    (editAppHot : Bool) (s : AcueStore) (h : ∀ a ∈ s.apps, a.id ≠ appId) :
    saveAppChanges appId editAppName editAppDeveloper editAppRating editAppDescription
      editAppCategory editAppUrl editAppHot s = s := by
  have hf : s.apps.find? (fun a => a.id == appId) = none := by
    rw [List.find?_eq_none]
    intro a ha
    simpa using h a ha
  simp only [saveAppChanges, hf]

/-- Witness of C13 (amended): the id `nope` on a collection holding the record `bar`. -/
theorem saveAppChanges_missing_id_witness :
    saveAppChanges "nope" "Foo" "Dev" (.fin 4) "About" "social" "https://x" false
        (storeOf [sampleApp "bar" "Bar" (.number (.fin 3))])
      = storeOf [sampleApp "bar" "Bar" (.number (.fin 3))] :=
  saveAppChanges_missing_id "nope" "Foo" "Dev" (.fin 4) "About" "social" "https://x" false
    (storeOf [sampleApp "bar" "Bar" (.number (.fin 3))]) (by decide)

/-- C14, at a failing input: on the collection `[foo, bar]` with the ratings `4` and `3`,
`saveAppChanges` for `bar` with the rating `5` succeeds and leaves `this.apps` as
`[bar, foo]`: the edited record, with its id, icon and badges as before, has moved in front
of `foo`. -/
theorem saveAppChanges_order_changes :
    (saveAppChanges "bar" "Bar" "Dev" (.fin 5) "About" "social" "https://x" false
        (storeOf [sampleApp "foo" "Foo" (.number (.fin 4)),
          sampleApp "bar" "Bar" (.number (.fin 3))])).apps
      = [{ sampleApp "bar" "Bar" (.number (.fin 5)) with
            downloadUrl := some "https://x", isHot := some false },
          sampleApp "foo" "Foo" (.number (.fin 4))] ∧
    [{ sampleApp "bar" "Bar" (.number (.fin 5)) with
          downloadUrl := some "https://x", isHot := some false },
        sampleApp "foo" "Foo" (.number (.fin 4))]
      ≠ [sampleApp "foo" "Foo" (.number (.fin 4)),
          { sampleApp "bar" "Bar" (.number (.fin 5)) with
            downloadUrl := some "https://x", isHot := some false }] := by
  decide!

end AcueStore

namespace AcueStore

/-! ## The first record with an id -/

/-- In `pre ++ a :: post`, where no element of `pre` satisfies `p` and `a` does, `find`
returns `a`. -/
theorem find?_split {α : Type} (p : α → Bool) (pre post : List α) (a : α)
    (hpre : ∀ b ∈ pre, p b = false) (ha : p a = true) :
    (pre ++ a :: post).find? p = some a := by
  induction pre with
  | nil => simp [ha]
  | cons b pre ih =>
    have hb : p b = false := hpre b (List.mem_cons_self b pre)
    simp only [List.cons_append, List.find?_cons, hb]
    exact ih (fun c hc => hpre c (List.mem_cons_of_mem b hc))

/-- In `pre ++ a :: post`, where no element of `pre` satisfies `p` and `a` does, `findIndex`
returns the position of `a`. -/
theorem findIdx?_split {α : Type} (p : α → Bool) (pre post : List α) (a : α)
    (hpre : ∀ b ∈ pre, p b = false) (ha : p a = true) :
    (pre ++ a :: post).findIdx? p = some pre.length := by
  rw [List.findIdx?_append]
  have h1 : pre.findIdx? p = none := by
    rw [List.findIdx?_eq_none_iff]
    exact hpre
  simp [h1, List.findIdx?_cons, ha]

/-- Removing the element behind `pre` from `pre ++ a :: post` leaves `pre ++ post`. -/
theorem eraseIdx_split {α : Type} (pre post : List α) (a : α) :
    (pre ++ a :: post).eraseIdx pre.length = pre ++ post := by
  induction pre with
  | nil => rfl
  | cons b pre ih => simp only [List.cons_append, List.length_cons, List.eraseIdx_cons_succ, ih]

/-- In `pre ++ a :: post`, where no element of `pre` satisfies `p` and `a` does,
`updateFirst` changes `a` and nothing else. -/
theorem updateFirst_split {α : Type} (p : α → Bool) (f : α → α) (pre post : List α) (a : α)
    (hpre : ∀ b ∈ pre, p b = false) (ha : p a = true) :
    updateFirst p f (pre ++ a :: post) = pre ++ f a :: post := by
  induction pre with
  | nil => simp [updateFirst, ha]
  | cons b pre ih =>
    have hb : p b = false := hpre b (List.mem_cons_self b pre)
    simp only [List.cons_append, updateFirst, hb, Bool.false_eq_true, if_false, List.cons.injEq,
      true_and]
    exact ih (fun c hc => hpre c (List.mem_cons_of_mem b hc))

/-- The records before the first one with the id fail the test of `find`. -/
theorem id_test_false (appId : String) (pre : List App) (h : ∀ b ∈ pre, b.id ≠ appId) :
    ∀ b ∈ pre, (fun a : App => a.id == appId) b = false := by
  intro b hb
  simpa using h b hb

/-! ## Collections in the order of `renderPopularApps` -/

/-- A collection in the order of `renderPopularApps` is left as it is by the sort. -/
theorem sort_eq_self (apps : List App) (h : InRatingOrder apps) :
    sort byRatingDesc apps = apps :=
  List.Sorted.insertionSort_eq h

/-- Taking records out of a collection keeps the order of `renderPopularApps`. -/
theorem inRatingOrder_sublist {l₁ l₂ : List App} (hs : l₁.Sublist l₂) (h : InRatingOrder l₂) :
    InRatingOrder l₁ :=
  List.Pairwise.sublist hs h

/-- The order of `renderPopularApps` depends on the ratings only. -/
theorem inRatingOrder_of_ratings_eq (l₁ l₂ : List App)
    (hr : l₁.map (fun a => a.rating) = l₂.map (fun a => a.rating)) (h : InRatingOrder l₂) :
    InRatingOrder l₁ := by
  have key : ∀ l : List App, InRatingOrder l ↔
      (l.map (fun a => a.rating)).Pairwise
        (fun r₁ r₂ => (r₂.toNumber.sub r₁.toNumber).gt (.fin 0) = false) := by
    intro l
    rw [List.pairwise_map]
    rfl
  rw [key, hr, ← key]
  exact h

end AcueStore

namespace AcueStore

/-! ## Removing a record -/

/-- C15: `removeApp` does not keep the other records in their order. On the collection
`[foo, baz, bar]` with the ratings `3`, `4` and `5`, the confirmed `removeApp` of `foo`
leaves `this.apps` as `[bar, baz]`: the two records that stay have changed places, by the
sort of `renderPopularApps`, which `removeApp` calls after it has stored `[baz, bar]`. -/
theorem removeApp_order_changes :
    (removeApp "foo" true (storeOf [sampleApp "foo" "Foo" (.number (.fin 3)),
        sampleApp "baz" "Baz" (.number (.fin 4)),
        sampleApp "bar" "Bar" (.number (.fin 5))])).apps
      = [sampleApp "bar" "Bar" (.number (.fin 5)), sampleApp "baz" "Baz" (.number (.fin 4))] ∧
    [sampleApp "bar" "Bar" (.number (.fin 5)), sampleApp "baz" "Baz" (.number (.fin 4))]
      ≠ [sampleApp "baz" "Baz" (.number (.fin 4)),
          sampleApp "bar" "Bar" (.number (.fin 5))] := by
  decide!

/-- What `removeApp` does apart from the order: when it is not confirmed, or its id is the
id of no record, it returns the state it was given. A confirmed `removeApp` whose id is that
of `a`, the first such record of the collection `pre ++ a :: post`, stores the JSON text of
`pre ++ post` and leaves `this.apps` a rearrangement of `pre ++ post`: `pre ++ post` itself
when the collection was in the order `renderPopularApps` sorts it into. -/
theorem removeApp_first_with_id (appId : String) (s : AcueStore) :
    removeApp appId false s = s ∧
    ((∀ a ∈ s.apps, a.id ≠ appId) → removeApp appId true s = s) ∧
    (∀ (pre post : List App) (a : App), s.apps = pre ++ a :: post → a.id = appId →
      (∀ b ∈ pre, b.id ≠ appId) →
      (removeApp appId true s).localStorage.nexoraStoreApps
        = some (JSON.stringify (pre ++ post)) ∧
      (removeApp appId true s).apps.Perm (pre ++ post) ∧
      (InRatingOrder s.apps → (removeApp appId true s).apps = pre ++ post)) := by
  refine ⟨rfl, ?_, ?_⟩
  · intro h
    have hf : s.apps.findIdx? (fun a => a.id == appId) = none := by
      rw [List.findIdx?_eq_none_iff]
      exact id_test_false appId s.apps h
    simp [removeApp, hf]
  · intro pre post a hs ha hpre
    have hi : s.apps.findIdx? (fun a => a.id == appId) = some pre.length := by
      rw [hs]
      exact findIdx?_split _ pre post a (id_test_false appId pre hpre) (by simp [ha])
    have he : s.apps.eraseIdx pre.length = pre ++ post := by
      rw [hs]
      exact eraseIdx_split pre post a
    have hstored : (removeApp appId true s).localStorage.nexoraStoreApps
        = some (JSON.stringify (s.apps.eraseIdx pre.length)) := by
      simp only [removeApp, hi, Bool.not_true, Bool.false_eq_true, if_false]
      rfl
    have happs : (removeApp appId true s).apps
        = sort byRatingDesc (s.apps.eraseIdx pre.length) := by
      simp only [removeApp, hi, Bool.not_true, Bool.false_eq_true, if_false]
      rfl
    rw [hstored, happs, he]
    refine ⟨rfl, sort_perm _ _, fun hsorted => sort_eq_self _ ?_⟩
    rw [← he]
    exact inRatingOrder_sublist (List.eraseIdx_sublist _ _) hsorted

/-- An instance of `removeApp_first_with_id`: the confirmed `removeApp` of `baz`, the middle
record of the collection `[bar, baz, foo]` with the ratings `5`, `4` and `3`. -/
theorem removeApp_first_with_id_witness :
    (removeApp "baz" true (storeOf [sampleApp "bar" "Bar" (.number (.fin 5)),
        sampleApp "baz" "Baz" (.number (.fin 4)),
        sampleApp "foo" "Foo" (.number (.fin 3))])).apps
      = [sampleApp "bar" "Bar" (.number (.fin 5))] ++
          [sampleApp "foo" "Foo" (.number (.fin 3))] ∧
    removeApp "nope" true (storeOf [sampleApp "bar" "Bar" (.number (.fin 5)),
        sampleApp "baz" "Baz" (.number (.fin 4)),
        sampleApp "foo" "Foo" (.number (.fin 3))])
      = storeOf [sampleApp "bar" "Bar" (.number (.fin 5)),
        sampleApp "baz" "Baz" (.number (.fin 4)),
        sampleApp "foo" "Foo" (.number (.fin 3))] :=
  ⟨((removeApp_first_with_id "baz" (storeOf [sampleApp "bar" "Bar" (.number (.fin 5)),
        sampleApp "baz" "Baz" (.number (.fin 4)),
        sampleApp "foo" "Foo" (.number (.fin 3))])).2.2
      [sampleApp "bar" "Bar" (.number (.fin 5))] [sampleApp "foo" "Foo" (.number (.fin 3))]
      (sampleApp "baz" "Baz" (.number (.fin 4))) rfl rfl (by decide)).2.2 (by decide!),
    (removeApp_first_with_id "nope" (storeOf [sampleApp "bar" "Bar" (.number (.fin 5)),
        sampleApp "baz" "Baz" (.number (.fin 4)),
        sampleApp "foo" "Foo" (.number (.fin 3))])).2.1 (by decide)⟩

end AcueStore

namespace AcueStore

/-! ## Badges of a record -/

/-- C19: `saveBadgeChanges` whose id no record has leaves the collection and `localStorage`
as they were. `saveBadgeChanges` whose id is that of `a`, the first such record of the
collection `pre ++ a :: post`, makes the badges of `a` exactly the selected ones, whatever
they were, and changes no other field and no other record: it stores the JSON text of
`pre ++ a' :: post`, where `a'` is `a` with the new badges, and leaves `this.apps` a
rearrangement of that collection, that collection itself when the collection was in the
order `renderPopularApps` sorts it into. -/
theorem saveBadgeChanges_replaces_badges (appId : String) (selectedBadges : List String)
    (s : AcueStore) :
    ((∀ a ∈ s.apps, a.id ≠ appId) →
      (saveBadgeChanges appId selectedBadges s).apps = s.apps ∧
      (saveBadgeChanges appId selectedBadges s).localStorage = s.localStorage) ∧
    (∀ (pre post : List App) (a : App), s.apps = pre ++ a :: post → a.id = appId →
      (∀ b ∈ pre, b.id ≠ appId) →
      (saveBadgeChanges appId selectedBadges s).localStorage.nexoraStoreApps
        = some (JSON.stringify (pre ++ { a with badges := some selectedBadges } :: post)) ∧
      (saveBadgeChanges appId selectedBadges s).apps.Perm
        (pre ++ { a with badges := some selectedBadges } :: post) ∧
      (InRatingOrder s.apps →
        (saveBadgeChanges appId selectedBadges s).apps
          = pre ++ { a with badges := some selectedBadges } :: post)) := by
  constructor
  · intro h
    have hf : s.apps.find? (fun a => a.id == appId) = none := by
      rw [List.find?_eq_none]
      intro a ha
      simpa using h a ha
    simp only [saveBadgeChanges, hf]
    exact ⟨rfl, rfl⟩
  · intro pre post a hs ha hpre
    have hp : (fun a : App => a.id == appId) a = true := by simp [ha]
    have hf : s.apps.find? (fun a => a.id == appId) = some a := by
      rw [hs]
      exact find?_split _ pre post a (id_test_false appId pre hpre) hp
    have hu : updateFirst (fun a => a.id == appId)
        (fun app => { app with badges := some selectedBadges }) s.apps
        = pre ++ { a with badges := some selectedBadges } :: post := by
      rw [hs]
      exact updateFirst_split _ _ pre post a (id_test_false appId pre hpre) hp
    have hstored : (saveBadgeChanges appId selectedBadges s).localStorage.nexoraStoreApps
        = some (JSON.stringify (updateFirst (fun a => a.id == appId)
          (fun app => { app with badges := some selectedBadges }) s.apps)) := by
      simp only [saveBadgeChanges, hf]
      rfl
    have happs : (saveBadgeChanges appId selectedBadges s).apps
        = sort byRatingDesc (updateFirst (fun a => a.id == appId)
          (fun app => { app with badges := some selectedBadges }) s.apps) := by
      simp only [saveBadgeChanges, hf]
      rfl
    rw [hstored, happs, hu]
    refine ⟨rfl, sort_perm _ _, fun hsorted => sort_eq_self _ ?_⟩
    apply inRatingOrder_of_ratings_eq _ s.apps _ hsorted
    rw [hs]
    simp

/-- Witness of C19: the badges `new` and `featured` for `baz`, the second record of the
collection `[bar, baz]` with the ratings `5` and `4`; and the id `nope`. -/
theorem saveBadgeChanges_replaces_badges_witness :
    (saveBadgeChanges "baz" ["new", "featured"]
        (storeOf [sampleApp "bar" "Bar" (.number (.fin 5)),
          { sampleApp "baz" "Baz" (.number (.fin 4)) with badges := some ["trending"] }])).apps
      = [sampleApp "bar" "Bar" (.number (.fin 5))] ++
          { ({ sampleApp "baz" "Baz" (.number (.fin 4)) with
              badges := some ["trending"] } : App) with
            badges := some ["new", "featured"] } :: [] ∧
    (saveBadgeChanges "nope" ["new", "featured"]
        (storeOf [sampleApp "bar" "Bar" (.number (.fin 5))])).apps
      = (storeOf [sampleApp "bar" "Bar" (.number (.fin 5))]).apps ∧
    (saveBadgeChanges "nope" ["new", "featured"]
        (storeOf [sampleApp "bar" "Bar" (.number (.fin 5))])).localStorage
      = (storeOf [sampleApp "bar" "Bar" (.number (.fin 5))]).localStorage :=
  ⟨((saveBadgeChanges_replaces_badges "baz" ["new", "featured"]
        (storeOf [sampleApp "bar" "Bar" (.number (.fin 5)),
          { sampleApp "baz" "Baz" (.number (.fin 4)) with badges := some ["trending"] }])).2
      [sampleApp "bar" "Bar" (.number (.fin 5))] []
      { sampleApp "baz" "Baz" (.number (.fin 4)) with badges := some ["trending"] }
      rfl rfl (by decide)).2.2 (by decide!),
    (saveBadgeChanges_replaces_badges "nope" ["new", "featured"]
      (storeOf [sampleApp "bar" "Bar" (.number (.fin 5))])).1 (by decide)⟩

end AcueStore

namespace AcueStore

/-- C16, as stated, fails. With the empty badge key, which the record `bar` does not have,
`addBadgeToApp` fails with the `alert` "Please select an app and badge type" and appends
nothing: the badges of `bar` are not the old ones with the key appended. -/
theorem addBadgeToApp_empty_key :
    "" ∉ (sampleApp "bar" "Bar" (.number (.fin 5))).badges.getD [] ∧
    addBadgeToApp "bar" "" (storeOf [sampleApp "bar" "Bar" (.number (.fin 5))])
      = alert "Please select an app and badge type"
          (storeOf [sampleApp "bar" "Bar" (.number (.fin 5))]) ∧
    (addBadgeToApp "bar" "" (storeOf [sampleApp "bar" "Bar" (.number (.fin 5))])).apps
      = [sampleApp "bar" "Bar" (.number (.fin 5))] ∧
    (addBadgeToApp "bar" "" (storeOf [sampleApp "bar" "Bar" (.number (.fin 5))])).apps
      ≠ [{ sampleApp "bar" "Bar" (.number (.fin 5)) with
          badges := some ((sampleApp "bar" "Bar" (.number (.fin 5))).badges.getD [] ++ [""]) }] := by
  decide!

/-- The sort of `renderPopularApps` at the end of `addBadgeToApp`: on the collection
`[foo, bar]` with the ratings `3` and `5`, `addBadgeToApp` of `new` to `foo` leaves
`this.apps` as `[bar, foo]`. -/
theorem addBadgeToApp_order_changes :
    (addBadgeToApp "foo" "new" (storeOf [sampleApp "foo" "Foo" (.number (.fin 3)),
        sampleApp "bar" "Bar" (.number (.fin 5))])).apps
      = [sampleApp "bar" "Bar" (.number (.fin 5)),
          { sampleApp "foo" "Foo" (.number (.fin 3)) with badges := some ["new"] }] := by
  decide!

/-- C16, amended. With an empty id or an empty badge key `addBadgeToApp` does nothing but
show the `alert` "Please select an app and badge type". For every non-empty id that is the
id of `a`, the first such record of the collection `pre ++ a :: post`, and every non-empty
badge key `k`: when `k` is among the badges of `a`, `addBadgeToApp` does nothing but show the
`alert` "This badge is already assigned to this app"; when it is not, `addBadgeToApp`
succeeds, stores the JSON text of `pre ++ a' :: post`, where `a'` is `a` with `k` appended
to its badges (to no badges, if `a` has no `badges` field), and leaves in `this.apps` the
records of that collection. -/
theorem addBadgeToApp_appends_or_rejects (selectedAppId selectedBadgeType : String)
    (s : AcueStore) :
    ((selectedAppId = "" ∨ selectedBadgeType = "") →
      addBadgeToApp selectedAppId selectedBadgeType s
        = alert "Please select an app and badge type" s) ∧
    (selectedAppId ≠ "" → selectedBadgeType ≠ "" →
      ∀ (pre post : List App) (a : App), s.apps = pre ++ a :: post → a.id = selectedAppId →
      (∀ b ∈ pre, b.id ≠ selectedAppId) →
      (selectedBadgeType ∈ a.badges.getD [] →
        addBadgeToApp selectedAppId selectedBadgeType s
          = alert "This badge is already assigned to this app" s) ∧
      (selectedBadgeType ∉ a.badges.getD [] →
        (addBadgeToApp selectedAppId selectedBadgeType s).localStorage.nexoraStoreApps
          = some (JSON.stringify
              (pre ++ { a with badges := some (a.badges.getD [] ++ [selectedBadgeType]) }
                :: post)) ∧
        (addBadgeToApp selectedAppId selectedBadgeType s).apps.Perm
          (pre ++ { a with badges := some (a.badges.getD [] ++ [selectedBadgeType]) }
            :: post) ∧
        (addBadgeToApp selectedAppId selectedBadgeType s).log.getLast?
          = some (.success [.text "Badge ", .quoted selectedBadgeType, .text " added to ",
              .text a.name]))) := by
  constructor
  · intro hempty
    have hguard : (selectedAppId == "" || selectedBadgeType == "") = true := by
      rcases hempty with h | h <;> simp [h]
    simp only [addBadgeToApp, hguard, if_true]
  intro hid hk pre post a hs ha hpre
  have hp : (fun a : App => a.id == selectedAppId) a = true := by simp [ha]
  have hf : s.apps.find? (fun a => a.id == selectedAppId) = some a := by
    rw [hs]
    exact find?_split _ pre post a (id_test_false selectedAppId pre hpre) hp
  have hguard : (selectedAppId == "" || selectedBadgeType == "") = false := by
    simp [hid, hk]
  constructor
  · intro hdup
    have hc : (a.badges.getD []).contains selectedBadgeType = true := by
      simpa using hdup
    have hsome : a.badges = some (a.badges.getD []) := by
      cases hb : a.badges with
      | none => rw [hb] at hdup; simp at hdup
      | some l => rfl
    have hu : updateFirst (fun a => a.id == selectedAppId)
        (fun app => { app with badges := some (app.badges.getD []) }) s.apps = s.apps := by
      apply updateFirst_eq_self _ _ s.apps a hf
      cases a
      simp only at hsome
      simp only [App.mk.injEq, true_and]
      exact hsome.symm
    simp only [addBadgeToApp, hguard, hf, hc, Bool.false_eq_true, if_false, if_true, hu]
  · intro hnew
    have hc : (a.badges.getD []).contains selectedBadgeType = false := by
      simpa using hnew
    have hu : updateFirst (fun a => a.id == selectedAppId)
        (fun app => { app with badges := some (app.badges.getD [] ++ [selectedBadgeType]) })
        (updateFirst (fun a => a.id == selectedAppId)
          (fun app => { app with badges := some (app.badges.getD []) }) s.apps)
        = pre ++ { a with badges := some (a.badges.getD [] ++ [selectedBadgeType]) }
            :: post := by
      rw [hs, updateFirst_split _ _ pre post a (id_test_false selectedAppId pre hpre) hp,
        updateFirst_split _ _ pre post _ (id_test_false selectedAppId pre hpre)
          (by simp [ha])]
      rfl
    have hstored : (addBadgeToApp selectedAppId selectedBadgeType s).localStorage.nexoraStoreApps
        = some (JSON.stringify
            (pre ++ { a with badges := some (a.badges.getD [] ++ [selectedBadgeType]) }
              :: post)) := by
      simp only [addBadgeToApp, hguard, hf, hc, Bool.false_eq_true, if_false]
      rw [← hu]
      rfl
    have happs : (addBadgeToApp selectedAppId selectedBadgeType s).apps
        = sort byRatingDesc
            (pre ++ { a with badges := some (a.badges.getD [] ++ [selectedBadgeType]) }
              :: post) := by
      simp only [addBadgeToApp, hguard, hf, hc, Bool.false_eq_true, if_false]
      rw [← hu]
      rfl
    have hlog : (addBadgeToApp selectedAppId selectedBadgeType s).log.getLast?
        = some (.success [.text "Badge ", .quoted selectedBadgeType, .text " added to ",
            .text a.name]) := by
      simp only [addBadgeToApp, hguard, hf, hc, Bool.false_eq_true, if_false]
      simp [showSuccessMessage, emit]
    rw [hstored, happs]
    exact ⟨rfl, sort_perm _ _, hlog⟩

end AcueStore

namespace AcueStore

/-- Witness of C16 (amended): `baz`, the second record of the collection `[bar, baz]` with
the ratings `5` and `4`, has the badge `trending`; the keys are `trending`, `new` and the
empty one. -/
theorem addBadgeToApp_appends_or_rejects_witness :
    addBadgeToApp "baz" "trending"
        (storeOf [sampleApp "bar" "Bar" (.number (.fin 5)),
          { sampleApp "baz" "Baz" (.number (.fin 4)) with badges := some ["trending"] }])
      = alert "This badge is already assigned to this app"
        (storeOf [sampleApp "bar" "Bar" (.number (.fin 5)),
          { sampleApp "baz" "Baz" (.number (.fin 4)) with badges := some ["trending"] }]) ∧
    (addBadgeToApp "baz" "new"
        (storeOf [sampleApp "bar" "Bar" (.number (.fin 5)),
          { sampleApp "baz" "Baz" (.number (.fin 4)) with
            badges := some ["trending"] }])).localStorage.nexoraStoreApps
      = some (JSON.stringify ([sampleApp "bar" "Bar" (.number (.fin 5))] ++
          { ({ sampleApp "baz" "Baz" (.number (.fin 4)) with
              badges := some ["trending"] } : App) with
            badges := some
              ((({ sampleApp "baz" "Baz" (.number (.fin 4)) with
                badges := some ["trending"] } : App)).badges.getD [] ++ ["new"]) } :: [])) ∧
    addBadgeToApp "baz" ""
        (storeOf [sampleApp "bar" "Bar" (.number (.fin 5)),
          { sampleApp "baz" "Baz" (.number (.fin 4)) with badges := some ["trending"] }])
      = alert "Please select an app and badge type"
        (storeOf [sampleApp "bar" "Bar" (.number (.fin 5)),
          { sampleApp "baz" "Baz" (.number (.fin 4)) with badges := some ["trending"] }]) :=
  ⟨((addBadgeToApp_appends_or_rejects "baz" "trending"
      (storeOf [sampleApp "bar" "Bar" (.number (.fin 5)),
        { sampleApp "baz" "Baz" (.number (.fin 4)) with badges := some ["trending"] }])).2
      (by decide) (by decide) [sampleApp "bar" "Bar" (.number (.fin 5))] []
      { sampleApp "baz" "Baz" (.number (.fin 4)) with badges := some ["trending"] }
      rfl rfl (by decide)).1 (by decide),
    (((addBadgeToApp_appends_or_rejects "baz" "new"
      (storeOf [sampleApp "bar" "Bar" (.number (.fin 5)),
        { sampleApp "baz" "Baz" (.number (.fin 4)) with badges := some ["trending"] }])).2
      (by decide) (by decide) [sampleApp "bar" "Bar" (.number (.fin 5))] []
      { sampleApp "baz" "Baz" (.number (.fin 4)) with badges := some ["trending"] }
      rfl rfl (by decide)).2 (by decide)).1,
    (addBadgeToApp_appends_or_rejects "baz" ""
      (storeOf [sampleApp "bar" "Bar" (.number (.fin 5)),
        { sampleApp "baz" "Baz" (.number (.fin 4)) with badges := some ["trending"] }])).1
      (Or.inr rfl)⟩

/-! ## The badge views -/

/-- Which ids count as seen matters to `dedupById` only through membership. -/
theorem dedupById_congr (l : List App) :
    ∀ seen seen' : List String, (∀ x, x ∈ seen ↔ x ∈ seen') →
      dedupById seen l = dedupById seen' l := by
  induction l with
  | nil => intro _ _ _; rfl
  | cons a l ih =>
    intro seen seen' h
    by_cases ha : a.id ∈ seen
    · have ha' : a.id ∈ seen' := (h a.id).1 ha
      simp only [dedupById, ha, ha', if_true]
      exact ih seen seen' h
    · have ha' : a.id ∉ seen' := fun hx => ha ((h a.id).2 hx)
      simp only [dedupById, ha, ha', if_false, List.cons.injEq, true_and]
      apply ih
      intro x
      simp only [List.mem_cons, h x]

/-- The filter of `uniqueById`, started behind the records `pre`, keeps what `dedupById`
keeps when the ids of `pre` are the ones seen. -/
theorem uniqueById_from (rest : List App) :
    ∀ pre : List App,
      ((rest.enumFrom pre.length).filter
          (fun p => (pre ++ rest).findIdx? (fun a => a.id == p.2.id) == some p.1)).map Prod.snd
        = dedupById (ids pre) rest := by
  induction rest with
  | nil => intro pre; rfl
  | cons a rest ih =>
    intro pre
    have hih := ih (pre ++ [a])
    simp only [List.length_append, List.length_singleton, List.append_assoc,
      List.singleton_append] at hih
    simp only [List.enumFrom_cons, List.filter_cons]
    by_cases hseen : a.id ∈ ids pre
    · have hidx : ((pre ++ a :: rest).findIdx? (fun b => b.id == a.id) == some pre.length)
          = false := by
        obtain ⟨b, hb, hba⟩ := List.mem_map.1 hseen
        have hsome : (pre.findIdx? (fun c => c.id == a.id)).isSome = true := by
          rw [List.findIdx?_isSome, List.any_eq_true]
          exact ⟨b, hb, by simp [hba]⟩
        obtain ⟨i, hi⟩ := Option.isSome_iff_exists.1 hsome
        have hlt : i < pre.length := by
          have := (List.findIdx?_eq_some_iff_findIdx_eq.1 hi).1
          exact this
        rw [List.findIdx?_append, hi]
        simp only [Option.or_some, beq_eq_false_iff_ne, ne_eq, Option.some.injEq]
        omega
      simp only [hidx, Bool.false_eq_true, if_false, dedupById, hseen, if_true]
      rw [hih]
      apply dedupById_congr
      intro x
      simp only [ids, List.map_append, List.map_cons, List.map_nil, List.mem_append,
        List.mem_singleton]
      constructor
      · rintro (h | h)
        · exact h
        · rw [h]; exact hseen
      · intro h; exact Or.inl h
    · have hidx : ((pre ++ a :: rest).findIdx? (fun b => b.id == a.id) == some pre.length)
          = true := by
        have := findIdx?_split (fun b : App => b.id == a.id) pre rest a
          (by
            intro b hb
            simp only [beq_eq_false_iff_ne, ne_eq]
            intro hba
            exact hseen (List.mem_map.2 ⟨b, hb, hba⟩))
          (by simp)
        rw [this]
        simp
      simp only [hidx, if_true, List.map_cons, dedupById, hseen, if_false, List.cons.injEq,
        true_and]
      rw [hih]
      apply dedupById_congr
      intro x
      simp only [ids, List.map_append, List.map_cons, List.map_nil, List.mem_append,
        List.mem_singleton, List.mem_cons, List.not_mem_nil, or_false]
      exact or_comm

/-- The filter of `uniqueById` keeps the first record of each id and drops the others. -/
theorem uniqueById_eq_dedupById (arr : List App) : uniqueById arr = dedupById [] arr := by
  have := uniqueById_from arr []
  simpa [uniqueById, List.enum, ids] using this

end AcueStore

namespace AcueStore

/-- The test of the badge methods is membership in the badges of the record, a record
without a `badges` field having none. -/
theorem hasBadge_iff (badge : String) (a : App) :
    hasBadge badge a = true ↔ badge ∈ a.badges.getD [] := by
  unfold hasBadge
  cases a.badges <;> simp

/-- The list the badge methods compute is the list the specification describes. -/
theorem byBadge_eq_byBadgeSpec (badge : String) (apps : List App) :
    byBadge badge apps = byBadgeSpec badge apps := by
  unfold byBadge byBadgeSpec
  rw [uniqueById_eq_dedupById]
  congr 2
  apply List.filter_congr
  intro a _
  by_cases h : badge ∈ a.badges.getD []
  · simp [h, (hasBadge_iff badge a).2 h]
  · have : hasBadge badge a = false := by
      rw [← Bool.not_eq_true, hasBadge_iff]
      exact h
    simp [h, this]

/-- The records `dedupById` keeps have pairwise different ids, none of them seen before. -/
theorem dedupById_nodup (l : List App) :
    ∀ seen : List String, (ids (dedupById seen l)).Nodup ∧
      ∀ x ∈ ids (dedupById seen l), x ∉ seen := by
  induction l with
  | nil => intro seen; exact ⟨List.nodup_nil, fun x hx => by simp [ids, dedupById] at hx⟩
  | cons a l ih =>
    intro seen
    by_cases ha : a.id ∈ seen
    · simp only [dedupById, ha, if_true]
      exact ih seen
    · simp only [dedupById, ha, if_false]
      obtain ⟨h1, h2⟩ := ih (a.id :: seen)
      constructor
      · show (a.id :: ids (dedupById (a.id :: seen) l)).Nodup
        rw [List.nodup_cons]
        exact ⟨fun hx => h2 a.id hx (List.mem_cons_self _ _), h1⟩
      · intro x hx
        have hx' : x = a.id ∨ x ∈ ids (dedupById (a.id :: seen) l) := by
          simpa [ids] using hx
        rcases hx' with hx' | hx'
        · rw [hx']; exact ha
        · exact fun hs => h2 x hx' (List.mem_cons_of_mem _ hs)

/-- The records `dedupById` keeps are records of the list, in its order. -/
theorem dedupById_sublist (l : List App) : ∀ seen : List String, (dedupById seen l).Sublist l := by
  induction l with
  | nil => intro seen; exact List.Sublist.refl _
  | cons a l ih =>
    intro seen
    by_cases ha : a.id ∈ seen
    · simp only [dedupById, ha, if_true]
      exact (ih seen).cons a
    · simp only [dedupById, ha, if_false]
      exact (ih _).cons₂ a

/-- Every id of the list that was not seen before is the id of a record `dedupById` keeps. -/
theorem dedupById_complete (l : List App) :
    ∀ (seen : List String) (x : App), x ∈ l → x.id ∉ seen →
      ∃ y ∈ dedupById seen l, y.id = x.id := by
  induction l with
  | nil => intro seen x hx; simp at hx
  | cons a l ih =>
    intro seen x hx hseen
    by_cases hxa : x.id = a.id
    · have ha : a.id ∉ seen := by rw [← hxa]; exact hseen
      simp only [dedupById, ha, if_false]
      exact ⟨a, List.mem_cons_self _ _, hxa.symm⟩
    · have hxl : x ∈ l := by
        rcases List.mem_cons.1 hx with h | h
        · exact absurd (by rw [h]) hxa
        · exact h
      by_cases ha : a.id ∈ seen
      · simp only [dedupById, ha, if_true]
        exact ih seen x hxl hseen
      · simp only [dedupById, ha, if_false]
        obtain ⟨y, hy, hyx⟩ := ih (a.id :: seen) x hxl (by
          intro hm
          rcases List.mem_cons.1 hm with h | h
          · exact hxa h
          · exact hseen h)
        exact ⟨y, List.mem_cons_of_mem _ hy, hyx⟩

/-- C18: for every collection, also one holding records with equal ids, each of
`renderEditorsChoice`, `renderFeaturedApps`, `renderTrendingApps` and `renderNewApps` shows
what the specification describes for its badge key (`editors-choice`, `featured`, `trending`,
`new`): the records whose badges contain the key, in the order of the collection, only the
first record of each id, cut to the first eight. So what is shown never has two records with
the same id, never more than eight records, and only records of the collection that have the
badge. -/
theorem byBadge_refines_spec (s : AcueStore) :
    renderEditorsChoice s
      = emit (.render .editorsChoiceContainer (byBadgeSpec "editors-choice" s.apps)) s ∧
    renderFeaturedApps s
      = emit (.render .featuredAppsContainer (byBadgeSpec "featured" s.apps)) s ∧
    renderTrendingApps s
      = emit (.render .trendingAppsContainer (byBadgeSpec "trending" s.apps)) s ∧
    renderNewApps s = emit (.render .newAppsContainer (byBadgeSpec "new" s.apps)) s ∧
    ∀ badgeKey : String,
      (ids (byBadgeSpec badgeKey s.apps)).Nodup ∧
      (byBadgeSpec badgeKey s.apps).length ≤ 8 ∧
      (byBadgeSpec badgeKey s.apps).Sublist s.apps ∧
      ∀ a ∈ byBadgeSpec badgeKey s.apps, badgeKey ∈ a.badges.getD [] := by
  refine ⟨?_, ?_, ?_, ?_, ?_⟩
  · rw [← byBadge_eq_byBadgeSpec]; rfl
  · rw [← byBadge_eq_byBadgeSpec]; rfl
  · rw [← byBadge_eq_byBadgeSpec]; rfl
  · rw [← byBadge_eq_byBadgeSpec]; rfl
  · intro badgeKey
    have hsub : (byBadgeSpec badgeKey s.apps).Sublist
        (s.apps.filter (fun a => decide (badgeKey ∈ a.badges.getD []))) :=
      (List.take_sublist _ _).trans (dedupById_sublist _ _)
    refine ⟨?_, List.length_take_le _ _, hsub.trans (List.filter_sublist _), ?_⟩
    · exact List.Nodup.sublist ((List.take_sublist _ _).map _) (dedupById_nodup _ []).1
    · intro a ha
      have := hsub.subset ha
      simpa using (List.mem_filter.1 this).2

end AcueStore

namespace AcueStore

/-! ## Adding the same badge twice -/

/-- When `find` returns a record that has the badge, `addBadgeToApp` only shows the `alert`
for a duplicate. -/
theorem addBadgeToApp_duplicate (selectedAppId selectedBadgeType : String) (s : AcueStore)
    (hid : selectedAppId ≠ "") (hk : selectedBadgeType ≠ "") (b : App)
    (hf : s.apps.find? (fun a => a.id == selectedAppId) = some b)
    (hdup : selectedBadgeType ∈ b.badges.getD []) :
    addBadgeToApp selectedAppId selectedBadgeType s
      = alert "This badge is already assigned to this app" s := by
  have hguard : (selectedAppId == "" || selectedBadgeType == "") = false := by
    simp [hid, hk]
  have hc : (b.badges.getD []).contains selectedBadgeType = true := by
    simpa using hdup
  have hsome : b.badges = some (b.badges.getD []) := by
    cases hb : b.badges with
    | none => rw [hb] at hdup; simp at hdup
    | some l => rfl
  have hu : updateFirst (fun a => a.id == selectedAppId)
      (fun app => { app with badges := some (app.badges.getD []) }) s.apps = s.apps := by
    apply updateFirst_eq_self _ _ s.apps b hf
    cases b
    simp only at hsome
    simp only [App.mk.injEq, true_and]
    exact hsome.symm
  simp only [addBadgeToApp, hguard, hf, hc, Bool.false_eq_true, if_false, if_true, hu]

/-- When `find` returns a record that does not have the badge, `addBadgeToApp` leaves the
collection sorted after the badge is appended to the first record with the id. -/
theorem addBadgeToApp_new_apps (selectedAppId selectedBadgeType : String) (s : AcueStore)
    (hid : selectedAppId ≠ "") (hk : selectedBadgeType ≠ "") (b : App)
    (hf : s.apps.find? (fun a => a.id == selectedAppId) = some b)
    (hnew : selectedBadgeType ∉ b.badges.getD []) :
    (addBadgeToApp selectedAppId selectedBadgeType s).apps
      = sort byRatingDesc (updateFirst (fun a => a.id == selectedAppId)
          (fun app => { app with badges := some (app.badges.getD [] ++ [selectedBadgeType]) })
          (updateFirst (fun a => a.id == selectedAppId)
            (fun app => { app with badges := some (app.badges.getD []) }) s.apps)) := by
  have hguard : (selectedAppId == "" || selectedBadgeType == "") = false := by
    simp [hid, hk]
  have hc : (b.badges.getD []).contains selectedBadgeType = false := by
    simpa using hnew
  simp only [addBadgeToApp, hguard, hf, hc, Bool.false_eq_true, if_false]
  rfl

/-- A list with a record satisfying `p` splits at the first such record. -/
theorem exists_first_split {α : Type} (p : α → Bool) (l : List α) (h : ∃ a ∈ l, p a = true) :
    ∃ (pre post : List α) (a : α), l = pre ++ a :: post ∧ p a = true ∧
      ∀ b ∈ pre, p b = false := by
  have hsome : (l.find? p).isSome = true := by
    rw [List.find?_isSome]
    exact h
  obtain ⟨a, ha⟩ := Option.isSome_iff_exists.1 hsome
  obtain ⟨hpa, pre, post, hl, hpre⟩ := List.find?_eq_some.1 ha
  exact ⟨pre, post, a, hl, hpa, fun b hb => by simpa using hpre b hb⟩

/-- After `addBadgeToApp` for an id that exactly one record has, `find` for that id returns
a record with the badge. -/
theorem addBadgeToApp_then_find (selectedAppId selectedBadgeType : String) (s : AcueStore)
    (hid : selectedAppId ≠ "") (hk : selectedBadgeType ≠ "")
    (hnodup : (ids s.apps).Nodup) (hex : ∃ a ∈ s.apps, a.id = selectedAppId) :
    ∃ b, (addBadgeToApp selectedAppId selectedBadgeType s).apps.find?
        (fun a => a.id == selectedAppId) = some b ∧
      selectedBadgeType ∈ b.badges.getD [] := by
  obtain ⟨pre, post, a, hs, hpa, hpre⟩ :=
    exists_first_split (fun a : App => a.id == selectedAppId) s.apps
      (by obtain ⟨a, ha, hai⟩ := hex; exact ⟨a, ha, by simp [hai]⟩)
  have ha : a.id = selectedAppId := by simpa using hpa
  have hf : s.apps.find? (fun a => a.id == selectedAppId) = some a := by
    rw [hs]
    exact find?_split _ pre post a hpre hpa
  by_cases hdup : selectedBadgeType ∈ a.badges.getD []
  · rw [addBadgeToApp_duplicate _ _ s hid hk a hf hdup]
    exact ⟨a, hf, hdup⟩
  · have happs := addBadgeToApp_new_apps _ _ s hid hk a hf hdup
    rw [hs, updateFirst_split _ _ pre post a hpre hpa,
      updateFirst_split _ _ pre post _ hpre (by simp [ha])] at happs
    have hother : ∀ c, c ∈ pre ∨ c ∈ post → c.id ≠ selectedAppId := by
      intro c hc hci
      rw [hs] at hnodup
      simp only [ids, List.map_append, List.map_cons] at hnodup
      have h1 := List.nodup_append.1 hnodup
      rcases hc with hc | hc
      · have : (fun a : App => a.id == selectedAppId) c = false := hpre c hc
        simp [hci] at this
      · have h2 := (List.nodup_cons.1 h1.2.1).1
        apply h2
        rw [ha, ← hci]
        exact List.mem_map_of_mem _ hc
    have hmem : ∀ c ∈ (addBadgeToApp selectedAppId selectedBadgeType s).apps,
        c.id = selectedAppId → selectedBadgeType ∈ c.badges.getD [] := by
      intro c hc hci
      rw [happs, (sort_perm _ _).mem_iff, List.mem_append, List.mem_cons] at hc
      rcases hc with hc | hc | hc
      · exact absurd hci (hother c (Or.inl hc))
      · rw [hc]
        simp
      · exact absurd hci (hother c (Or.inr hc))
    have hsome : ((addBadgeToApp selectedAppId selectedBadgeType s).apps.find?
        (fun a => a.id == selectedAppId)).isSome = true := by
      rw [List.find?_isSome]
      refine ⟨{ a with badges := some (a.badges.getD [] ++ [selectedBadgeType]) }, ?_, ?_⟩
      · rw [happs, (sort_perm _ _).mem_iff]
        simp
      · simp [ha]
    obtain ⟨b, hb⟩ := Option.isSome_iff_exists.1 hsome
    refine ⟨b, hb, hmem b (List.mem_of_find?_eq_some hb) ?_⟩
    simpa using List.find?_some hb

/-- Among records with pairwise different ids, at most one has a given id. -/
theorem filter_id_length_le_one (appId : String) (l : List App) (h : (ids l).Nodup) :
    (l.filter (fun a => a.id == appId)).length ≤ 1 := by
  induction l with
  | nil => simp
  | cons a l ih =>
    have hn := List.nodup_cons.1 (by simpa [ids] using h : (a.id :: ids l).Nodup)
    by_cases ha : a.id = appId
    · have hnone : l.filter (fun a => a.id == appId) = [] := by
        rw [List.filter_eq_nil_iff]
        intro b hb
        simp only [beq_iff_eq]
        intro hbi
        apply hn.1
        rw [ha, ← hbi]
        exact List.mem_map_of_mem _ hb
      simp [List.filter_cons, ha, hnone]
    · simp only [List.filter_cons, beq_iff_eq, ha, if_false]
      exact ih hn.2

end AcueStore

namespace AcueStore

/-- C17, as stated, fails. On a collection of eight records with the rating `5` and the badge
`trending`, followed by `foo` with the rating `3`, `addBadgeToApp` of `trending` to `foo`
twice leaves a Trending view of eight records with no entry for `foo`. And on a collection
of two records that share the id `foo`, with the ratings `3` and `5`, the second call
succeeds: it gives the badge to the other record. -/
theorem addBadgeToApp_twice_cap_and_shared_id :
    (byBadge "trending" (addBadgeToApp "foo" "trending" (addBadgeToApp "foo" "trending"
        (storeOf (trendingEight ++ [sampleApp "foo" "Foo" (.number (.fin 3))])))).apps).length
      = 8 ∧
    ((byBadge "trending" (addBadgeToApp "foo" "trending" (addBadgeToApp "foo" "trending"
        (storeOf (trendingEight ++ [sampleApp "foo" "Foo" (.number (.fin 3))])))).apps).filter
        (fun a => a.id == "foo")).length = 0 ∧
    (addBadgeToApp "foo" "trending" (addBadgeToApp "foo" "trending"
        (storeOf [sampleApp "foo" "Foo" (.number (.fin 3)),
          sampleApp "foo" "Foo Two" (.number (.fin 5))]))).log.getLast?
      = some (.success [.text "Badge ", .quoted "trending", .text " added to ",
          .text "Foo Two"]) := by
  decide!

/-- C17, amended: for every collection whose ids are pairwise distinct and every non-empty
id that a record has, after `addBadgeToApp` of `trending` for that id twice in a row, the
second call has only shown the `alert` "This badge is already assigned to this app", and the
list `renderTrendingApps` shows holds at most one entry for that id: exactly one when at
most eight records of the collection have the badge `trending`. -/
theorem addBadgeToApp_twice (selectedAppId : String) (s : AcueStore)
    (hid : selectedAppId ≠ "") (hnodup : (ids s.apps).Nodup)
    (hex : ∃ a ∈ s.apps, a.id = selectedAppId) :
    addBadgeToApp selectedAppId "trending" (addBadgeToApp selectedAppId "trending" s)
      = alert "This badge is already assigned to this app"
          (addBadgeToApp selectedAppId "trending" s) ∧
    renderTrendingApps
        (addBadgeToApp selectedAppId "trending" (addBadgeToApp selectedAppId "trending" s))
      = emit (.render .trendingAppsContainer (byBadge "trending"
          (addBadgeToApp selectedAppId "trending"
            (addBadgeToApp selectedAppId "trending" s)).apps))
          (addBadgeToApp selectedAppId "trending"
            (addBadgeToApp selectedAppId "trending" s)) ∧
    ((byBadge "trending" (addBadgeToApp selectedAppId "trending"
        (addBadgeToApp selectedAppId "trending" s)).apps).filter
        (fun a => a.id == selectedAppId)).length ≤ 1 ∧
    (((addBadgeToApp selectedAppId "trending"
        (addBadgeToApp selectedAppId "trending" s)).apps.filter
        (hasBadge "trending")).length ≤ 8 →
      ((byBadge "trending" (addBadgeToApp selectedAppId "trending"
        (addBadgeToApp selectedAppId "trending" s)).apps).filter
        (fun a => a.id == selectedAppId)).length = 1) := by
  obtain ⟨b, hb, hbadge⟩ :=
    addBadgeToApp_then_find selectedAppId "trending" s hid (by decide) hnodup hex
  have hsecond := addBadgeToApp_duplicate selectedAppId "trending"
    (addBadgeToApp selectedAppId "trending" s) hid (by decide) b hb hbadge
  have hle : ∀ apps : List App,
      ((byBadge "trending" apps).filter (fun a => a.id == selectedAppId)).length ≤ 1 := by
    intro apps
    apply filter_id_length_le_one
    unfold byBadge
    rw [uniqueById_eq_dedupById]
    exact List.Nodup.sublist ((List.take_sublist _ _).map _) (dedupById_nodup _ []).1
  refine ⟨hsecond, rfl, hle _, ?_⟩
  rw [hsecond]
  intro hcap
  have hcap' : ((addBadgeToApp selectedAppId "trending" s).apps.filter
      (hasBadge "trending")).length ≤ 8 := hcap
  have hbmem : b ∈ (addBadgeToApp selectedAppId "trending" s).apps.filter
      (hasBadge "trending") := by
    rw [List.mem_filter]
    exact ⟨List.mem_of_find?_eq_some hb, (hasBadge_iff _ _).2 hbadge⟩
  obtain ⟨y, hy, hyb⟩ := dedupById_complete _ [] b hbmem (by simp)
  have hbid : b.id = selectedAppId := by simpa using List.find?_some hb
  have hy' : y ∈ byBadge "trending" (addBadgeToApp selectedAppId "trending" s).apps := by
    unfold byBadge
    rw [uniqueById_eq_dedupById, List.take_of_length_le]
    · exact hy
    · exact le_trans (dedupById_sublist _ _).length_le hcap'
  have hpos : 0 < ((byBadge "trending" (addBadgeToApp selectedAppId "trending" s).apps).filter
      (fun a => a.id == selectedAppId)).length := by
    apply List.length_pos_of_mem (a := y)
    rw [List.mem_filter]
    exact ⟨hy', by simp [hyb, hbid]⟩
  have := hle (addBadgeToApp selectedAppId "trending" s).apps
  show ((byBadge "trending" (addBadgeToApp selectedAppId "trending" s).apps).filter
      (fun a => a.id == selectedAppId)).length = 1
  omega

/-- Witness of C17 (amended): the id `foo` in the collection `[bar, foo]` with the ratings
`5` and `3`. -/
theorem addBadgeToApp_twice_witness :
    ((byBadge "trending" (addBadgeToApp "foo" "trending" (addBadgeToApp "foo" "trending"
        (storeOf [sampleApp "bar" "Bar" (.number (.fin 5)),
          sampleApp "foo" "Foo" (.number (.fin 3))]))).apps).filter
        (fun a => a.id == "foo")).length = 1 :=
  (addBadgeToApp_twice "foo" (storeOf [sampleApp "bar" "Bar" (.number (.fin 5)),
      sampleApp "foo" "Foo" (.number (.fin 3))]) (by decide) (by decide)
    ⟨sampleApp "foo" "Foo" (.number (.fin 3)), by decide, rfl⟩).2.2.2 (by decide!)

end AcueStore

namespace AcueStore

/-! ## Which views a mutation recomputes -/

/-- Storing the collection recomputes nothing yet. -/
theorem recomputed_save (s : AcueStore) (apps : List App) :
    Recomputed s (saveAppsToStorage { s with apps := apps }) apps false [] :=
  ⟨rfl, rfl, rfl, [], by simp [saveAppsToStorage], rfl, fun _ _ h => by simp at h⟩

/-- Writing into a container the list its method computes from the collection of the state
adds the container to the recomputed ones. -/
theorem recomputed_render (s₀ s₁ : AcueStore) (saved : List App) (sorted : Bool)
    (views : List View) (view : View) (shown : List App)
    (h : Recomputed s₀ s₁ saved sorted views)
    (hshown : shownIn view s₁.currentFilter s₁.apps = some shown) :
    Recomputed s₀ (emit (.render view shown) s₁) saved sorted (views ++ [view]) := by
  obtain ⟨h1, h2, h3, events, h4, h5, h6⟩ := h
  refine ⟨h1, h2, h3, events ++ [.render view shown], ?_, ?_, ?_⟩
  · simp [emit, h4]
  · simp [renderedViews, List.filterMap_append, Event.view?] at h5 ⊢
    exact h5
  · intro v sh hmem
    rcases List.mem_append.1 hmem with hm | hm
    · exact h6 v sh hm
    · simp only [List.mem_singleton, Event.render.injEq] at hm
      rw [hm.1, hm.2]
      rw [h2, h3] at hshown
      cases sorted
      · exact Or.inl hshown
      · exact Or.inr hshown

/-- `renderPopularApps` adds its container to the recomputed ones, and leaves the collection
sorted. -/
theorem recomputed_popular (s₀ s₁ : AcueStore) (saved : List App) (views : List View)
    (h : Recomputed s₀ s₁ saved false views) :
    Recomputed s₀ (renderPopularApps s₁) saved true (views ++ [.popularApps]) := by
  obtain ⟨h1, h2, h3, events, h4, h5, h6⟩ := h
  have h2' : s₁.apps = saved := h2
  refine ⟨h1, ?_, h3, events ++ [.render .popularApps ((sort byRatingDesc saved).take 6)],
    ?_, ?_, ?_⟩
  · show sort byRatingDesc s₁.apps = sort byRatingDesc saved
    rw [h2']
  · simp [renderPopularApps, emit, h4, h2']
  · simp [renderedViews, List.filterMap_append, Event.view?] at h5 ⊢
    exact h5
  · intro v sh hmem
    rcases List.mem_append.1 hmem with hm | hm
    · exact h6 v sh hm
    · simp only [List.mem_singleton, Event.render.injEq] at hm
      rw [hm.1, hm.2]
      exact Or.inl rfl

/-- A message adds no container to the recomputed ones. -/
theorem recomputed_success (s₀ s₁ : AcueStore) (saved : List App) (sorted : Bool)
    (views : List View) (message : List Part) (h : Recomputed s₀ s₁ saved sorted views) :
    Recomputed s₀ (showSuccessMessage message s₁) saved sorted views := by
  obtain ⟨h1, h2, h3, events, h4, h5, h6⟩ := h
  refine ⟨h1, h2, h3, events ++ [.success message], ?_, ?_, ?_⟩
  · simp [showSuccessMessage, emit, h4]
  · simp [renderedViews, List.filterMap_append, Event.view?] at h5 ⊢
    exact h5
  · intro v sh hmem
    rcases List.mem_append.1 hmem with hm | hm
    · exact h6 v sh hm
    · simp at hm

/-- `loadAppsManagement` adds its container to the recomputed ones. -/
theorem recomputed_management (s₀ s₁ : AcueStore) (saved : List App) (sorted : Bool)
    (views : List View) (h : Recomputed s₀ s₁ saved sorted views) :
    Recomputed s₀ (loadAppsManagement s₁) saved sorted (views ++ [.appsManagementList]) :=
  recomputed_render s₀ s₁ saved sorted views _ _ h rfl

/-- `loadRatingsList` adds its container to the recomputed ones. -/
theorem recomputed_ratings (s₀ s₁ : AcueStore) (saved : List App) (sorted : Bool)
    (views : List View) (h : Recomputed s₀ s₁ saved sorted views) :
    Recomputed s₀ (loadRatingsList s₁) saved sorted (views ++ [.ratingsList]) :=
  recomputed_render s₀ s₁ saved sorted views _ _ h rfl

/-- `renderHotApps` adds its container to the recomputed ones. -/
theorem recomputed_hot (s₀ s₁ : AcueStore) (saved : List App) (sorted : Bool)
    (views : List View) (h : Recomputed s₀ s₁ saved sorted views) :
    Recomputed s₀ (renderHotApps s₁) saved sorted (views ++ [.hotAppsContainer]) :=
  recomputed_render s₀ s₁ saved sorted views _ _ h rfl

/-- `renderAllApps` adds its container to the recomputed ones. -/
theorem recomputed_all (s₀ s₁ : AcueStore) (saved : List App) (sorted : Bool)
    (views : List View) (h : Recomputed s₀ s₁ saved sorted views) :
    Recomputed s₀ (renderAllApps s₁) saved sorted (views ++ [.appsGrid]) :=
  recomputed_render s₀ s₁ saved sorted views _ _ h rfl

/-- The four badge methods add their containers to the recomputed ones. -/
theorem recomputed_badges (s₀ s₁ : AcueStore) (saved : List App) (sorted : Bool)
    (views : List View) (h : Recomputed s₀ s₁ saved sorted views) :
    Recomputed s₀ (renderNewApps (renderTrendingApps (renderFeaturedApps
        (renderEditorsChoice s₁)))) saved sorted
      (views ++ [.editorsChoiceContainer, .featuredAppsContainer, .trendingAppsContainer,
        .newAppsContainer]) := by
  have h1 := recomputed_render s₀ s₁ saved sorted views .editorsChoiceContainer _ h rfl
  have h2 := recomputed_render s₀ _ saved sorted _ .featuredAppsContainer
    ((uniqueById (s₁.apps.filter (hasBadge "featured"))).take 8) h1 rfl
  have h3 := recomputed_render s₀ _ saved sorted _ .trendingAppsContainer
    ((uniqueById (s₁.apps.filter (hasBadge "trending"))).take 8) h2 rfl
  have h4 := recomputed_render s₀ _ saved sorted _ .newAppsContainer
    ((uniqueById (s₁.apps.filter (hasBadge "new"))).take 8) h3 rfl
  simpa using h4

/-- A call that passes the tests of its method stores a collection and then recomputes from
it the containers of `Mutation.refreshes`. -/
theorem mutation_recomputed (m : Mutation) (s : AcueStore) (h : m.succeeds s = true) :
    ∃ saved : List App, Recomputed s (m.run s) saved true m.refreshes := by
  cases m with
  | addNewApp appName appRating appBio appCategory appDownloadLink now =>
    simp only [Mutation.succeeds, Bool.and_eq_true, Bool.not_eq_true'] at h
    simp only [Mutation.run, addNewApp, h.1, h.2, Bool.false_eq_true, if_false]
    exact ⟨_, recomputed_success _ _ _ _ _ _ (recomputed_popular _ _ _ _ (recomputed_all _ _ _ _ _
      (recomputed_hot _ _ _ _ _ (recomputed_management _ _ _ _ _ (recomputed_save s _)))))⟩
  | saveAppChanges appId n d r desc c u hot =>
    obtain ⟨a, ha⟩ := (hasId_iff_find appId s).1 h
    simp only [Mutation.run, saveAppChanges, ha]
    exact ⟨_, recomputed_success _ _ _ _ _ _ (recomputed_popular _ _ _ _ (recomputed_all _ _ _ _ _
      (recomputed_hot _ _ _ _ _ (recomputed_management _ _ _ _ _ (recomputed_save s _)))))⟩
  | removeApp appId confirmed =>
    simp only [Mutation.succeeds, Bool.and_eq_true] at h
    obtain ⟨i, hi⟩ := (hasId_iff_findIdx appId s).1 h.2
    simp only [Mutation.run, removeApp, h.1, hi, Bool.not_true, Bool.false_eq_true, if_false]
    exact ⟨_, recomputed_success _ _ _ _ _ _ (recomputed_badges _ _ _ _ _
      (recomputed_popular _ _ _ _ (recomputed_all _ _ _ _ _ (recomputed_hot _ _ _ _ _
        (recomputed_management _ _ _ _ _ (recomputed_save s _))))))⟩
  | saveBadgeChanges appId selectedBadges =>
    obtain ⟨a, ha⟩ := (hasId_iff_find appId s).1 h
    simp only [Mutation.run, saveBadgeChanges, ha]
    exact ⟨_, recomputed_success _ _ _ _ _ _ (recomputed_badges _ _ _ _ _
      (recomputed_popular _ _ _ _ (recomputed_all _ _ _ _ _ (recomputed_hot _ _ _ _ _
        (recomputed_management _ _ _ _ _ (recomputed_save s _))))))⟩
  | addBadgeToApp selectedAppId selectedBadgeType =>
    simp only [Mutation.succeeds, Bool.and_eq_true, Bool.not_eq_true'] at h
    obtain ⟨a, ha⟩ := (hasId_iff_find selectedAppId s).1 h.1.2
    have hdup : (a.badges.getD []).contains selectedBadgeType = false := by
      have := h.2
      simpa [ha] using this
    simp only [Mutation.run, addBadgeToApp, h.1.1, ha, hdup, Bool.false_eq_true, if_false]
    exact ⟨_, recomputed_success _ _ _ _ _ _ (recomputed_badges _ _ _ _ _
      (recomputed_popular _ _ _ _ (recomputed_all _ _ _ _ _ (recomputed_hot _ _ _ _ _
        (recomputed_management _ _ _ _ _ (recomputed_save s _))))))⟩
  | updateAppRating selectedAppId newRating =>
    simp only [Mutation.succeeds, Bool.and_eq_true, Bool.not_eq_true'] at h
    obtain ⟨a, ha⟩ := (hasId_iff_find selectedAppId s).1 h.2
    simp only [Mutation.run, updateAppRating, h.1.1, h.1.2, ha, Bool.false_eq_true,
      if_false]
    exact ⟨_, recomputed_success _ _ _ _ _ _ (recomputed_popular _ _ _ _ (recomputed_all _ _ _ _ _
      (recomputed_hot _ _ _ _ _ (recomputed_management _ _ _ _ _ (recomputed_save s _)))))⟩
  | quickUpdateRating appId newRating =>
    obtain ⟨a, ha⟩ := (hasId_iff_find appId s).1 h
    simp only [Mutation.run, quickUpdateRating, ha]
    exact ⟨_, recomputed_success _ _ _ _ _ _ (recomputed_ratings _ _ _ _ _
      (recomputed_management _ _ _ _ _ (recomputed_popular _ _ _ _ (recomputed_all _ _ _ _ _
        (recomputed_hot _ _ _ _ _ (recomputed_save s _))))))⟩

end AcueStore

namespace AcueStore

/-- C20, as stated, fails: a successful `updateAppRating` writes into the containers of the
Management list and of the Hot, All and Popular views, not into the Ratings list; a
successful `addBadgeToApp` does not write into the Badges list; a successful `saveAppChanges`
writes into none of the containers of the badge views. -/
theorem mutation_refresh_gaps :
    renderedViews (updateAppRating "bar" (.fin 5)
        (storeOf [sampleApp "bar" "Bar" (.number (.fin 3))])).log
      = [.appsManagementList, .hotAppsContainer, .appsGrid, .popularApps] ∧
    View.ratingsList ∉ renderedViews (updateAppRating "bar" (.fin 5)
        (storeOf [sampleApp "bar" "Bar" (.number (.fin 3))])).log ∧
    View.badgesList ∉ renderedViews (addBadgeToApp "bar" "new"
        (storeOf [sampleApp "bar" "Bar" (.number (.fin 3))])).log ∧
    renderedViews (saveAppChanges "bar" "Bar Two" "Dev" (.fin 4) "About" "social" "https://x"
        false (storeOf [{ sampleApp "bar" "Bar" (.number (.fin 3)) with
          badges := some ["trending"] }])).log
      = [.appsManagementList, .hotAppsContainer, .appsGrid, .popularApps] := by
  decide!

/-- C20, amended: every call of a mutation that passes the tests of its method stores the
changed collection `saved`, leaves `this.apps` as `renderPopularApps` sorts `saved`, and
after that writes into the containers listed by `Mutation.refreshes`, in that order and into
no other; what it writes into each of them is the list that the method of the container
computes from the changed collection, in the order it is stored in or in the order it is
left in. Every method recomputes the Management list and the Hot, All and Popular views;
`removeApp`, `saveBadgeChanges` and `addBadgeToApp` recompute the four badge views in
addition; `quickUpdateRating` recomputes the Ratings list in addition. -/
theorem mutation_refreshes (m : Mutation) (s : AcueStore) (h : m.succeeds s = true) :
    (∃ (saved : List App) (events : List Event),
      (m.run s).localStorage.nexoraStoreApps = some (JSON.stringify saved) ∧
      (m.run s).apps = sort byRatingDesc saved ∧
      (m.run s).log = s.log ++ events ∧
      renderedViews events = m.refreshes ∧
      ∀ view shown, Event.render view shown ∈ events →
        shownIn view s.currentFilter saved = some shown ∨
        shownIn view s.currentFilter (m.run s).apps = some shown) ∧
    (∀ view ∈ [View.appsManagementList, .hotAppsContainer, .appsGrid, .popularApps],
      view ∈ m.refreshes) ∧
    (∀ view ∈ [View.editorsChoiceContainer, .featuredAppsContainer, .trendingAppsContainer,
        .newAppsContainer],
      (∃ appId confirmed, m = .removeApp appId confirmed) ∨
        (∃ appId selectedBadges, m = .saveBadgeChanges appId selectedBadges) ∨
        (∃ selectedAppId selectedBadgeType, m = .addBadgeToApp selectedAppId selectedBadgeType) →
      view ∈ m.refreshes) ∧
    ((∃ appId newRating, m = .quickUpdateRating appId newRating) →
      View.ratingsList ∈ m.refreshes) := by
  refine ⟨?_, ?_, ?_, ?_⟩
  · obtain ⟨saved, h1, h2, _, events, h4, h5, h6⟩ := mutation_recomputed m s h
    have h2' : (m.run s).apps = sort byRatingDesc saved := h2
    refine ⟨saved, events, h1, h2', h4, h5, ?_⟩
    intro view shown hmem
    rw [h2']
    exact h6 view shown hmem
  · cases m <;> simp [Mutation.refreshes]
  · intro view hview hm
    rcases hm with ⟨_, _, hm⟩ | ⟨_, _, hm⟩ | ⟨_, _, hm⟩ <;> subst hm <;>
      simp only [List.mem_cons, List.mem_singleton, List.not_mem_nil, or_false] at hview <;>
      rcases hview with hv | hv | hv | hv <;> subst hv <;> simp [Mutation.refreshes]
  · rintro ⟨_, _, hm⟩
    subst hm
    simp [Mutation.refreshes]

/-- Witness of C20 (amended): `addBadgeToApp` of `new` to the record `bar`. -/
theorem mutation_refreshes_witness :
    ∃ (saved : List App) (events : List Event),
      ((Mutation.addBadgeToApp "bar" "new").run
        (storeOf [sampleApp "bar" "Bar" (.number (.fin 3))])).localStorage.nexoraStoreApps
        = some (JSON.stringify saved) ∧
      ((Mutation.addBadgeToApp "bar" "new").run
        (storeOf [sampleApp "bar" "Bar" (.number (.fin 3))])).apps = sort byRatingDesc saved ∧
      ((Mutation.addBadgeToApp "bar" "new").run
        (storeOf [sampleApp "bar" "Bar" (.number (.fin 3))])).log
        = (storeOf [sampleApp "bar" "Bar" (.number (.fin 3))]).log ++ events ∧
      renderedViews events = (Mutation.addBadgeToApp "bar" "new").refreshes ∧
      ∀ view shown, Event.render view shown ∈ events →
        shownIn view (storeOf [sampleApp "bar" "Bar" (.number (.fin 3))]).currentFilter saved
          = some shown ∨
        shownIn view (storeOf [sampleApp "bar" "Bar" (.number (.fin 3))]).currentFilter
          ((Mutation.addBadgeToApp "bar" "new").run
            (storeOf [sampleApp "bar" "Bar" (.number (.fin 3))])).apps = some shown :=
  (mutation_refreshes (.addBadgeToApp "bar" "new")
    (storeOf [sampleApp "bar" "Bar" (.number (.fin 3))]) (by decide!)).1

end AcueStore

namespace AcueStore

/-! ## The category filter -/

/-- C24: for every collection and every category `c`, `filterByCategory(c)` makes `c` the
current filter and writes into the grid of the All view, for a non-empty `c`, exactly the
records whose category equals `c`, in the order of the collection, and for the empty `c`
the whole collection in its order; the collection itself stays as it is. -/
theorem filterByCategory_shows (category : String) (s : AcueStore) :
    filterByCategory category s
      = emit (.render .appsGrid
          (if category = "" then s.apps
            else s.apps.filter (fun app => decide (app.category = category))))
          { s with currentFilter := category } ∧
    (filterByCategory category s).apps = s.apps ∧
    (filterByCategory category s).currentFilter = category := by
  refine ⟨?_, rfl, rfl⟩
  unfold filterByCategory renderAllApps
  by_cases h : category = ""
  · simp [h]
  · simp only [bne_iff_ne, ne_eq, h, not_false_eq_true, if_true, if_false]
    congr 2

/-! ## The session -/

/-- C30: from every state, after `handleLogout` the current user is absent and the key of
the session is absent from `localStorage`, so `loadUserSession` in a fresh instance over
that `localStorage` returns the instance with no current user; and `saveUserSession` with
no current user always removes the key. -/
theorem handleLogout_erases_session (s : AcueStore) :
    (handleLogout s).currentUser = none ∧
    (handleLogout s).localStorage.nexoraStoreUser = none ∧
    loadUserSession (new (handleLogout s).localStorage)
      = .ok (new (handleLogout s).localStorage) ∧
    (new (handleLogout s).localStorage).currentUser = none ∧
    (handleLogout s).localStorage.nexoraStoreApps = s.localStorage.nexoraStoreApps ∧
    (handleLogout s).localStorage.nexoraStoreUsers = s.localStorage.nexoraStoreUsers ∧
    (s.currentUser = none → (saveUserSession s).localStorage.nexoraStoreUser = none) := by
  refine ⟨rfl, rfl, ?_, rfl, rfl, rfl, ?_⟩
  · simp [loadUserSession, new, handleLogout, saveUserSession, showSuccessMessage, emit]
  · intro h
    simp [saveUserSession, h]

/-- Witness of C30: the state in which `alice` is logged in, and a fresh instance over its
`localStorage`, which has no current user. -/
theorem handleLogout_erases_session_witness :
    (handleLogout loggedInStore).localStorage.nexoraStoreUser = none ∧
    (saveUserSession (new loggedInStore.localStorage)).localStorage.nexoraStoreUser = none :=
  ⟨(handleLogout_erases_session loggedInStore).2.1,
    (handleLogout_erases_session (new loggedInStore.localStorage)).2.2.2.2.2.2 rfl⟩

end AcueStore

namespace AcueStore

/-! ## Library functions on strings -/

/-- The test of `includes` is the relation "occurs in as a contiguous part". -/
theorem includesChars_iff (search : List Char) :
    ∀ l : List Char, includesChars search l = true ↔ search <:+: l := by
  intro l
  induction l with
  | nil => simp [includesChars, List.isEmpty_iff]
  | cons c cs ih =>
    rw [includesChars, Bool.or_eq_true, List.isPrefixOf_iff_prefix, ih, List.infix_cons_iff]

/-- A search that starts behind position `0` does not return `0`. -/
theorem indexOfFrom_ne_zero (search : List Char) :
    ∀ (l : List Char) (i : Nat), 0 < i → indexOfFrom search l i ≠ 0 := by
  intro l
  induction l with
  | nil =>
    intro i hi
    unfold indexOfFrom
    split <;> omega
  | cons c cs ih =>
    intro i hi
    unfold indexOfFrom
    split
    · omega
    · exact ih (i + 1) (by omega)

/-- `indexOf` returns `0` exactly when the string starts with the searched text. -/
theorem indexOf_eq_zero_iff (str search : String) :
    indexOf str search = 0 ↔ search.data.isPrefixOf str.data = true := by
  unfold indexOf
  cases h : str.data with
  | nil =>
    unfold indexOfFrom
    cases hs : search.data with
    | nil => simp
    | cons c cs => simp [List.isPrefixOf]
  | cons c cs =>
    unfold indexOfFrom
    by_cases hp : search.data.isPrefixOf (c :: cs) = true
    · simp [hp]
    · simp only [hp, Bool.false_eq_true, if_false, iff_false]
      exact indexOfFrom_ne_zero _ _ _ (by omega)

/-- The lower-cased text, character by character. -/
theorem toLowerCase_data (str : String) :
    (toLowerCase str).data = str.data.map Char.toLower := by
  unfold toLowerCase
  rw [String.map_eq]

/-- A white space character has no lower-case form of its own. -/
theorem toLower_of_isWhiteSpace (c : Char) (h : isWhiteSpace c = true) : c.toLower = c := by
  unfold Char.toLower
  have hn : ¬ (c.toNat ≥ 65 ∧ c.toNat ≤ 90) := by
    unfold isWhiteSpace at h
    simp only [Bool.or_eq_true, Bool.and_eq_true, decide_eq_true_eq, beq_iff_eq] at h
    omega
  simp only [hn, if_false]

/-- A text of white space only is trimmed to the empty text. -/
theorem trim_toLowerCase_of_whiteSpace (value : String)
    (h : ∀ c ∈ value.data, isWhiteSpace c = true) : trim (toLowerCase value) = "" := by
  have hdata : (toLowerCase value).data = value.data := by
    rw [toLowerCase_data]
    conv_rhs => rw [← List.map_id value.data]
    apply List.map_congr_left
    intro c hc
    exact toLower_of_isWhiteSpace c (h c hc)
  have hdrop : value.data.dropWhile isWhiteSpace = [] := by
    rw [List.dropWhile_eq_nil_iff]
    exact h
  unfold trim
  rw [hdata, hdrop]
  rfl

end AcueStore

namespace AcueStore

/-! ## Search -/

/-- The trimmed text occurs in the text it was trimmed from. -/
theorem trim_infix (str : String) : (trim str).data <:+: str.data := by
  unfold trim
  have h1 : (str.data.dropWhile isWhiteSpace) <:+ str.data := List.dropWhile_suffix _
  have h2 : ((str.data.dropWhile isWhiteSpace).reverse.dropWhile isWhiteSpace).reverse
      <+: str.data.dropWhile isWhiteSpace := by
    rw [← List.reverse_suffix, List.reverse_reverse]
    exact List.dropWhile_suffix _
  exact h2.isInfix.trans h1.isInfix

/-- The test of the filter of `handleSearch` is `MatchesTerm`. -/
theorem search_test_iff (term : String) (a : App) :
    (includes (toLowerCase a.name) term || includes (toLowerCase a.developer) term ||
      includes (toLowerCase a.description) term ||
      includes (toLowerCase a.category) term) = true ↔ MatchesTerm term a := by
  simp only [Bool.or_eq_true, includes, includesChars_iff, MatchesTerm, or_assoc]

/-- Inserting into a list whose elements all go after `a` puts `a` in front. -/
theorem orderedInsert_of_forall_rel {α : Type} (r : α → α → Prop) [DecidableRel r] (a : α)
    (l : List α) (h : ∀ y ∈ l, r a y) : l.orderedInsert r a = a :: l := by
  cases l with
  | nil => rfl
  | cons b l => exact List.orderedInsert_of_le r l (h b (List.mem_cons_self b l))

/-- Inserting passes the elements that go before `a`. -/
theorem orderedInsert_append_of_not_rel {α : Type} (r : α → α → Prop) [DecidableRel r]
    (a : α) (front back : List α) (h : ∀ x ∈ front, ¬ r a x) :
    (front ++ back).orderedInsert r a = front ++ back.orderedInsert r a := by
  induction front with
  | nil => rfl
  | cons b front ih =>
    have hb : ¬ r a b := h b (List.mem_cons_self b front)
    simp only [List.cons_append, List.orderedInsert, hb, if_false, List.cons.injEq, true_and]
    exact ih (fun x hx => h x (List.mem_cons_of_mem b hx))

/-- The comparison of `handleSearch` puts `a` not after `b` exactly when the name of `a`
starts with the term or the name of `b` does not. -/
theorem byRelevance_rel_iff (term : String) (a b : App) :
    (byRelevance term a b).gt (.fin 0) = false ↔
      (nameStartsWith term a = true ∨ nameStartsWith term b = false) := by
  have ha := indexOf_eq_zero_iff (toLowerCase a.name) term
  have hb := indexOf_eq_zero_iff (toLowerCase b.name) term
  unfold byRelevance nameStartsWith
  by_cases h1 : indexOf (toLowerCase a.name) term = 0 <;>
    by_cases h2 : indexOf (toLowerCase b.name) term = 0
  · have h1' := ha.1 h1
    simp [h1, h2, h1', JSNumber.gt, JSNumber.lt]
  · have h1' := ha.1 h1
    simp [h1, h2, h1', JSNumber.gt, JSNumber.lt]
  · have h1' : term.data.isPrefixOf (toLowerCase a.name).data = false := by
      rw [← Bool.not_eq_true]; exact fun h => h1 (ha.2 h)
    have h2' := hb.1 h2
    simp [h1, h2, h1', h2', JSNumber.gt, JSNumber.lt]
  · have h2' : term.data.isPrefixOf (toLowerCase b.name).data = false := by
      rw [← Bool.not_eq_true]; exact fun h => h2 (hb.2 h)
    simp [h1, h2, h2', JSNumber.gt, JSNumber.lt]

/-- The sort of `handleSearch` puts the records whose name starts with the term first, and
keeps the order within them and within the others. -/
theorem sort_byRelevance (term : String) (l : List App) :
    sort (byRelevance term) l
      = l.filter (nameStartsWith term) ++ l.filter (fun a => !nameStartsWith term a) := by
  induction l with
  | nil => rfl
  | cons a l ih =>
    have hstep : sort (byRelevance term) (a :: l)
        = (sort (byRelevance term) l).orderedInsert
            (fun a b => (byRelevance term a b).gt (.fin 0) = false) a := rfl
    rw [hstep, ih]
    by_cases ha : nameStartsWith term a = true
    · rw [orderedInsert_of_forall_rel _ a _ (fun y _ => (byRelevance_rel_iff term a y).2
        (Or.inl ha))]
      simp [List.filter_cons, ha]
    · have ha' : nameStartsWith term a = false := by simpa using ha
      rw [orderedInsert_append_of_not_rel _ a _ _ (by
          intro x hx hr
          rcases (byRelevance_rel_iff term a x).1 hr with h | h
          · exact ha h
          · have := (List.mem_filter.1 hx).2
            rw [h] at this
            exact absurd this (by decide)),
        orderedInsert_of_forall_rel _ a _ (by
          intro y hy
          refine (byRelevance_rel_iff term a y).2 (Or.inr ?_)
          simpa using (List.mem_filter.1 hy).2)]
      simp [List.filter_cons, ha']

/-- For a non-empty term `handleSearch` hides the Popular view, shows the container of the
search results, and writes into it the sorted matches, or "No Results" if there are none. -/
theorem handleSearch_of_term (s : AcueStore) (h : s.currentSearchTerm ≠ "") :
    handleSearch s
      = emit (if (searchResults s).length == 0 then .noResults
            else .render .searchResults (searchResults s))
          (emit (.display .searchResults "block") (emit (.display .popularApps "none") s)) := by
  have hne : (s.currentSearchTerm == "") = false := by simpa using h
  unfold handleSearch searchResults
  simp only [hne, Bool.false_eq_true, if_false]
  split <;> rfl

/-- A record is among the search results exactly when it is a record of the collection that
matches the term. -/
theorem mem_searchResults (s : AcueStore) (a : App) :
    a ∈ searchResults s ↔ a ∈ s.apps ∧ MatchesTerm s.currentSearchTerm a := by
  unfold searchResults
  rw [(sort_perm _ _).mem_iff, List.mem_filter, search_test_iff]

end AcueStore

namespace AcueStore

/-- C25: for every collection, when the search term is empty `handleSearch` only shows the
container of the Popular view and hides the container of the search results: it computes no
results and writes neither results nor "No Results"; and a typed text made of white space
only (or of nothing) is normalised by the listener to the empty term, with that outcome. -/
theorem handleSearch_empty_term (s : AcueStore) (value : String) :
    (s.currentSearchTerm = "" →
      handleSearch s
        = emit (.display .searchResults "none") (emit (.display .popularApps "grid") s) ∧
      (handleSearch s).log
        = s.log ++ [.display .popularApps "grid", .display .searchResults "none"] ∧
      (handleSearch s).apps = s.apps) ∧
    ((∀ c ∈ value.data, isWhiteSpace c = true) →
      (onSearchInput value s).currentSearchTerm = "" ∧
      (onSearchInput value s).log
        = s.log ++ [.display .popularApps "grid", .display .searchResults "none"] ∧
      (onSearchInput value s).apps = s.apps) := by
  have key : ∀ t : AcueStore, t.currentSearchTerm = "" →
      handleSearch t
        = emit (.display .searchResults "none") (emit (.display .popularApps "grid") t) := by
    intro t ht
    unfold handleSearch
    simp [ht]
  constructor
  · intro h
    refine ⟨key s h, ?_, ?_⟩
    · rw [key s h]
      simp [emit]
    · rw [key s h]
      rfl
  · intro h
    have ht := trim_toLowerCase_of_whiteSpace value h
    have hrun : onSearchInput value s
        = emit (.display .searchResults "none") (emit (.display .popularApps "grid")
            { s with currentSearchTerm := "" }) := by
      unfold onSearchInput
      rw [ht]
      exact key _ rfl
    rw [hrun]
    refine ⟨rfl, ?_, rfl⟩
    simp [emit]

/-- Witness of C25: the fresh state, whose term is empty, and the typed text of two
spaces. -/
theorem handleSearch_empty_term_witness :
    (handleSearch (storeOf [sampleApp "foo" "Foo" (.number (.fin 3))])).log
      = (storeOf [sampleApp "foo" "Foo" (.number (.fin 3))]).log
          ++ [.display .popularApps "grid", .display .searchResults "none"] ∧
    (onSearchInput "  " (storeOf [sampleApp "foo" "Foo" (.number (.fin 3))])).log
      = (storeOf [sampleApp "foo" "Foo" (.number (.fin 3))]).log
          ++ [.display .popularApps "grid", .display .searchResults "none"] :=
  ⟨((handleSearch_empty_term (storeOf [sampleApp "foo" "Foo" (.number (.fin 3))]) "  ").1
      rfl).2.1,
    ((handleSearch_empty_term (storeOf [sampleApp "foo" "Foo" (.number (.fin 3))]) "  ").2
      (by decide)).2.1⟩

/-- C21: for every collection and every non-empty search term, `handleSearch` shows the
list `searchResults`, and a record is in that list if and only if it is a record of the
collection and the term is a substring of its lower-cased name, developer, description or
category. So a record one of whose four fields differs from the typed text only in the case
of letters is among the results of the listener, whenever the typed text is not white space
only. -/
theorem handleSearch_matches (s : AcueStore) (value : String) :
    (s.currentSearchTerm ≠ "" →
      handleSearch s
        = emit (if (searchResults s).length == 0 then .noResults
              else .render .searchResults (searchResults s))
            (emit (.display .searchResults "block")
              (emit (.display .popularApps "none") s)) ∧
      ∀ a, a ∈ searchResults s ↔ a ∈ s.apps ∧ MatchesTerm s.currentSearchTerm a) ∧
    (trim (toLowerCase value) ≠ "" →
      ∀ a ∈ s.apps,
        (toLowerCase a.name = toLowerCase value ∨ toLowerCase a.developer = toLowerCase value ∨
          toLowerCase a.description = toLowerCase value ∨
          toLowerCase a.category = toLowerCase value) →
        onSearchInput value s
          = emit (.render .searchResults
              (searchResults { s with currentSearchTerm := trim (toLowerCase value) }))
            (emit (.display .searchResults "block") (emit (.display .popularApps "none")
              { s with currentSearchTerm := trim (toLowerCase value) })) ∧
        a ∈ searchResults { s with currentSearchTerm := trim (toLowerCase value) }) := by
  constructor
  · intro h
    exact ⟨handleSearch_of_term s h, mem_searchResults s⟩
  · intro hne a ha hcase
    have hmem : a ∈ searchResults { s with currentSearchTerm := trim (toLowerCase value) } := by
      rw [mem_searchResults]
      refine ⟨ha, ?_⟩
      have hinf := trim_infix (toLowerCase value)
      unfold MatchesTerm
      rcases hcase with h | h | h | h
      · exact Or.inl (by rw [h]; exact hinf)
      · exact Or.inr (Or.inl (by rw [h]; exact hinf))
      · exact Or.inr (Or.inr (Or.inl (by rw [h]; exact hinf)))
      · exact Or.inr (Or.inr (Or.inr (by rw [h]; exact hinf)))
    refine ⟨?_, hmem⟩
    have hlen : ((searchResults
        { s with currentSearchTerm := trim (toLowerCase value) }).length == 0) = false := by
      have := List.length_pos_of_mem hmem
      simp only [beq_eq_false_iff_ne, ne_eq]
      omega
    unfold onSearchInput
    rw [handleSearch_of_term _ hne, hlen]
    rfl

/-- Witness of C21: the typed text `FOO` on a collection with the records `Foo` and
`Bar`. -/
theorem handleSearch_matches_witness :
    sampleApp "foo" "Foo" (.number (.fin 3)) ∈ searchResults
      { storeOf [sampleApp "foo" "Foo" (.number (.fin 3)),
          sampleApp "bar" "Bar" (.number (.fin 5))] with
        currentSearchTerm := trim (toLowerCase "FOO") } :=
  ((handleSearch_matches (storeOf [sampleApp "foo" "Foo" (.number (.fin 3)),
      sampleApp "bar" "Bar" (.number (.fin 5))]) "FOO").2 (by decide!)
    (sampleApp "foo" "Foo" (.number (.fin 3))) (by decide) (Or.inl (by decide!))).2

/-- C22: for every collection and every non-empty term, in the list `handleSearch` shows
every record whose lower-cased name starts with the term comes before every record whose
name does not: the list is its records of the first kind followed by its records of the
second kind, and each of the two groups is in the order the records have in the
collection. -/
theorem handleSearch_ranking (s : AcueStore) (h : s.currentSearchTerm ≠ "") :
    handleSearch s
      = emit (if (searchResults s).length == 0 then .noResults
            else .render .searchResults (searchResults s))
          (emit (.display .searchResults "block") (emit (.display .popularApps "none") s)) ∧
    searchResults s
      = (searchResults s).filter (nameStartsWith s.currentSearchTerm)
        ++ (searchResults s).filter (fun a => !nameStartsWith s.currentSearchTerm a) ∧
    ((searchResults s).filter (nameStartsWith s.currentSearchTerm)).Sublist s.apps ∧
    ((searchResults s).filter
      (fun a => !nameStartsWith s.currentSearchTerm a)).Sublist s.apps := by
  have hsort : ∀ l : List App, sort (byRelevance s.currentSearchTerm) l
      = l.filter (nameStartsWith s.currentSearchTerm)
        ++ l.filter (fun a => !nameStartsWith s.currentSearchTerm a) :=
    sort_byRelevance s.currentSearchTerm
  have h1 : ∀ l : List App,
      (l.filter (nameStartsWith s.currentSearchTerm)
        ++ l.filter (fun a => !nameStartsWith s.currentSearchTerm a)).filter
          (nameStartsWith s.currentSearchTerm)
        = l.filter (nameStartsWith s.currentSearchTerm) := by
    intro l
    rw [List.filter_append, List.filter_filter, List.filter_filter]
    simp
  have h2 : ∀ l : List App,
      (l.filter (nameStartsWith s.currentSearchTerm)
        ++ l.filter (fun a => !nameStartsWith s.currentSearchTerm a)).filter
          (fun a => !nameStartsWith s.currentSearchTerm a)
        = l.filter (fun a => !nameStartsWith s.currentSearchTerm a) := by
    intro l
    rw [List.filter_append, List.filter_filter, List.filter_filter]
    simp
  refine ⟨handleSearch_of_term s h, ?_, ?_, ?_⟩
  · unfold searchResults
    rw [hsort, h1, h2]
  · unfold searchResults
    rw [hsort, h1]
    exact (List.filter_sublist _).trans (List.filter_sublist _)
  · unfold searchResults
    rw [hsort, h2]
    exact (List.filter_sublist _).trans (List.filter_sublist _)

/-- Witness of C22: the term `fo` on a collection of three records. -/
theorem handleSearch_ranking_witness :
    searchResults { storeOf [sampleApp "info" "Info" (.number (.fin 3)),
        sampleApp "foo" "Foo" (.number (.fin 3)),
        sampleApp "bar" "Bar" (.number (.fin 5))] with currentSearchTerm := "fo" }
      = (searchResults { storeOf [sampleApp "info" "Info" (.number (.fin 3)),
          sampleApp "foo" "Foo" (.number (.fin 3)),
          sampleApp "bar" "Bar" (.number (.fin 5))] with currentSearchTerm := "fo" }).filter
          (nameStartsWith "fo")
        ++ (searchResults { storeOf [sampleApp "info" "Info" (.number (.fin 3)),
          sampleApp "foo" "Foo" (.number (.fin 3)),
          sampleApp "bar" "Bar" (.number (.fin 5))] with currentSearchTerm := "fo" }).filter
          (fun a => !nameStartsWith "fo" a) :=
  (handleSearch_ranking { storeOf [sampleApp "info" "Info" (.number (.fin 3)),
      sampleApp "foo" "Foo" (.number (.fin 3)),
      sampleApp "bar" "Bar" (.number (.fin 5))] with currentSearchTerm := "fo" }
    (by decide)).2.1

end AcueStore

namespace AcueStore

/-! ## The Popular view -/

/-- For numbers other than `NaN`, the difference `y - x` is above `0` exactly when `x < y`. -/
theorem sub_gt_zero (x y : JSNumber) (hx : x ≠ .nan) (hy : y ≠ .nan) :
    (y.sub x).gt (.fin 0) = x.lt y := by
  cases x <;> cases y <;>
    first
    | exact absurd rfl hx
    | exact absurd rfl hy
    | simp [JSNumber.sub, JSNumber.gt, JSNumber.lt]

/-- Among numbers other than `NaN`, of two numbers one is not below the other. -/
theorem lt_total (x y : JSNumber) (hx : x ≠ .nan) (hy : y ≠ .nan) :
    x.lt y = false ∨ y.lt x = false := by
  cases x <;> cases y <;>
    first
    | exact absurd rfl hx
    | exact absurd rfl hy
    | simp [JSNumber.lt]
  rename_i a b
  exact le_total b a

/-- Among numbers other than `NaN`, "not below" is transitive. -/
theorem lt_trans_false (x y z : JSNumber) (hx : x ≠ .nan) (hy : y ≠ .nan) (hz : z ≠ .nan)
    (h1 : x.lt y = false) (h2 : y.lt z = false) : x.lt z = false := by
  cases x <;> cases y <;> cases z <;>
    first
    | exact absurd rfl hx
    | exact absurd rfl hy
    | exact absurd rfl hz
    | simp [JSNumber.lt] at h1 h2 ⊢
  rename_i a b c
  exact le_trans h2 h1

/-- Inserting into a sorted list gives a sorted list, when the relation is total and
transitive on the elements at hand. -/
theorem pairwise_orderedInsert {α : Type} (r : α → α → Prop) [DecidableRel r] (P : α → Prop)
    (htotal : ∀ a b, P a → P b → r a b ∨ r b a)
    (htrans : ∀ a b c, P a → P b → P c → r a b → r b c → r a c) (a : α) (ha : P a) :
    ∀ l : List α, (∀ x ∈ l, P x) → l.Pairwise r → (l.orderedInsert r a).Pairwise r := by
  intro l
  induction l with
  | nil => intro _ _; simp
  | cons b l ih =>
    intro hP hs
    have hb : P b := hP b (List.mem_cons_self b l)
    have hl : ∀ x ∈ l, P x := fun x hx => hP x (List.mem_cons_of_mem b hx)
    obtain ⟨hbl, hsl⟩ := List.pairwise_cons.1 hs
    by_cases hab : r a b
    · simp only [List.orderedInsert, hab, if_true]
      refine List.pairwise_cons.2 ⟨?_, hs⟩
      intro x hx
      rcases List.mem_cons.1 hx with hx | hx
      · rw [hx]; exact hab
      · exact htrans a b x ha hb (hl x hx) hab (hbl x hx)
    · simp only [List.orderedInsert, hab, if_false]
      refine List.pairwise_cons.2 ⟨?_, ih hl hsl⟩
      intro x hx
      rcases (List.mem_orderedInsert r).1 hx with hx | hx
      · rw [hx]
        exact (htotal a b ha hb).resolve_left hab
      · exact hbl x hx

/-- Sorting gives a sorted list, when the relation is total and transitive on the elements
of the list. -/
theorem pairwise_insertionSort {α : Type} (r : α → α → Prop) [DecidableRel r] (P : α → Prop)
    (htotal : ∀ a b, P a → P b → r a b ∨ r b a)
    (htrans : ∀ a b c, P a → P b → P c → r a b → r b c → r a c) :
    ∀ l : List α, (∀ x ∈ l, P x) → (l.insertionSort r).Pairwise r := by
  intro l
  induction l with
  | nil => intro _; simp
  | cons a l ih =>
    intro hP
    have hl : ∀ x ∈ l, P x := fun x hx => hP x (List.mem_cons_of_mem a hx)
    exact pairwise_orderedInsert r P htotal htrans a (hP a (List.mem_cons_self a l)) _
      (fun x hx => hl x ((List.perm_insertionSort r l).mem_iff.1 hx)) (ih hl)

/-- The sort of `renderPopularApps` puts a collection without `NaN` in the order
`InRatingOrder`. -/
theorem sort_inRatingOrder (apps : List App) (h : ∀ a ∈ apps, a.rating.toNumber ≠ .nan) :
    InRatingOrder (sort byRatingDesc apps) := by
  apply pairwise_insertionSort _ (fun a : App => a.rating.toNumber ≠ .nan) _ _ apps h
  · intro a b ha hb
    show (byRatingDesc a b).gt (.fin 0) = false ∨ (byRatingDesc b a).gt (.fin 0) = false
    unfold byRatingDesc
    rw [sub_gt_zero _ _ ha hb, sub_gt_zero _ _ hb ha]
    exact lt_total _ _ ha hb
  · intro a b c ha hb hc h1 h2
    show (byRatingDesc a c).gt (.fin 0) = false
    have h1' : (byRatingDesc a b).gt (.fin 0) = false := h1
    have h2' : (byRatingDesc b c).gt (.fin 0) = false := h2
    unfold byRatingDesc at h1' h2' ⊢
    rw [sub_gt_zero _ _ ha hb] at h1'
    rw [sub_gt_zero _ _ hb hc] at h2'
    rw [sub_gt_zero _ _ ha hc]
    exact lt_trans_false _ _ _ ha hb hc h1' h2'

/-- The sort of `renderPopularApps` is stable: the records with one and the same rating
number are in the order they had before. -/
theorem sort_stable (apps : List App) (k : JSNumber) :
    (sort byRatingDesc apps).filter (fun a => a.rating.toNumber == k)
      = apps.filter (fun a => a.rating.toNumber == k) := by
  have hpair : (apps.filter (fun a => a.rating.toNumber == k)).Pairwise
      (fun a b => (byRatingDesc a b).gt (.fin 0) = false) := by
    apply List.Pairwise.imp_of_mem (R := fun _ _ => True)
    · intro a b ha hb _
      have hak : a.rating.toNumber = k := by simpa using (List.mem_filter.1 ha).2
      have hbk : b.rating.toNumber = k := by simpa using (List.mem_filter.1 hb).2
      unfold byRatingDesc
      rw [hak, hbk]
      cases k <;> simp [JSNumber.sub, JSNumber.gt, JSNumber.lt]
    · exact List.pairwise_of_forall (fun _ _ => trivial)
  have hsub : (apps.filter (fun a => a.rating.toNumber == k)).Sublist
      (sort byRatingDesc apps) :=
    List.sublist_insertionSort hpair (List.filter_sublist _)
  have hsub' := hsub.filter (fun a => a.rating.toNumber == k)
  rw [List.filter_filter] at hsub'
  simp only [Bool.and_self] at hsub'
  have hlen : ((sort byRatingDesc apps).filter (fun a => a.rating.toNumber == k)).length
      = (apps.filter (fun a => a.rating.toNumber == k)).length :=
    ((sort_perm byRatingDesc apps).filter _).length_eq
  exact (hsub'.eq_of_length hlen.symm).symm

end AcueStore

namespace AcueStore

/-- A collection without `NaN` that is in the order `InRatingOrder` is in descending order
of rating. -/
theorem descending_of_inRatingOrder (apps : List App)
    (h : ∀ a ∈ apps, a.rating.toNumber ≠ .nan) (hs : InRatingOrder apps) :
    DescendingByRating apps := by
  unfold DescendingByRating
  unfold InRatingOrder List.Sorted at hs
  refine List.Pairwise.imp_of_mem ?_ hs
  intro a b ha hb hab
  unfold byRatingDesc at hab
  rw [sub_gt_zero _ _ (h a ha) (h b hb)] at hab
  exact hab

/-- Claim C23 fails for a collection with a rating `NaN`: of the three records with the
ratings 3, `NaN` and 5, `renderPopularApps` shows no list that is the first six of a
descending arrangement of the collection; it shows them as they are, 3 before 5. -/
theorem renderPopularApps_nan_not_descending :
    (renderPopularApps (storeOf ratedThreeNaNFive)).log
        = [.render .popularApps ratedThreeNaNFive] ∧
      ∀ sorted : List App, sorted.Perm ratedThreeNaNFive → DescendingByRating sorted →
        Event.render .popularApps (sorted.take 6)
          ∉ (renderPopularApps (storeOf ratedThreeNaNFive)).log := by
  have hlog : (renderPopularApps (storeOf ratedThreeNaNFive)).log
      = [.render .popularApps ratedThreeNaNFive] := by decide!
  refine ⟨hlog, ?_⟩
  intro sorted hperm hdesc hmem
  rw [hlog] at hmem
  have hlen : sorted.length = 3 := hperm.length_eq
  have htake : sorted.take 6 = sorted := List.take_of_length_le (by omega)
  rw [htake] at hmem
  have heq : sorted = ratedThreeNaNFive := by
    simpa using hmem
  rw [heq] at hdesc
  exact absurd hdesc (by decide!)

/-- Claim C23, amended: for every collection in which no rating is `NaN`, the list
`renderPopularApps` shows is the first 6 records of an arrangement of the collection that
is in descending order of rating and in which the records of one and the same rating keep
the order they had before the call; this arrangement also replaces the collection. -/
theorem renderPopularApps_topByRating (s : AcueStore)
    (h : ∀ a ∈ s.apps, a.rating.toNumber ≠ .nan) :
    ∃ sorted : List App,
      renderPopularApps s = emit (.render .popularApps (sorted.take 6)) { s with apps := sorted } ∧
      sorted.Perm s.apps ∧ DescendingByRating sorted ∧
      ∀ k : JSNumber, sorted.filter (fun a => a.rating.toNumber == k)
        = s.apps.filter (fun a => a.rating.toNumber == k) := by
  refine ⟨sort byRatingDesc s.apps, rfl, sort_perm byRatingDesc s.apps, ?_, ?_⟩
  · apply descending_of_inRatingOrder
    · intro a ha
      exact h a ((sort_perm byRatingDesc s.apps).mem_iff.1 ha)
    · exact sort_inRatingOrder s.apps h
  · intro k
    exact sort_stable s.apps k

theorem renderPopularApps_topByRating_witness :
    (∀ a ∈ (storeOf [sampleApp "foo" "Foo" (.number (.fin 3)),
        sampleApp "bar" "Bar" (.number (.fin 5))]).apps, a.rating.toNumber ≠ .nan) ∧
    ∃ sorted : List App,
      renderPopularApps (storeOf [sampleApp "foo" "Foo" (.number (.fin 3)),
          sampleApp "bar" "Bar" (.number (.fin 5))])
        = emit (.render .popularApps (sorted.take 6))
            { storeOf [sampleApp "foo" "Foo" (.number (.fin 3)),
                sampleApp "bar" "Bar" (.number (.fin 5))] with apps := sorted } ∧
      sorted.Perm (storeOf [sampleApp "foo" "Foo" (.number (.fin 3)),
          sampleApp "bar" "Bar" (.number (.fin 5))]).apps ∧ DescendingByRating sorted ∧
      ∀ k : JSNumber, sorted.filter (fun a => a.rating.toNumber == k)
        = (storeOf [sampleApp "foo" "Foo" (.number (.fin 3)),
            sampleApp "bar" "Bar" (.number (.fin 5))]).apps.filter
              (fun a => a.rating.toNumber == k) :=
  ⟨by decide!, renderPopularApps_topByRating _ (by decide!)⟩

end AcueStore

namespace AcueStore

/-! ## The accounts -/

/-- What `saveUsers` writes is what `loadUsers` reads. -/
theorem loadUsers_saveUsers (users : List UserRecord) (s : AcueStore) :
    loadUsers (saveUsers users s).localStorage = .ok users := by
  simp [loadUsers, saveUsers, Stored.truthy, JSON.parse]

/-- In a registry with unique usernames, the search of `handleLogin` with the username and
the password of a record of the registry finds this record. -/
theorem find?_credentials (u : UserRecord) :
    ∀ users : List UserRecord, (usernames users).Nodup → u ∈ users →
      users.find? (fun v => v.username == u.username && v.password == u.password) = some u := by
  intro users
  induction users with
  | nil => intro _ hu; simp at hu
  | cons v l ih =>
    intro hnodup hu
    have hn := List.nodup_cons.1 (by simpa [usernames] using hnodup :
      (v.username :: usernames l).Nodup)
    by_cases hvu : v = u
    · subst hvu
      simp
    · have hul : u ∈ l := by
        rcases List.mem_cons.1 hu with h | h
        · exact absurd h.symm hvu
        · exact h
      have hne : v.username ≠ u.username := by
        intro h
        apply hn.1
        rw [h]
        exact List.mem_map_of_mem (fun u => u.username) hul
      have hp : (v.username == u.username && v.password == u.password) = false := by
        simp [hne]
      rw [List.find?_cons, hp]
      exact ih hn.2 hul

/-- A search by a username that no record of the list has finds nothing. -/
theorem find?_username_none (username : String) (q : UserRecord → Bool)
    (users : List UserRecord) (h : username ∉ usernames users) :
    users.find? (fun v => v.username == username && q v) = none := by
  rw [List.find?_eq_none]
  intro v hv
  have hne : v.username ≠ username := by
    intro hx
    apply h
    rw [← hx]
    exact List.mem_map_of_mem (fun u => u.username) hv
  simp [hne]

/-- The search of `handleRegister` finds a record exactly when the username is in the
registry. -/
theorem find?_username_isSome (username : String) (users : List UserRecord) :
    (users.find? (fun v => v.username == username)).isSome = true
      ↔ username ∈ usernames users := by
  rw [List.find?_isSome]
  simp [usernames]

/-- The search of `banUser`, `unbanUser` and `resetPassword` likewise. -/
theorem findIdx?_username_isSome (username : String) (users : List UserRecord) :
    (users.findIdx? (fun v => v.username == username)).isSome = true
      ↔ username ∈ usernames users := by
  rw [List.findIdx?_isSome]
  simp [usernames]

/-- A change of one record that keeps its username keeps the list of usernames. -/
theorem usernames_updateFirst (p : UserRecord → Bool) (f : UserRecord → UserRecord)
    (hf : ∀ u, (f u).username = u.username) :
    ∀ users : List UserRecord, usernames (updateFirst p f users) = usernames users := by
  intro users
  induction users with
  | nil => rfl
  | cons v l ih =>
    unfold updateFirst
    by_cases hp : p v = true
    · simp [hp, usernames, hf]
    · simp only [hp]
      simp only [usernames, List.map_cons] at ih ⊢
      simp [ih]

/-- The empty string is the only string that is falsy. -/
theorem beq_empty_false (str : String) (h : str ≠ "") : (str == "") = false := by
  simp [h]

end AcueStore

namespace AcueStore

/-! ## Login of a banned account -/

/-- The search of `handleLogin` takes the first record with the username and the password:
in a registry with two records of one username, which no method writes, where an account
that is not banned stands before a banned one with the same username and password, the
login succeeds. -/
theorem handleLogin_first_record_counts :
    handleLogin "alice" "secret1"
        (storeWithUsers [sampleUser "alice" "secret1" false, sampleUser "alice" "secret1" true])
      = .ok (showSuccessMessage [.text "Login successful!"]
          (saveUserSession
            { storeWithUsers [sampleUser "alice" "secret1" false,
                sampleUser "alice" "secret1" true] with
              currentUser := some aliceIdentity })) := by
  with_unfolding_all rfl

/-- The test for an empty field stands before the search: for a registry with a banned
record whose password is the empty string, which no method writes, the login with the
username and password of that record is refused with the message for an empty field, not
with the one for a banned account. -/
theorem handleLogin_banned_empty_password :
    (sampleUser "bob" "" true).is_banned = true ∧
    sampleUser "bob" "" true ∈ [sampleUser "bob" "" true] ∧
    loadUsers (storeWithUsers [sampleUser "bob" "" true]).localStorage
      = .ok [sampleUser "bob" "" true] ∧
    handleLogin (sampleUser "bob" "" true).username (sampleUser "bob" "" true).password
        (storeWithUsers [sampleUser "bob" "" true])
      = .ok (alert "Please fill in all fields" (storeWithUsers [sampleUser "bob" "" true])) ∧
    handleLogin (sampleUser "bob" "" true).username (sampleUser "bob" "" true).password
        (storeWithUsers [sampleUser "bob" "" true])
      ≠ .ok (alert "Your account has been banned. Please contact support."
          (storeWithUsers [sampleUser "bob" "" true])) := by
  refine ⟨rfl, by decide, by with_unfolding_all rfl, by with_unfolding_all rfl, ?_⟩
  have h : handleLogin (sampleUser "bob" "" true).username (sampleUser "bob" "" true).password
      (storeWithUsers [sampleUser "bob" "" true])
      = .ok (alert "Please fill in all fields" (storeWithUsers [sampleUser "bob" "" true])) := by
    with_unfolding_all rfl
  rw [h]
  intro hx
  have hlog := congrArg (fun r => r.toOption.map (fun s => s.log)) hx
  revert hlog
  decide

/-- For every registry with unique usernames and every record of it with `is_banned = true`
whose username and password are not empty, `handleLogin` with the username and the password
of the record shows the message for a banned account and changes nothing else. -/
theorem handleLogin_banned_of_unique (s : AcueStore) (users : List UserRecord) (u : UserRecord)
    (hload : loadUsers s.localStorage = .ok users) (hnodup : (usernames users).Nodup)
    (hu : u ∈ users) (hban : u.is_banned = true)
    (hname : u.username ≠ "") (hpass : u.password ≠ "") :
    handleLogin u.username u.password s
      = .ok (alert "Your account has been banned. Please contact support." s) ∧
    (alert "Your account has been banned. Please contact support." s).currentUser
      = s.currentUser ∧
    (alert "Your account has been banned. Please contact support." s).localStorage
      = s.localStorage := by
  refine ⟨?_, rfl, rfl⟩
  unfold handleLogin
  rw [beq_empty_false _ hname, beq_empty_false _ hpass]
  simp only [Bool.or_self, Bool.false_eq_true, if_false, hload]
  rw [find?_credentials u users hnodup hu]
  simp [hban]

end AcueStore

namespace AcueStore

/-! ## Registration -/

/-- A string of six or more units is not empty. -/
theorem ne_empty_of_jsLength (str : String) (h : 6 ≤ jsLength str) : str ≠ "" := by
  intro hx
  subst hx
  revert h
  decide

/-- A registration with a username that is not empty and not in the registry, and a
password of six or more units given twice, returns a state in which the registry is the one
before with the new record at its end, and the new account is the current user and the
stored session; the stored collection and the collection are as before. -/
theorem handleRegister_success (s : AcueStore) (users : List UserRecord)
    (username password : String) (now : Nat) (createdAt : String)
    (hload : loadUsers s.localStorage = .ok users) (hu : username ∉ usernames users)
    (hname : username ≠ "") (hp : 6 ≤ jsLength password) :
    ∃ s1 : AcueStore, handleRegister username password password now createdAt s = .ok s1 ∧
      loadUsers s1.localStorage = .ok (users ++
        [{ id := toString now, username := username, password := password,
           email := username ++ "@nexorastore.com", created_at := createdAt,
           is_banned := false }]) ∧
      s1.currentUser = some (SessionIdentity.mk (toString now) username
        (username ++ "@nexorastore.com")) ∧
      s1.localStorage.nexoraStoreUser = some (.json (SessionIdentity.mk (toString now) username
        (username ++ "@nexorastore.com"))) ∧
      s1.localStorage.nexoraStoreApps = s.localStorage.nexoraStoreApps ∧
      s1.apps = s.apps := by
  have hpass : password ≠ "" := ne_empty_of_jsLength password hp
  have hfind : (users.find? (fun v => v.username == username)).isSome = false := by
    rw [Bool.eq_false_iff]
    intro hx
    exact hu ((find?_username_isSome username users).1 hx)
  have hlt : ¬ jsLength password < 6 := by omega
  unfold handleRegister
  rw [beq_empty_false _ hname, beq_empty_false _ hpass]
  simp only [Bool.or_self, Bool.false_eq_true, if_false, bne_self_eq_false, hlt, hload, hfind]
  refine ⟨_, rfl, ?_, rfl, rfl, rfl, rfl⟩
  simp [loadUsers, saveUsers, saveUserSession, showSuccessMessage, emit, Stored.truthy,
    JSON.parse]

/-- In a state whose registry ends with a record whose username is not empty and is in no
record before it, a login with this username and a password that is not empty succeeds or
fails by the comparison of the password with the one of this record. -/
theorem handleLogin_last_record (s : AcueStore) (users : List UserRecord) (n : UserRecord)
    (q : String) (hload : loadUsers s.localStorage = .ok (users ++ [n]))
    (hu : n.username ∉ usernames users) (hname : n.username ≠ "") (hq : q ≠ "")
    (hban : n.is_banned = false) :
    handleLogin n.username q s
      = if n.password = q then
          .ok (showSuccessMessage [.text "Login successful!"]
            (saveUserSession { s with
              currentUser := (some (SessionIdentity.mk n.id n.username n.email)) }))
        else .ok (alert "Invalid username or password" s) := by
  unfold handleLogin
  rw [beq_empty_false _ hname, beq_empty_false _ hq]
  simp only [Bool.or_self, Bool.false_eq_true, if_false, hload]
  rw [List.find?_append, find?_username_none n.username (fun v => v.password == q) users hu]
  by_cases hpq : n.password = q
  · simp [hpq, hban]
  · simp [hpq]

end AcueStore

namespace AcueStore

/-! ## Registration followed by login -/

/-- Claim C27 fails where a field is empty. After the registration of `alice` with the
password `secret1` in an empty registry, the login with the password `""`, which is
different from `secret1`, is refused with the message for an empty field, not with the one
for wrong credentials; and the username `""`, which is in no registry, is not registered at
all, so that the login with it does not succeed. -/
theorem register_then_login_empty_field :
    (handleRegister "alice" "secret1" "secret1" 1700000000000 "2023-11-14T22:13:20.000Z"
        (storeWithUsers [])).bind (handleLogin "alice" "")
      = (handleRegister "alice" "secret1" "secret1" 1700000000000 "2023-11-14T22:13:20.000Z"
          (storeWithUsers [])).map (alert "Please fill in all fields") ∧
    (handleRegister "alice" "secret1" "secret1" 1700000000000 "2023-11-14T22:13:20.000Z"
        (storeWithUsers [])).bind (handleLogin "alice" "")
      ≠ (handleRegister "alice" "secret1" "secret1" 1700000000000 "2023-11-14T22:13:20.000Z"
          (storeWithUsers [])).map (alert "Invalid username or password") ∧
    handleRegister "" "secret1" "secret1" 1700000000000 "2023-11-14T22:13:20.000Z"
        (storeWithUsers [])
      = .ok (alert "Please fill in all fields" (storeWithUsers [])) ∧
    handleLogin "" "secret1" (alert "Please fill in all fields" (storeWithUsers []))
      = .ok (alert "Please fill in all fields"
          (alert "Please fill in all fields" (storeWithUsers []))) ∧
    (alert "Please fill in all fields"
      (alert "Please fill in all fields" (storeWithUsers []))).currentUser = none := by
  refine ⟨by with_unfolding_all rfl, ?_, by with_unfolding_all rfl, by with_unfolding_all rfl,
    rfl⟩
  intro hx
  have hlog := congrArg (fun r => r.toOption.map (fun s => s.log)) hx
  revert hlog
  decide

/-- Claim C27, amended: for every registry, every username `u` that is not empty and not in
it and every password `p` of six or more units, `handleRegister` with `u`, `p`, `p` returns
a state `s1`; and in `s1`, as in every state `t` over the registry of `s1` (so also after a
logout or in a fresh instance), `handleLogin` with `u` and `p` succeeds: it makes the
current user and the stored session the identity of the created record (its id, the
username `u`, its email) and shows "Login successful!"; and `handleLogin` with `u` and any
password `q` that is not empty and different from `p` shows the message for wrong
credentials and changes neither the current user nor `localStorage`. -/
theorem register_then_login (s : AcueStore) (users : List UserRecord) (u p : String)
    (now : Nat) (createdAt : String)
    (hload : loadUsers s.localStorage = .ok users) (hu : u ∉ usernames users)
    (hname : u ≠ "") (hp : 6 ≤ jsLength p) :
    ∃ s1 : AcueStore, handleRegister u p p now createdAt s = .ok s1 ∧
      ∀ t : AcueStore, loadUsers t.localStorage = loadUsers s1.localStorage →
        (∃ t2 : AcueStore, handleLogin u p t = .ok t2 ∧
          t2 = showSuccessMessage [.text "Login successful!"]
            (saveUserSession { t with
              currentUser := (some (SessionIdentity.mk (toString now) u
                (u ++ "@nexorastore.com"))) }) ∧
          t2.currentUser
            = some (SessionIdentity.mk (toString now) u (u ++ "@nexorastore.com")) ∧
          t2.localStorage.nexoraStoreUser
            = some (.json (SessionIdentity.mk (toString now) u (u ++ "@nexorastore.com"))) ∧
          t2.log = t.log ++ [.success [.text "Login successful!"]]) ∧
        ∀ q : String, q ≠ p → q ≠ "" →
          handleLogin u q t = .ok (alert "Invalid username or password" t) ∧
          (alert "Invalid username or password" t).currentUser = t.currentUser ∧
          (alert "Invalid username or password" t).localStorage = t.localStorage := by
  obtain ⟨s1, hreg, hload1, _, _, _, _⟩ :=
    handleRegister_success s users u p now createdAt hload hu hname hp
  refine ⟨s1, hreg, ?_⟩
  intro t ht
  rw [hload1] at ht
  constructor
  · have h := handleLogin_last_record t users
      { id := toString now, username := u, password := p, email := u ++ "@nexorastore.com",
        created_at := createdAt, is_banned := false } p ht hu hname
      (ne_empty_of_jsLength p hp) rfl
    simp only [if_true] at h
    exact ⟨_, h, rfl, rfl, rfl, rfl⟩
  · intro q hqp hq
    have h := handleLogin_last_record t users
      { id := toString now, username := u, password := p, email := u ++ "@nexorastore.com",
        created_at := createdAt, is_banned := false } q ht hu hname hq rfl
    have hpq : ¬ p = q := fun hx => hqp hx.symm
    simp only [hpq, if_false] at h
    exact ⟨h, rfl, rfl⟩

/-- Witness of C27 (amended): `alice` registers with `secret1` in a registry that holds
`bob`. -/
theorem register_then_login_witness :
    ∃ s1 : AcueStore,
      handleRegister "alice" "secret1" "secret1" 1700000000000 "2023-11-14T22:13:20.000Z"
        (storeWithUsers [sampleUser "bob" "hunter22" false]) = .ok s1 ∧
      ∀ t : AcueStore, loadUsers t.localStorage = loadUsers s1.localStorage →
        (∃ t2 : AcueStore, handleLogin "alice" "secret1" t = .ok t2 ∧
          t2 = showSuccessMessage [.text "Login successful!"]
            (saveUserSession { t with
              currentUser := (some (SessionIdentity.mk (toString 1700000000000) "alice"
                ("alice" ++ "@nexorastore.com"))) }) ∧
          t2.currentUser
            = some (SessionIdentity.mk (toString 1700000000000) "alice"
                ("alice" ++ "@nexorastore.com")) ∧
          t2.localStorage.nexoraStoreUser
            = some (.json (SessionIdentity.mk (toString 1700000000000) "alice"
                ("alice" ++ "@nexorastore.com"))) ∧
          t2.log = t.log ++ [.success [.text "Login successful!"]]) ∧
        ∀ q : String, q ≠ "secret1" → q ≠ "" →
          handleLogin "alice" q t = .ok (alert "Invalid username or password" t) ∧
          (alert "Invalid username or password" t).currentUser = t.currentUser ∧
          (alert "Invalid username or password" t).localStorage = t.localStorage :=
  register_then_login (storeWithUsers [sampleUser "bob" "hunter22" false])
    [sampleUser "bob" "hunter22" false] "alice" "secret1" 1700000000000
    "2023-11-14T22:13:20.000Z" (by with_unfolding_all rfl) (by decide) (by decide) (by decide)

end AcueStore

namespace AcueStore

/-! ## Refused registrations -/

/-- A registration with an empty field, with two different passwords, with a password of
fewer than six units or with a username of the registry shows a message and does nothing
else. -/
theorem handleRegister_failure (s : AcueStore) (users : List UserRecord)
    (username password confirmPassword : String) (now : Nat) (createdAt : String)
    (hload : loadUsers s.localStorage = .ok users)
    (hfail : username = "" ∨ password = "" ∨ confirmPassword = "" ∨
      password ≠ confirmPassword ∨ jsLength password < 6 ∨ username ∈ usernames users) :
    ∃ msg : String,
      handleRegister username password confirmPassword now createdAt s = .ok (alert msg s) := by
  unfold handleRegister
  by_cases h1 : (username == "" || password == "" || confirmPassword == "") = true
  · rw [if_pos h1]
    exact ⟨_, rfl⟩
  rw [if_neg h1]
  by_cases h2 : (password != confirmPassword) = true
  · rw [if_pos h2]
    exact ⟨_, rfl⟩
  rw [if_neg h2]
  by_cases h3 : jsLength password < 6
  · rw [if_pos h3]
    exact ⟨_, rfl⟩
  rw [if_neg h3]
  simp only [hload]
  by_cases h4 : (users.find? (fun u => u.username == username)).isSome = true
  · rw [if_pos h4]
    exact ⟨_, rfl⟩
  exfalso
  rcases hfail with h | h | h | h | h | h
  · exact h1 (by simp [h])
  · exact h1 (by simp [h])
  · exact h1 (by simp [h])
  · exact h2 (by simp [h])
  · exact h3 h
  · exact h4 ((find?_username_isSome username users).2 h)

end AcueStore

namespace AcueStore

/-- C28: in a state whose registry is `users`, `handleRegister` with an empty field, with a
password different from its confirmation, with a password of fewer than six units (the
`length` of the string) or with a username of the registry shows a message and leaves
`localStorage`, with the registry and the stored session, and the current user as they
were; in every other case it returns a state whose registry is `users` with one record
more at its end, the one with the given username and password, `is_banned = false` and the
email made from the username, and whose current user and stored session are the identity of
this record. -/
theorem handleRegister_cases (s : AcueStore) (users : List UserRecord)
    (username password confirmPassword : String) (now : Nat) (createdAt : String)
    (hload : loadUsers s.localStorage = .ok users) :
    ((username = "" ∨ password = "" ∨ confirmPassword = "" ∨
        password ≠ confirmPassword ∨ jsLength password < 6 ∨ username ∈ usernames users) →
      ∃ msg : String,
        handleRegister username password confirmPassword now createdAt s = .ok (alert msg s) ∧
        (alert msg s).localStorage = s.localStorage ∧
        loadUsers (alert msg s).localStorage = .ok users ∧
        (alert msg s).currentUser = s.currentUser) ∧
    (¬ (username = "" ∨ password = "" ∨ confirmPassword = "" ∨
        password ≠ confirmPassword ∨ jsLength password < 6 ∨ username ∈ usernames users) →
      ∃ s1 : AcueStore,
        handleRegister username password confirmPassword now createdAt s = .ok s1 ∧
        loadUsers s1.localStorage = .ok (users ++
          [{ id := toString now, username := username, password := password,
             email := username ++ "@nexorastore.com", created_at := createdAt,
             is_banned := false }]) ∧
        s1.currentUser
          = some (SessionIdentity.mk (toString now) username (username ++ "@nexorastore.com")) ∧
        s1.localStorage.nexoraStoreUser
          = some (.json (SessionIdentity.mk (toString now) username
              (username ++ "@nexorastore.com")))) := by
  constructor
  · intro hfail
    obtain ⟨msg, hmsg⟩ := handleRegister_failure s users username password confirmPassword now
      createdAt hload hfail
    exact ⟨msg, hmsg, rfl, hload, rfl⟩
  · intro hok
    simp only [not_or, not_not, not_lt] at hok
    obtain ⟨hname, _, _, hconf, hlen, hu⟩ := hok
    subst hconf
    obtain ⟨s1, hreg, hload1, hcur, hsess, _, _⟩ :=
      handleRegister_success s users username password now createdAt hload hu hname hlen
    exact ⟨s1, hreg, hload1, hcur, hsess⟩

theorem handleRegister_cases_witness :
    (∃ msg : String,
      handleRegister "alice" "secret2" "secret2" 1700000000001 "2023-11-14T22:13:20.001Z"
          (storeWithUsers [sampleUser "alice" "secret1" false])
        = .ok (alert msg (storeWithUsers [sampleUser "alice" "secret1" false])) ∧
      (alert msg (storeWithUsers [sampleUser "alice" "secret1" false])).localStorage
        = (storeWithUsers [sampleUser "alice" "secret1" false]).localStorage ∧
      loadUsers (alert msg (storeWithUsers [sampleUser "alice" "secret1" false])).localStorage
        = .ok [sampleUser "alice" "secret1" false] ∧
      (alert msg (storeWithUsers [sampleUser "alice" "secret1" false])).currentUser
        = (storeWithUsers [sampleUser "alice" "secret1" false]).currentUser) ∧
    ∃ s1 : AcueStore,
      handleRegister "bob" "hunter22" "hunter22" 1700000000001 "2023-11-14T22:13:20.001Z"
          (storeWithUsers [sampleUser "alice" "secret1" false]) = .ok s1 ∧
      loadUsers s1.localStorage = .ok ([sampleUser "alice" "secret1" false] ++
        [{ id := toString 1700000000001, username := "bob", password := "hunter22",
           email := "bob" ++ "@nexorastore.com", created_at := "2023-11-14T22:13:20.001Z",
           is_banned := false }]) ∧
      s1.currentUser
        = some (SessionIdentity.mk (toString 1700000000001) "bob"
            ("bob" ++ "@nexorastore.com")) ∧
      s1.localStorage.nexoraStoreUser
        = some (.json (SessionIdentity.mk (toString 1700000000001) "bob"
            ("bob" ++ "@nexorastore.com"))) :=
  ⟨(handleRegister_cases (storeWithUsers [sampleUser "alice" "secret1" false])
      [sampleUser "alice" "secret1" false] "alice" "secret2" "secret2" 1700000000001
      "2023-11-14T22:13:20.001Z" (by with_unfolding_all rfl)).1
      (Or.inr (Or.inr (Or.inr (Or.inr (Or.inr (by decide)))))),
    (handleRegister_cases (storeWithUsers [sampleUser "alice" "secret1" false])
      [sampleUser "alice" "secret1" false] "bob" "hunter22" "hunter22" 1700000000001
      "2023-11-14T22:13:20.001Z" (by with_unfolding_all rfl)).2 (by decide)⟩

end AcueStore

namespace AcueStore

/-! ## Uniqueness of usernames -/

/-- The usernames stay distinct when a record with a new username is put at the end. -/
theorem usernames_append_nodup (users : List UserRecord) (n : UserRecord)
    (hnodup : (usernames users).Nodup) (hn : n.username ∉ usernames users) :
    (usernames (users ++ [n])).Nodup := by
  simp only [usernames, List.map_append, List.map_cons, List.map_nil]
  rw [List.nodup_append]
  refine ⟨hnodup, List.nodup_singleton _, ?_⟩
  intro x hx hx1
  rw [List.mem_singleton] at hx1
  subst hx1
  exact hn hx

/-- A login leaves the registry as it is. -/
theorem handleLogin_registry (s : AcueStore) (users : List UserRecord)
    (username password : String) (hload : loadUsers s.localStorage = .ok users) :
    ∃ s1 : AcueStore, handleLogin username password s = .ok s1 ∧
      loadUsers s1.localStorage = .ok users := by
  unfold handleLogin
  by_cases h1 : (username == "" || password == "") = true
  · rw [if_pos h1]
    exact ⟨_, rfl, hload⟩
  rw [if_neg h1]
  simp only [hload]
  cases users.find? (fun u => u.username == username && u.password == password) with
  | none => exact ⟨_, rfl, hload⟩
  | some user =>
    by_cases hban : user.is_banned = true
    · simp only [hban, if_true]
      exact ⟨_, rfl, hload⟩
    · simp only [hban, if_false]
      refine ⟨_, rfl, ?_⟩
      rw [← hload]
      simp [loadUsers, saveUserSession, showSuccessMessage, emit]

/-- A logout leaves the registry as it is. -/
theorem handleLogout_registry (s : AcueStore) :
    loadUsers (handleLogout s).localStorage = loadUsers s.localStorage := by
  simp [loadUsers, handleLogout, saveUserSession, showSuccessMessage, emit]

/-- After `resetPassword` the usernames of the registry are the ones before, in the same
order. -/
theorem resetPassword_usernames (s : AcueStore) (users : List UserRecord)
    (newPassword : Option String) (hload : loadUsers s.localStorage = .ok users) :
    ∃ s1 : AcueStore, resetPassword newPassword s = .ok s1 ∧
      ∃ users1 : List UserRecord, loadUsers s1.localStorage = .ok users1 ∧
        usernames users1 = usernames users := by
  unfold resetPassword
  cases s.currentUser with
  | none => exact ⟨_, rfl, users, hload, rfl⟩
  | some currentUser =>
    cases newPassword with
    | none => exact ⟨_, rfl, users, hload, rfl⟩
    | some newPassword =>
      simp only
      by_cases h1 : (newPassword == "") = true
      · rw [if_pos h1]
        exact ⟨_, rfl, users, hload, rfl⟩
      rw [if_neg h1]
      by_cases h2 : jsLength newPassword < 6
      · rw [if_pos h2]
        exact ⟨_, rfl, users, hload, rfl⟩
      rw [if_neg h2]
      simp only [hload]
      cases users.findIdx? (fun u => u.username == currentUser.username) with
      | none => exact ⟨_, rfl, users, hload, rfl⟩
      | some i =>
        exact ⟨_, rfl, _, loadUsers_saveUsers _ s,
          by
          apply usernames_updateFirst
          intro u
          rfl⟩

/-- After `banUser` the usernames of the registry are the ones before, in the same order. -/
theorem banUser_usernames (s : AcueStore) (users : List UserRecord) (username : String)
    (hload : loadUsers s.localStorage = .ok users) :
    ∃ s1 : AcueStore, banUser username s = .ok s1 ∧
      ∃ users1 : List UserRecord, loadUsers s1.localStorage = .ok users1 ∧
        usernames users1 = usernames users := by
  unfold banUser
  simp only [hload]
  cases users.findIdx? (fun u => u.username == username) with
  | none => exact ⟨_, rfl, users, hload, rfl⟩
  | some i =>
    simp only [loadUsersList, loadUsers_saveUsers]
    exact ⟨_, rfl, _, loadUsers_saveUsers _ s, by
          apply usernames_updateFirst
          intro u
          rfl⟩

/-- After `unbanUser` the usernames of the registry are the ones before, in the same
order. -/
theorem unbanUser_usernames (s : AcueStore) (users : List UserRecord) (username : String)
    (hload : loadUsers s.localStorage = .ok users) :
    ∃ s1 : AcueStore, unbanUser username s = .ok s1 ∧
      ∃ users1 : List UserRecord, loadUsers s1.localStorage = .ok users1 ∧
        usernames users1 = usernames users := by
  unfold unbanUser
  simp only [hload]
  cases users.findIdx? (fun u => u.username == username) with
  | none => exact ⟨_, rfl, users, hload, rfl⟩
  | some i =>
    simp only [loadUsersList, loadUsers_saveUsers]
    exact ⟨_, rfl, _, loadUsers_saveUsers _ s, by
          apply usernames_updateFirst
          intro u
          rfl⟩

/-- C29: in a state whose registry has pairwise distinct usernames, each of the methods
`handleRegister`, `handleLogin`, `handleLogout`, `resetPassword`, `banUser` and
`unbanUser`, with any arguments, returns a state whose registry has pairwise distinct
usernames. -/
theorem accountOp_usernames_nodup (op : AccountOp) (s : AcueStore) (users : List UserRecord)
    (hload : loadUsers s.localStorage = .ok users) (hnodup : (usernames users).Nodup) :
    ∃ s1 : AcueStore, op.run s = .ok s1 ∧
      ∃ users1 : List UserRecord, loadUsers s1.localStorage = .ok users1 ∧
        (usernames users1).Nodup := by
  cases op with
  | register username password confirmPassword now createdAt =>
    by_cases hfail : username = "" ∨ password = "" ∨ confirmPassword = "" ∨
        password ≠ confirmPassword ∨ jsLength password < 6 ∨ username ∈ usernames users
    · obtain ⟨msg, hmsg⟩ := handleRegister_failure s users username password confirmPassword
        now createdAt hload hfail
      exact ⟨_, hmsg, users, hload, hnodup⟩
    · simp only [not_or, not_not, not_lt] at hfail
      obtain ⟨hname, _, _, hconf, hlen, hu⟩ := hfail
      subst hconf
      obtain ⟨s1, hreg, hload1, _⟩ :=
        handleRegister_success s users username password now createdAt hload hu hname hlen
      exact ⟨s1, hreg, _, hload1, usernames_append_nodup users _ hnodup hu⟩
  | login username password =>
    obtain ⟨s1, hrun, hload1⟩ := handleLogin_registry s users username password hload
    exact ⟨s1, hrun, users, hload1, hnodup⟩
  | logout =>
    exact ⟨_, rfl, users, (handleLogout_registry s).trans hload, hnodup⟩
  | resetPassword newPassword =>
    obtain ⟨s1, hrun, users1, hload1, hnames⟩ := resetPassword_usernames s users newPassword hload
    exact ⟨s1, hrun, users1, hload1, hnames ▸ hnodup⟩
  | ban username =>
    obtain ⟨s1, hrun, users1, hload1, hnames⟩ := banUser_usernames s users username hload
    exact ⟨s1, hrun, users1, hload1, hnames ▸ hnodup⟩
  | unban username =>
    obtain ⟨s1, hrun, users1, hload1, hnames⟩ := unbanUser_usernames s users username hload
    exact ⟨s1, hrun, users1, hload1, hnames ▸ hnodup⟩

theorem accountOp_usernames_nodup_witness :
    ∃ s1 : AcueStore,
      (AccountOp.ban "alice").run
        (storeWithUsers [sampleUser "bob" "hunter22" false, sampleUser "alice" "secret1" false])
        = .ok s1 ∧
      ∃ users1 : List UserRecord, loadUsers s1.localStorage = .ok users1 ∧
        (usernames users1).Nodup :=
  accountOp_usernames_nodup (.ban "alice")
    (storeWithUsers [sampleUser "bob" "hunter22" false, sampleUser "alice" "secret1" false])
    [sampleUser "bob" "hunter22" false, sampleUser "alice" "secret1" false]
    (by with_unfolding_all rfl) (by decide)

end AcueStore

namespace AcueStore

/-! ## The registries the methods write -/

/-- The empty registry is valid. -/
theorem validRegistry_nil : ValidRegistry [] :=
  ⟨List.nodup_nil, fun _ h => by simp at h⟩

/-- A valid registry stays valid when one record is changed in a way that keeps its username
and gives it a password that is not empty. -/
theorem validRegistry_updateFirst (p : UserRecord → Bool) (f : UserRecord → UserRecord)
    (users : List UserRecord) (hname : ∀ u, (f u).username = u.username)
    (hpass : ∀ u, u.password ≠ "" → (f u).password ≠ "") (h : ValidRegistry users) :
    ValidRegistry (updateFirst p f users) := by
  refine ⟨?_, ?_⟩
  · rw [usernames_updateFirst p f hname users]
    exact h.1
  · intro u hu
    rcases mem_updateFirst p f u users hu with hmem | ⟨b, hb, hub⟩
    · exact h.2 u hmem
    · rw [hub, hname b]
      exact ⟨(h.2 b hb).1, hpass b (h.2 b hb).2⟩

/-- A valid registry stays valid when a record with a new username, not empty, and a
password that is not empty is put at its end. -/
theorem validRegistry_append (users : List UserRecord) (n : UserRecord)
    (hn : n.username ∉ usernames users) (hname : n.username ≠ "") (hpass : n.password ≠ "")
    (h : ValidRegistry users) : ValidRegistry (users ++ [n]) := by
  refine ⟨usernames_append_nodup users n h.1 hn, ?_⟩
  intro u hu
  rcases List.mem_append.1 hu with hmem | hmem
  · exact h.2 u hmem
  · rw [List.mem_singleton] at hmem
    rw [hmem]
    exact ⟨hname, hpass⟩

/-- `resetPassword` keeps the registry valid. -/
theorem resetPassword_valid (s : AcueStore) (users : List UserRecord)
    (newPassword : Option String) (hload : loadUsers s.localStorage = .ok users)
    (hvalid : ValidRegistry users) :
    ∃ s1 : AcueStore, resetPassword newPassword s = .ok s1 ∧
      ∃ users1 : List UserRecord, loadUsers s1.localStorage = .ok users1 ∧
        ValidRegistry users1 := by
  unfold resetPassword
  cases s.currentUser with
  | none => exact ⟨_, rfl, users, hload, hvalid⟩
  | some currentUser =>
    cases newPassword with
    | none => exact ⟨_, rfl, users, hload, hvalid⟩
    | some newPassword =>
      simp only
      by_cases h1 : (newPassword == "") = true
      · rw [if_pos h1]
        exact ⟨_, rfl, users, hload, hvalid⟩
      rw [if_neg h1]
      by_cases h2 : jsLength newPassword < 6
      · rw [if_pos h2]
        exact ⟨_, rfl, users, hload, hvalid⟩
      rw [if_neg h2]
      simp only [hload]
      cases users.findIdx? (fun u => u.username == currentUser.username) with
      | none => exact ⟨_, rfl, users, hload, hvalid⟩
      | some i =>
        refine ⟨_, rfl, _, loadUsers_saveUsers _ s, ?_⟩
        apply validRegistry_updateFirst _ _ users _ _ hvalid
        · intro u
          rfl
        · intro u _
          show newPassword ≠ ""
          simpa using h1

/-- `banUser` keeps the registry valid. -/
theorem banUser_valid (s : AcueStore) (users : List UserRecord) (username : String)
    (hload : loadUsers s.localStorage = .ok users) (hvalid : ValidRegistry users) :
    ∃ s1 : AcueStore, banUser username s = .ok s1 ∧
      ∃ users1 : List UserRecord, loadUsers s1.localStorage = .ok users1 ∧
        ValidRegistry users1 := by
  unfold banUser
  simp only [hload]
  cases users.findIdx? (fun u => u.username == username) with
  | none => exact ⟨_, rfl, users, hload, hvalid⟩
  | some i =>
    simp only [loadUsersList, loadUsers_saveUsers]
    refine ⟨_, rfl, _, loadUsers_saveUsers _ s, ?_⟩
    apply validRegistry_updateFirst _ _ users _ _ hvalid
    · intro u
      rfl
    · intro u hu
      exact hu

/-- `unbanUser` keeps the registry valid. -/
theorem unbanUser_valid (s : AcueStore) (users : List UserRecord) (username : String)
    (hload : loadUsers s.localStorage = .ok users) (hvalid : ValidRegistry users) :
    ∃ s1 : AcueStore, unbanUser username s = .ok s1 ∧
      ∃ users1 : List UserRecord, loadUsers s1.localStorage = .ok users1 ∧
        ValidRegistry users1 := by
  unfold unbanUser
  simp only [hload]
  cases users.findIdx? (fun u => u.username == username) with
  | none => exact ⟨_, rfl, users, hload, hvalid⟩
  | some i =>
    simp only [loadUsersList, loadUsers_saveUsers]
    refine ⟨_, rfl, _, loadUsers_saveUsers _ s, ?_⟩
    apply validRegistry_updateFirst _ _ users _ _ hvalid
    · intro u
      rfl
    · intro u hu
      exact hu

/-- Every method of the accounts and the session returns, and keeps the registry valid. -/
theorem accountOp_valid (op : AccountOp) (s : AcueStore) (users : List UserRecord)
    (hload : loadUsers s.localStorage = .ok users) (hvalid : ValidRegistry users) :
    ∃ s1 : AcueStore, op.run s = .ok s1 ∧
      ∃ users1 : List UserRecord, loadUsers s1.localStorage = .ok users1 ∧
        ValidRegistry users1 := by
  cases op with
  | register username password confirmPassword now createdAt =>
    by_cases hfail : username = "" ∨ password = "" ∨ confirmPassword = "" ∨
        password ≠ confirmPassword ∨ jsLength password < 6 ∨ username ∈ usernames users
    · obtain ⟨msg, hmsg⟩ := handleRegister_failure s users username password confirmPassword
        now createdAt hload hfail
      exact ⟨_, hmsg, users, hload, hvalid⟩
    · simp only [not_or, not_not, not_lt] at hfail
      obtain ⟨hname, hpass, _, hconf, hlen, hu⟩ := hfail
      subst hconf
      obtain ⟨s1, hreg, hload1, _⟩ :=
        handleRegister_success s users username password now createdAt hload hu hname hlen
      exact ⟨s1, hreg, _, hload1, validRegistry_append users _ hu hname hpass hvalid⟩
  | login username password =>
    obtain ⟨s1, hrun, hload1⟩ := handleLogin_registry s users username password hload
    exact ⟨s1, hrun, users, hload1, hvalid⟩
  | logout =>
    exact ⟨_, rfl, users, (handleLogout_registry s).trans hload, hvalid⟩
  | resetPassword newPassword => exact resetPassword_valid s users newPassword hload hvalid
  | ban username => exact banUser_valid s users username hload hvalid
  | unban username => exact unbanUser_valid s users username hload hvalid

/-- Every sequence of calls of the methods of the accounts and the session returns, and keeps
the registry valid. -/
theorem runAll_valid (ops : List AccountOp) :
    ∀ (s : AcueStore) (users : List UserRecord), loadUsers s.localStorage = .ok users →
      ValidRegistry users →
      ∃ s1 : AcueStore, AccountOp.runAll ops s = .ok s1 ∧
        ∃ users1 : List UserRecord, loadUsers s1.localStorage = .ok users1 ∧
          ValidRegistry users1 := by
  induction ops with
  | nil =>
    intro s users hload hvalid
    exact ⟨s, rfl, users, hload, hvalid⟩
  | cons op ops ih =>
    intro s users hload hvalid
    obtain ⟨s1, hrun, users1, hload1, hvalid1⟩ := accountOp_valid op s users hload hvalid
    obtain ⟨s2, hrun2, users2, hload2, hvalid2⟩ := ih s1 users1 hload1 hvalid1
    refine ⟨s2, ?_, users2, hload2, hvalid2⟩
    simp only [AccountOp.runAll, hrun]
    exact hrun2

end AcueStore

namespace AcueStore

/-! ## Login of a banned account, in the registries the methods write -/

/-- C26: take any state whose registry is empty and any sequence of calls of
`handleRegister`, `handleLogin`, `handleLogout`, `resetPassword`, `banUser` and `unbanUser`,
with any arguments. The calls return, and for the registry `users` they leave, for every
state `t` over that registry and every record of it with `is_banned = true`, `handleLogin`
with the username and the password of the record shows the message for a banned account and
changes nothing else: the current user and `localStorage` of `t` are as before, so when
nobody is logged in nobody is logged in after it. -/
theorem handleLogin_banned (s₀ : AcueStore) (ops : List AccountOp)
    (h₀ : loadUsers s₀.localStorage = .ok []) :
    ∃ (s : AcueStore) (users : List UserRecord),
      AccountOp.runAll ops s₀ = .ok s ∧ loadUsers s.localStorage = .ok users ∧
      ∀ t : AcueStore, loadUsers t.localStorage = .ok users →
        ∀ u ∈ users, u.is_banned = true →
          handleLogin u.username u.password t
            = .ok (alert "Your account has been banned. Please contact support." t) ∧
          (alert "Your account has been banned. Please contact support." t).currentUser
            = t.currentUser ∧
          (alert "Your account has been banned. Please contact support." t).localStorage
            = t.localStorage ∧
          (t.currentUser = none →
            (alert "Your account has been banned. Please contact support." t).currentUser
              = none) := by
  obtain ⟨s, hrun, users, hload, hvalid⟩ := runAll_valid ops s₀ [] h₀ validRegistry_nil
  refine ⟨s, users, hrun, hload, ?_⟩
  intro t ht u hu hban
  obtain ⟨h1, h2, h3⟩ := handleLogin_banned_of_unique t users u ht hvalid.1 hu hban
    (hvalid.2 u hu).1 (hvalid.2 u hu).2
  exact ⟨h1, h2, h3, fun hnone => hnone⟩

/-- Witness of C26: `alice` registers and is banned; her login is then refused with the
message for a banned account. -/
theorem handleLogin_banned_witness :
    (∃ (s : AcueStore) (users : List UserRecord),
      AccountOp.runAll
          [.register "alice" "secret1" "secret1" 1700000000000 "2023-11-14T22:13:20.000Z",
            .ban "alice"] (new emptyStorage) = .ok s ∧
      loadUsers s.localStorage = .ok users ∧
      ∀ t : AcueStore, loadUsers t.localStorage = .ok users →
        ∀ u ∈ users, u.is_banned = true →
          handleLogin u.username u.password t
            = .ok (alert "Your account has been banned. Please contact support." t) ∧
          (alert "Your account has been banned. Please contact support." t).currentUser
            = t.currentUser ∧
          (alert "Your account has been banned. Please contact support." t).localStorage
            = t.localStorage ∧
          (t.currentUser = none →
            (alert "Your account has been banned. Please contact support." t).currentUser
              = none)) ∧
    (AccountOp.runAll
        [.register "alice" "secret1" "secret1" 1700000000000 "2023-11-14T22:13:20.000Z",
          .ban "alice"] (new emptyStorage)).bind (handleLogin "alice" "secret1")
      = (AccountOp.runAll
          [.register "alice" "secret1" "secret1" 1700000000000 "2023-11-14T22:13:20.000Z",
            .ban "alice"] (new emptyStorage)).map
          (alert "Your account has been banned. Please contact support.") :=
  ⟨handleLogin_banned (new emptyStorage)
      [.register "alice" "secret1" "secret1" 1700000000000 "2023-11-14T22:13:20.000Z",
        .ban "alice"] (by with_unfolding_all rfl),
    by with_unfolding_all rfl⟩

end AcueStore

namespace AcueStore

/-! ## A collection out of rating order, in the running program -/

/-- A collection that is in rating order gets out of it by two edits, and `removeApp` then
makes two records change places. From `[foo, bar, baz]` with the ratings `3`, `2` and `1`,
`saveAppChanges` of `bar` with an empty rating field (`NaN`) and of `baz` with the rating `5`
leave the records in the order `foo`, `bar`, `baz`, now with the ratings `3`, `NaN` and `5`;
the confirmed `removeApp` of `bar` then leaves `baz` before `foo`. -/
theorem removeApp_order_changes_after_edits :
    ((saveAppChanges "baz" "Baz" "Dev" (.fin 5) "About" "social" "https://x" false
        (saveAppChanges "bar" "Bar" "Dev" .nan "About" "social" "https://x" false
          (storeOf [sampleApp "foo" "Foo" (.number (.fin 3)),
            sampleApp "bar" "Bar" (.number (.fin 2)),
            sampleApp "baz" "Baz" (.number (.fin 1))]))).apps.map (fun a => (a.id, a.rating)))
      = [("foo", .number (.fin 3)), ("bar", .number .nan), ("baz", .number (.fin 5))] ∧
    ((removeApp "bar" true
        (saveAppChanges "baz" "Baz" "Dev" (.fin 5) "About" "social" "https://x" false
          (saveAppChanges "bar" "Bar" "Dev" .nan "About" "social" "https://x" false
            (storeOf [sampleApp "foo" "Foo" (.number (.fin 3)),
              sampleApp "bar" "Bar" (.number (.fin 2)),
              sampleApp "baz" "Baz" (.number (.fin 1))])))).apps.map (fun a => a.id))
      = ["baz", "foo"] := by
  decide!

end AcueStore
